import Mathlib

/-!
# smalldv: the FIR filter engine (`src/FirFilter.h`)

A shallow embedding of `KK5JY::DSP::FirFilterUtils` and `KK5JY::DSP::FirFilter<sample_t>`.

Modelling conventions.

* `float` / `double` values are elements of an arbitrary type `α` carrying the arithmetic the
  code uses; theorems are stated over commutative (semi)rings or linearly ordered fields, i.e.
  in exact arithmetic.  Rounding, infinities and NaN are outside the model.
* The `<cmath>` functions `sin`, `cos` and the constant `M_PI` are arguments of the definitions
  that use them, as is the `WindowFunction` pointer of the constructors.
* A C array is a `List` together with explicit bounds checks: a read or write outside the
  allocation makes the operation return `none` (or an error), it is never silently ignored.
* `int` values are `Int`; `/` and `%` on `int` are `Int.tdiv` and `Int.tmod` (truncation).
* The sources call `abs` unqualified on a floating-point value (`FirFilter.h`, line 427, and
  `scdv.cc`, lines 314 and 317).  Which function that names depends on the declarations in scope
  at the call: with `int abs(int)` of `<cstdlib>` alone the argument is converted to `int` first,
  with the overloads of `<cmath>` in the global namespace it is the floating-point absolute
  value.  The function called is therefore an argument `abs` of the definitions that contain such
  a call; `abs_int` and `abs_float` below are the two candidates.
* A division by zero has no value in exact arithmetic (the code obtains an infinity or NaN).  The
  definitions use the field's total division; statements about numeric values are made where no
  divisor is zero, i.e. for a sample rate `fs > 0` and, for the cosine windows, `N > 1` taps.
  `checkedDiv`, `windowAngleChecked` and `omegaChecked` tell where that is.
-/

namespace KK5JY.DSP

/-! ## The two candidates for the unqualified call `abs(x)` -/

/-- The floating-point overloads `float abs(float)` and `double abs(double)`: the absolute value
of the argument. -/
def abs_float {α : Type} [LinearOrderedField α] (x : α) : α := |x|

/-- The C function `int abs(int)` called with a floating-point argument: the argument is converted
to `int`, which discards its fractional part (truncation toward zero; the conversion is undefined
for values outside `int`), and the `int` result is converted back where the caller uses it as a
floating-point value. -/
def abs_int {α : Type} [LinearOrderedField α] [FloorRing α] (x : α) : α :=
  ((|if 0 ≤ x then ⌊x⌋ else ⌈x⌉| : Int) : α)

/-! ## Divisions with a zero divisor -/

/-- The `double` division `x / y` where exact arithmetic has a value for it.  With `y = 0` the
code obtains an infinity or, for `0.0 / 0`, a NaN, neither of which is a number of the model:
`none`. -/
def checkedDiv {α : Type} [Field α] [DecidableEq α] (x y : α) : Option α :=
  if y = 0 then none else some (x / y)

/-! ## `FirFilterUtils::Filter` -/

/-- What one call of `FirFilterUtils::Filter` leaves behind: the returned `output`, the updated
`inputpos` (passed by reference in the source), the updated `history` array, and `macs`, a ghost
counter of the executions of the loop body `output += *hp++ * *cp++`. -/
structure FilterResult (α : Type) where
  output : α
  inputpos : Nat
  history : List α
  macs : Nat
deriving DecidableEq

/-- The loop `while (cp != coef_end) { output += *hp++ * *cp++; if (hp == hist_end) hp = history; }`.
The first numeric argument is the distance `coef_end - cp`; `hp` and `cp` are the offsets of the
two pointers from the start of their arrays.  The last argument counts the loop bodies executed. -/
def FilterLoop {α : Type} [Add α] [Mul α] (history : List α) (hist_len : Nat) (coefs : List α) :
    Nat → Nat → Nat → α → Nat → Option (α × Nat)
  | 0, _, _, output, macs => some (output, macs)
  | n + 1, hp, cp, output, macs =>
    match history[hp]?, coefs[cp]? with
    | some h, some c =>
      FilterLoop history hist_len coefs n (if hp + 1 = hist_len then 0 else hp + 1) (cp + 1)
        (output + h * c) (macs + 1)
    | _, _ => none

/-- The FIR filter core `FirFilterUtils::Filter(input, inputpos, history, hist_len, coefs, coef_len)`
(the single and the double precision overloads have the same body).  `none` stands for undefined
behaviour: a store or load outside `history` / `coefs`, or `% 0`. -/
def Filter {α : Type} [Zero α] [Add α] [Mul α] (input : α) (inputpos : Nat) (history : List α)
    (hist_len : Nat) (coefs : List α) (coef_len : Nat) : Option (FilterResult α) :=
  -- `*hp++ = input;` with `hp = history + inputpos`
  if inputpos < history.length then
    let history1 := history.set inputpos input
    -- `if (hp == hist_end) hp = history;`
    let hp := if inputpos + 1 = hist_len then 0 else inputpos + 1
    match FilterLoop history1 hist_len coefs coef_len hp 0 0 0 with
    | some (output, macs) =>
      -- `inputpos = (inputpos + 1) % hist_len;`
      if hist_len = 0 then none
      else some ⟨output, (inputpos + 1) % hist_len, history1, macs⟩
    | none => none
  else none

/-! ## Window functions and ideal responses -/

/-- The function pointer type `double (*WindowFunction)(int n, int N)`. -/
abbrev WindowFunction (α : Type) := Int → Int → α

/-- The function pointer type `double (*CoefFunction1)(double d, int i, int N)`. -/
abbrev CoefFunction1 (α : Type) := α → Int → Int → α

/-- The function pointer type `double (*CoefFunction2)(double d1, double d2, int i, int N)`. -/
abbrev CoefFunction2 (α : Type) := α → α → Int → Int → α

/-- The angle `(m * M_PI * (n + (N / 2))) / (N - 1)` shared by the window formulas (`m` is 2.0,
4.0 or 6.0); `n + N / 2` and `N - 1` are computed in `int` and then converted.  For `N = 1` the
denominator is 0: the quotient is 0 in a field, whereas the floating-point code divides by zero
(`windowAngleChecked` is `none` there); values for `N = 1` are not used in statements about the
cosine windows. -/
def windowAngle {α : Type} [Field α] (pi : α) (m : α) (n N : Int) : α :=
  (m * pi * ((n + Int.tdiv N 2 : Int) : α)) / ((N - 1 : Int) : α)

/-- The angle of the window formulas with its division checked: `none` when the divisor `N - 1`
is zero, i.e. for a filter with a single tap, where the code computes `(m * M_PI * 0) / 0`. -/
def windowAngleChecked {α : Type} [Field α] [DecidableEq α] (pi : α) (m : α) (n N : Int) :
    Option α :=
  checkedDiv (m * pi * ((n + Int.tdiv N 2 : Int) : α)) ((N - 1 : Int) : α)

/-- The conversion `2 * M_PI * fc / fs` of a cutoff frequency in both constructors with its
division checked: `none` for the sample rate `fs = 0`. -/
def omegaChecked {α : Type} [Field α] [DecidableEq α] (pi : α) (fc : α) (fs : Nat) : Option α :=
  checkedDiv (2 * pi * fc) (fs : α)

/-- The function `FirFilterUtils::HammingWindow`. -/
def HammingWindow {α : Type} [Field α] (cos : α → α) (pi : α) : WindowFunction α :=
  fun n N => 0.54 - (0.46 * cos (windowAngle pi 2 n N))

/-- The function `FirFilterUtils::HannWindow`. -/
def HannWindow {α : Type} [Field α] (cos : α → α) (pi : α) : WindowFunction α :=
  fun n N => 0.50 * (1 - cos (windowAngle pi 2 n N))

/-- The function `FirFilterUtils::BlackmanWindow`. -/
def BlackmanWindow {α : Type} [Field α] (cos : α → α) (pi : α) : WindowFunction α :=
  fun n N => (7938 / 18608)
    - ((9240 / 18608) * cos (windowAngle pi 2 n N))
    + ((1430 / 18608) * cos (windowAngle pi 4 n N))

/-- The function `FirFilterUtils::NuttallWindow`. -/
def NuttallWindow {α : Type} [Field α] (cos : α → α) (pi : α) : WindowFunction α :=
  fun n N => 0.355768
    - (0.487396 * cos (windowAngle pi 2 n N))
    + (0.144232 * cos (windowAngle pi 4 n N))
    - (0.012604 * cos (windowAngle pi 6 n N))

/-- The function `FirFilterUtils::BlackmanNuttallWindow`. -/
def BlackmanNuttallWindow {α : Type} [Field α] (cos : α → α) (pi : α) : WindowFunction α :=
  fun n N => 0.3635819
    - (0.4891775 * cos (windowAngle pi 2 n N))
    + (0.1365995 * cos (windowAngle pi 4 n N))
    - (0.0106511 * cos (windowAngle pi 6 n N))

/-- The function `FirFilterUtils::BlackmanHarrisWindow`. -/
def BlackmanHarrisWindow {α : Type} [Field α] (cos : α → α) (pi : α) : WindowFunction α :=
  fun n N => 0.35875
    - (0.48829 * cos (windowAngle pi 2 n N))
    + (0.14128 * cos (windowAngle pi 4 n N))
    - (0.01168 * cos (windowAngle pi 6 n N))

/-- The function `FirFilterUtils::FlatTopWindow`; the fourth cosine has the argument of the
third, as in the source. -/
def FlatTopWindow {α : Type} [Field α] (cos : α → α) (pi : α) : WindowFunction α :=
  fun n N => 1
    - (1.93 * cos (windowAngle pi 2 n N))
    + (1.29 * cos (windowAngle pi 4 n N))
    - (0.388 * cos (windowAngle pi 6 n N))
    + (0.028 * cos (windowAngle pi 6 n N))

/-- The function `FirFilterUtils::RectangleWindow`. -/
def RectangleWindow {α : Type} [Field α] : WindowFunction α :=
  fun _ _ => 1

/-- The catalogue of window functions that `FirFilterUtils` offers. -/
def windowCatalog {α : Type} [Field α] (cos : α → α) (pi : α) : List (WindowFunction α) :=
  [HammingWindow cos pi, HannWindow cos pi, BlackmanWindow cos pi, NuttallWindow cos pi,
    BlackmanNuttallWindow cos pi, BlackmanHarrisWindow cos pi, FlatTopWindow cos pi,
    RectangleWindow]

/-- The function `FirFilterUtils::IdealLowPass`. -/
def IdealLowPass {α : Type} [Field α] (sin : α → α) (pi : α) : CoefFunction1 α :=
  fun omega_c n _ =>
    if n = 0 then omega_c / pi
    else sin (omega_c * (n : α)) / (pi * (n : α))

/-- The function `FirFilterUtils::IdealHighPass`. -/
def IdealHighPass {α : Type} [Field α] (sin : α → α) (pi : α) : CoefFunction1 α :=
  fun omega_c n _ =>
    if n = 0 then 1 - (omega_c / pi)
    else -1 * sin (omega_c * (n : α)) / (pi * (n : α))

/-- The function `FirFilterUtils::IdealBandPass`. -/
def IdealBandPass {α : Type} [Field α] (sin : α → α) (pi : α) : CoefFunction2 α :=
  fun omega_1 omega_2 n _ =>
    if n = 0 then (omega_2 - omega_1) / pi
    else (sin (omega_2 * (n : α)) / (pi * (n : α))) - (sin (omega_1 * (n : α)) / (pi * (n : α)))

/-- The function `FirFilterUtils::IdealBandStop`. -/
def IdealBandStop {α : Type} [Field α] (sin : α → α) (pi : α) : CoefFunction2 α :=
  fun omega_1 omega_2 n _ =>
    if n = 0 then 1 - ((omega_2 - omega_1) / pi)
    else (sin (omega_1 * (n : α)) / (pi * (n : α))) - (sin (omega_2 * (n : α)) / (pi * (n : α)))

/-! ## Coefficient generation -/

/-- The ways in which generation or construction can fail: the exception class of the source,
the exception of an array `new` with a negative length, and an access outside an array. -/
inductive Failure where
  | FirFilterException (what : String)
  | bad_array_new_length
  | out_of_bounds
deriving DecidableEq

/-- A counted loop `for (i = start; ...; ++i) body`, run for `n` iterations from index `i`; the
body may fail. -/
def forLoop {σ : Type} (body : Nat → σ → Option σ) : Nat → Nat → σ → Option σ
  | 0, _, s => some s
  | n + 1, i, s =>
    match body i s with
    | some s1 => forLoop body n (i + 1) s1
    | none => none

/-- The body shared by the two overloads of `FirFilterUtils::GenerateCoefficients`, with the call
`g(omega..., i, length)` passed as `hn`:
`limit = length / 2; result = new double[length];`
`for (i = -limit; i <= limit; ++i) result[i + limit] = f(i, length) * hn(i);`.
Iteration `k` of the loop has `i = -limit + k`.  The fresh array is modelled as zero-filled. -/
def GenerateCoefficientsWith {α : Type} [Field α] (f : WindowFunction α) (hn : Int → α)
    (length : Int) : Except Failure (List α) :=
  let limit := Int.tdiv length 2
  if length < 0 then .error .bad_array_new_length
  else
    let result : List α := List.replicate length.toNat 0
    let body : Nat → List α → Option (List α) := fun k result =>
      let i : Int := -limit + (k : Int)
      let wn := f i length
      let hn := hn i
      if 0 ≤ i + limit ∧ (i + limit).toNat < result.length then
        some (result.set (i + limit).toNat (wn * hn))
      else none
    match forLoop body (limit - (-limit) + 1).toNat 0 result with
    | some result => .ok result
    | none => .error .out_of_bounds

/-- The overload `GenerateCoefficients(WindowFunction f, CoefFunction1 g, int length, double omega_c)`. -/
def GenerateCoefficients {α : Type} [Field α] (f : WindowFunction α) (g : CoefFunction1 α)
    (length : Int) (omega_c : α) : Except Failure (List α) :=
  GenerateCoefficientsWith f (fun i => g omega_c i length) length

/-- The overload `GenerateCoefficients(WindowFunction f, CoefFunction2 g, int length,
double omega_c1, double omega_c2)`. -/
def GenerateCoefficients2 {α : Type} [Field α] (f : WindowFunction α) (g : CoefFunction2 α)
    (length : Int) (omega_c1 omega_c2 : α) : Except Failure (List α) :=
  GenerateCoefficientsWith f (fun i => g omega_c1 omega_c2 i length) length

/-- The function `FirFilterUtils::GenerateLowPassCoefficients<T>` (the narrowing copy of the
single precision specialization is the identity in exact arithmetic). -/
def GenerateLowPassCoefficients {α : Type} [Field α] (sin : α → α) (pi : α)
    (f : WindowFunction α) (length : Int) (omega_c : α) : Except Failure (List α) :=
  GenerateCoefficients f (IdealLowPass sin pi) length omega_c

/-- The function `FirFilterUtils::GenerateHighPassCoefficients<T>`. -/
def GenerateHighPassCoefficients {α : Type} [Field α] (sin : α → α) (pi : α)
    (f : WindowFunction α) (length : Int) (omega_c : α) : Except Failure (List α) :=
  GenerateCoefficients f (IdealHighPass sin pi) length omega_c

/-- The function `FirFilterUtils::GenerateBandPassCoefficients<T>`. -/
def GenerateBandPassCoefficients {α : Type} [Field α] (sin : α → α) (pi : α)
    (f : WindowFunction α) (length : Int) (omega_c1 omega_c2 : α) : Except Failure (List α) :=
  GenerateCoefficients2 f (IdealBandPass sin pi) length omega_c1 omega_c2

/-- The function `FirFilterUtils::GenerateBandStopCoefficients<T>`. -/
def GenerateBandStopCoefficients {α : Type} [Field α] (sin : α → α) (pi : α)
    (f : WindowFunction α) (length : Int) (omega_c1 omega_c2 : α) : Except Failure (List α) :=
  GenerateCoefficients2 f (IdealBandStop sin pi) length omega_c1 omega_c2

/-! ## `FirFilter<sample_t>` -/

/-- The data members of `FirFilter<sample_t>`. -/
structure FirFilter (α : Type) where
  m_InputPos : Nat
  m_History : List α
  m_Coefs : List α
  Length : Int
  OverallGain : α
  GainCorrection : α
deriving DecidableEq

namespace FirFilter

/-- The member `sample_t filter(sample_t sample)`: it calls
`FirFilterUtils::Filter(sample, m_InputPos, m_History, Length, m_Coefs, Length)`; the returned
pair is the output sample and the object after the call.  `Length` is converted to `size_t`; it is
at least 1 in every constructed object. -/
def filter {α : Type} [Zero α] [Add α] [Mul α] (F : FirFilter α) (sample : α) :
    Option (α × FirFilter α) :=
  match Filter sample F.m_InputPos F.m_History F.Length.toNat F.m_Coefs F.Length.toNat with
  | some r => some (r.output, { F with m_InputPos := r.inputpos, m_History := r.history })
  | none => none

/-- The enumeration `FirFilter::Types` (`LowPass`, `HighPass`, `BandPass`, `BandStop`).  A value
of the type is its underlying integer, so that a cast value outside the four enumerators, which
the `default:` labels of the constructors handle, is representable. -/
abbrev Types := Int

/-- Enumerator `LowPass`. -/
def Types.LowPass : Types := 0

/-- Enumerator `HighPass`. -/
def Types.HighPass : Types := 1

/-- Enumerator `BandPass`. -/
def Types.BandPass : Types := 2

/-- Enumerator `BandStop`. -/
def Types.BandStop : Types := 3

/-- Body of the first loop of `CalculateGain`, at index `i`:
`m_History[i] = 0; items.push_back(abs(m_Coefs[i]));`.  The state is `(m_History, items)`; the
first argument is the function that the unqualified name `abs` refers to. -/
def CalculateGain.body1 {α : Type} [Zero α] (abs : α → α) (m_Coefs : List α) (i : Nat)
    (st : List α × List α) : Option (List α × List α) :=
  if i < st.1.length then
    match m_Coefs[i]? with
    | some c => some (st.1.set i 0, st.2 ++ [abs c])
    | none => none
  else none

/-- Body of the last loop of `CalculateGain`, at index `i`: `m_Coefs[i] *= GainCorrection;`. -/
def CalculateGain.body3 {α : Type} [Mul α] (GainCorrection : α) (i : Nat) (m_Coefs : List α) :
    Option (List α) :=
  match m_Coefs[i]? with
  | some c => some (m_Coefs.set i (c * GainCorrection))
  | none => none

/-- The private member `void CalculateGain(Types type)`.  The first argument is the function
called by the unqualified `abs(m_Coefs[i])` (`abs_int` when only `int abs(int)` is in scope at
the definition of the template, `abs_float` otherwise); `std::sort` is a sort by `≤`.  The loops
`for (int i = 0; i != Length; ++i)` index `m_History` and `m_Coefs`; an index outside an array
(in particular any negative `Length`) is `none`. -/
def CalculateGain {α : Type} [LinearOrderedField α] (abs : α → α) (F : FirFilter α)
    (_type : Types) : Option (FirFilter α) :=
  if F.Length < 0 then none
  else
    match forLoop (CalculateGain.body1 abs F.m_Coefs) F.Length.toNat 0 (F.m_History, []) with
    | none => none
    | some st =>
      let m_History := st.1
      -- `std::sort(items.begin(), items.end());`
      let items := st.2.insertionSort (fun a b => a ≤ b)
      -- `OverallGain = 0.0; for (i = 0; i != items.size(); ++i) OverallGain += items[i];`
      let OverallGain : α := items.foldl (fun acc x => acc + x) 0
      -- `GainCorrection = 1.0; if (OverallGain != 0) GainCorrection = 1.0 / OverallGain;`
      let GainCorrection : α := if OverallGain ≠ 0 then 1 / OverallGain else 1
      match forLoop (CalculateGain.body3 GainCorrection) F.Length.toNat 0 F.m_Coefs with
      | none => none
      | some m_Coefs =>
        some { F with m_History := m_History, m_Coefs := m_Coefs, OverallGain := OverallGain,
                      GainCorrection := GainCorrection }

/-- The length normalization of both constructors: `if ((length % 2) == 0) ++length;`. -/
def oddLength (length : Int) : Int :=
  if Int.tmod length 2 = 0 then length + 1 else length

/-- The tail shared by both constructors once the coefficients exist:
`m_History = new sample_t[length]; m_InputPos = 0; CalculateGain(type);`.  The gain members are
not initialized before `CalculateGain` assigns them; they are modelled as 0 until then. -/
def finishConstruction {α : Type} [LinearOrderedField α] (abs : α → α) (type : Types)
    (length : Int) (m_Coefs : List α) : Except Failure (FirFilter α) :=
  if length < 0 then .error .bad_array_new_length
  else
    let m_History : List α := List.replicate length.toNat 0
    match CalculateGain abs ⟨0, m_History, m_Coefs, length, 0, 0⟩ type with
    | some F => .ok F
    | none => .error .out_of_bounds

/-- The `switch (type)` of the constructor for LPF and HPF: the pre-normalization coefficients
it generates, or the exception it throws. -/
def generate1 {α : Type} [Field α] (sin : α → α) (pi : α) (type : Types)
    (f : WindowFunction α) (length : Int) (omega_c : α) : Except Failure (List α) :=
  if type = Types.LowPass then GenerateLowPassCoefficients sin pi f length omega_c
  else if type = Types.HighPass then GenerateHighPassCoefficients sin pi f length omega_c
  else if type = Types.BandPass ∨ type = Types.BandStop then
    .error (.FirFilterException
      "This constructor cannot be used for bandpass and bandstop filters")
  else .error (.FirFilterException "Unknown filter type specified")

/-- The `switch (type)` of the constructor for BPF and BSF: the pre-normalization coefficients
it generates, or the exception it throws. -/
def generate2 {α : Type} [Field α] (sin : α → α) (pi : α) (type : Types)
    (f : WindowFunction α) (length : Int) (omega_c1 omega_c2 : α) : Except Failure (List α) :=
  if type = Types.BandPass then GenerateBandPassCoefficients sin pi f length omega_c1 omega_c2
  else if type = Types.BandStop then
    GenerateBandStopCoefficients sin pi f length omega_c1 omega_c2
  else if type = Types.LowPass ∨ type = Types.HighPass then
    .error (.FirFilterException "This constructor is only for bandpass and bandstop filters")
  else .error (.FirFilterException "Unknown filter type specified")

/-- The constructor for LPF and HPF,
`FirFilter(Types type, int length, double fc, size_t fs, WindowFunction f)`.  The first argument
is the function that `abs` names in `CalculateGain`.  For `fs = 0` the code divides by zero
(`omegaChecked` is `none`); the quotient of the field is used only for `fs > 0` in statements
about tap values. -/
def new1 {α : Type} [LinearOrderedField α] (abs : α → α) (sin : α → α) (pi : α) (type : Types)
    (length : Int) (fc : α) (fs : Nat) (f : WindowFunction α) : Except Failure (FirFilter α) :=
  let length := oddLength length
  let omega_c : α := 2 * pi * fc / (fs : α)
  match generate1 sin pi type f length omega_c with
  | .error e => .error e
  | .ok m_Coefs => finishConstruction abs type length m_Coefs

/-- The constructor for BPF and BSF,
`FirFilter(Types type, int length, double f1, double f2, size_t fs, WindowFunction f)`; `abs` and
`fs = 0` as for the other constructor. -/
def new2 {α : Type} [LinearOrderedField α] (abs : α → α) (sin : α → α) (pi : α) (type : Types)
    (length : Int) (f1 f2 : α) (fs : Nat) (f : WindowFunction α) : Except Failure (FirFilter α) :=
  let length := oddLength length
  let omega_c1 : α := 2 * pi * f1 / (fs : α)
  let omega_c2 : α := 2 * pi * f2 / (fs : α)
  match generate2 sin pi type f length omega_c1 omega_c2 with
  | .error e => .error e
  | .ok m_Coefs => finishConstruction abs type length m_Coefs

/-- Test harness: feed the samples of a list to `filter`, one call per sample, oldest first, and
collect the returned values in order. -/
def run {α : Type} [Zero α] [Add α] [Mul α] : FirFilter α → List α → Option (List α × FirFilter α)
  | F, [] => some ([], F)
  | F, x :: xs =>
    match F.filter x with
    | some (y, F1) =>
      match run F1 xs with
      | some (ys, F2) => some (y :: ys, F2)
      | none => none
    | none => none

end FirFilter

/-- The `t`-th sample of an input sequence `x_1, x_2, ...` given as a list, with `x_t = 0` for
`t ≤ 0` (and beyond the end of the list). -/
def sampleAt {α : Type} [Zero α] (xs : List α) (t : Int) : α :=
  if t ≤ 0 then 0 else xs.getD (t - 1).toNat 0

/-- Closed form of the pre-normalization taps for the odd length `2 * limit + 1`: entry `k` is
`f(i, length) * hn(i)` with `i = k - limit`.  (`GenerateCoefficientsWith_eq` below proves that
the generator returns this list.) -/
def windowedTaps {α : Type} [Field α] (f : WindowFunction α) (hn : Int → α) (limit : Nat) :
    List α :=
  (List.range (2 * limit + 1)).map
    (fun k : Nat => f ((k : Int) - limit) (2 * (limit : Int) + 1) * hn ((k : Int) - limit))

/-- Closed form of the gain correction computed by `CalculateGain` from the pre-normalization
taps: the reciprocal of the sum of the values `abs(tap)`, or 1 when that sum is 0. -/
def gainCorrectionOf {α : Type} [LinearOrderedField α] (abs : α → α) (taps : List α) : α :=
  if (taps.map abs).sum ≠ 0 then 1 / (taps.map abs).sum else 1

/-- Closed form of the object that construction yields from the pre-normalization taps.
(`finishConstruction_eq` below proves that the constructors return this object.) -/
def constructed {α : Type} [LinearOrderedField α] (abs : α → α) (taps : List α) :
    FirFilter α :=
  { m_InputPos := 0
    m_History := List.replicate taps.length 0
    m_Coefs := taps.map (fun c => c * gainCorrectionOf abs taps)
    Length := taps.length
    OverallGain := (taps.map abs).sum
    GainCorrection := gainCorrectionOf abs taps }

/-- Direct-form FIR output at time `m` for the coefficients `c` and the inputs `x_1, x_2, ...`:
the sum over `k < N` of `c[k] * x_{m - (N - 1 - k)}`, where `N` is the number of coefficients. -/
def firOutput {α : Type} [CommSemiring α] (c xs : List α) (m : Int) : α :=
  ∑ k in Finset.range c.length, c.getD k 0 * sampleAt xs (m - ((c.length : Int) - 1 - (k : Int)))

namespace FirFilter

/-- The object that a call `filter(x)` leaves behind when it stays inside its arrays: `x` stored at
the cursor, the cursor advanced modulo `Length`. -/
def next {α : Type} (F : FirFilter α) (x : α) : FirFilter α :=
  { F with m_InputPos := (F.m_InputPos + 1) % F.Length.toNat,
           m_History := F.m_History.set F.m_InputPos x }

/-- Class invariant of a filter object: at least one tap, both arrays hold `Length` elements and
the cursor is inside the ring. -/
def WellFormed {α : Type} (F : FirFilter α) : Prop :=
  1 ≤ F.Length ∧ F.m_History.length = F.Length.toNat ∧ F.m_Coefs.length = F.Length.toNat ∧
    F.m_InputPos < F.Length.toNat

instance {α : Type} (F : FirFilter α) : Decidable F.WellFormed := by
  unfold WellFormed
  infer_instance

/-- The ring buffer of `F` holds the last `Length` samples of the input sequence `past` (zero
before its start): the cursor is `|past| mod Length`, and the sample received `d` calls ago sits
`d + 1` slots behind the cursor, cyclically. -/
def Tracks {α : Type} [Zero α] (F : FirFilter α) (past : List α) : Prop :=
  F.m_InputPos = past.length % F.Length.toNat ∧
    ∀ d : Nat, d < F.Length.toNat →
      F.m_History.getD ((past.length + F.Length.toNat - 1 - d) % F.Length.toNat) 0 =
        sampleAt past ((past.length : Int) - (d : Int))

end FirFilter

end KK5JY.DSP

/-! ## The sound card bridge (`src/scdv.h`, `src/scdv.cc`, `src/localtypes.h`)

Further modelling conventions.

* The FreeDV modem is external: it is a parameter `M : Modem μ` over an arbitrary type `μ` of
  modem states.  A statement proved for every `M` holds for the real modem.
* The implicit conversion from `float` to `int16_t` (in `push_back` on the two queues) is a
  parameter `toInt16 : α → Int`; the conversion from `int16_t` to `float` is the cast of an
  integer.
* The interleaved buffers of the audio callback are lists; a read outside the input buffer is
  `none`; the output buffer is the list of the values written through `*out++`, in order.
* `size_t` values are natural numbers (no wraparound of `10 * nin`); `uint8_t` and `uint64_t`
  counters wrap explicitly.
-/

/-- The macro `CLIP_LIMIT` of `localtypes.h`. -/
def CLIP_LIMIT {α : Type} [Field α] : α := 0.90

/-- The macro `CARD_FS` of `localtypes.h`. -/
def CARD_FS : Nat := 48000

/-- The macro `MODEM_FS` of `localtypes.h`. -/
def MODEM_FS : Nat := 8000

/-- The macro `FILTER_LEN` of `localtypes.h`. -/
def FILTER_LEN : Int := 15

/-- The macro `FILTER_COF` of `localtypes.h`. -/
def FILTER_COF : Nat := 2800

/-- The constant `SHRT_MAX` of `<climits>` for a 16-bit `short`. -/
def SHRT_MAX : Int := 32767

/-- The enumeration `ModesDV : uint8_t` of `localtypes.h`, as its underlying value (any byte can
be passed where a `ModesDV` is expected). -/
abbrev ModesDV := Nat

/-- Enumerator `Mute`. -/
def ModesDV.Mute : ModesDV := 0

/-- Enumerator `Pass`. -/
def ModesDV.Pass : ModesDV := 1

/-- Enumerator `RX`. -/
def ModesDV.RX : ModesDV := 2

/-- Enumerator `TX`. -/
def ModesDV.TX : ModesDV := 3

/-- Enumerator `MinValue = Mute`. -/
def ModesDV.MinValue : ModesDV := ModesDV.Mute

/-- Enumerator `MaxValue = TX`. -/
def ModesDV.MaxValue : ModesDV := ModesDV.TX

/-- The part of the FreeDV API that `SoundCardDV::event` calls, over a type `μ` of modem states.
`freedv_nin` is the query of the same name.  `freedv_rx m modem_out modem_in` and
`freedv_tx m modem_out modem_in` return the modem state after the call and the contents of the
array `modem_out` after the call; `freedv_rx` also returns its result, the number of samples it
produced. -/
structure Modem (μ : Type) where
  freedv_nin : μ → Nat
  freedv_rx : μ → List Int → List Int → μ × List Int × Nat
  freedv_tx : μ → List Int → List Int → μ × List Int

/-- The data members of `SoundCardDV` that the audio callback and the mode accessors use, with
the channel counts of the base class `SoundCard` (`paramsIn.nChannels`, `paramsOut.nChannels`).
`modem_in` and `modem_out` are the contents of the two `malloc`ed arrays. -/
structure SoundCardDV (α μ : Type) where
  channelsIn : Nat
  channelsOut : Nat
  mMode : ModesDV
  modem_in : List Int
  modem_out : List Int
  n_speech_samples : Nat
  n_nom_modem_samples : Nat
  n_max_modem_samples : Nat
  m_freedv : μ
  m_Frames : Nat
  clipping : Bool
  in_buffer : List Int
  out_buffer : List Int
  dec_ctr : Nat
  m_DecFilter : KK5JY.DSP.FirFilter α
  m_IntFilter : KK5JY.DSP.FirFilter α

/-- The value of the conversion from `float` to `int16_t` where C++ defines it: the fractional
part is discarded (truncation toward zero).  It serves as the conversion in concrete examples. -/
def truncToInt16 {α : Type} [LinearOrderedField α] [FloorRing α] (x : α) : Int :=
  if 0 ≤ x then ⌊x⌋ else ⌈x⌉

namespace SoundCardDV

/-- The accessor `bool mode(const ModesDV &newMode)`: the returned flag and the object after the
call. -/
def setMode {α μ : Type} (s : SoundCardDV α μ) (newMode : ModesDV) : Bool × SoundCardDV α μ :=
  if newMode < ModesDV.MinValue ∨ newMode > ModesDV.MaxValue then (false, s)
  else (true, { s with mMode := newMode })

/-- The accessor `ModesDV mode() const`. -/
def mode {α μ : Type} (s : SoundCardDV α μ) : ModesDV := s.mMode

/-- The accessor `bool clipped()`: the returned flag and the object after the call. -/
def clipped {α μ : Type} (s : SoundCardDV α μ) : Bool × SoundCardDV α μ :=
  (s.clipping, { s with clipping := false })

/-- The accessor `uint64_t frames() const`. -/
def frames {α μ : Type} (s : SoundCardDV α μ) : Nat := s.m_Frames

/-- A counted loop whose body cannot fail, run for `n` iterations from index `i`. -/
def forEach {σ : Type} (body : Nat → σ → σ) : Nat → Nat → σ → σ
  | 0, _, st => st
  | n + 1, i, st => forEach body n (i + 1) (body i st)

/-- The inner loop `for (size_t j = 0; j != co; ++j) *out++ = v;` on the list of the values
written so far. -/
def fanOut {α : Type} (co : Nat) (v : α) (out : List α) : List α :=
  forEach (fun _ out => out ++ [v]) co 0 out

/-- The loops of the `Mute` case (and of the underflow branch of the frame drain):
`for (i = 0; i != count; ++i) for (j = 0; j != co; ++j) *out++ = 0;`. -/
def muteLoop {α : Type} [Zero α] (co count : Nat) : List α :=
  forEach (fun _ out => fanOut co 0 out) count 0 []

/-- Body of the loop of the `Pass` case at frame `i`:
`float sample = *in; in += ci; for (j ...) *out++ = sample;`. -/
def passBody {α : Type} (inp : List α) (ci co : Nat) (i : Nat) (out : List α) :
    Option (List α) :=
  match inp[i * ci]? with
  | some sample => some (fanOut co sample out)
  | none => none

/-- Body of the input loop of the `RX`/`TX` case at frame `i`:
`float sample = *in; in += ci;` the two clip tests around `sample = m_DecFilter.filter(sample);`
and the decimation counter.  The first argument is the function that the unqualified name `abs`
refers to in `scdv.cc`; its `int` or `float` result is compared with the `double` constant. -/
def inputBody {α μ : Type} [LinearOrderedField α] (abs : α → α) (toInt16 : α → Int) (inp : List α)
    (ci : Nat) (i : Nat) (s : SoundCardDV α μ) : Option (SoundCardDV α μ) :=
  -- `float sample = *in; in += ci;`
  match inp[i * ci]? with
  | none => none
  | some sample =>
    -- `sample = m_DecFilter.filter(sample);`
    match s.m_DecFilter.filter sample with
    | none => none
    | some r =>
      -- `if (abs(sample) >= CLIP_LIMIT) clipping = true;` before and after the filter
      let clipping1 : Bool := if abs sample ≥ CLIP_LIMIT then true else s.clipping
      let clipping2 : Bool := if abs r.1 ≥ CLIP_LIMIT then true else clipping1
      -- `if (++dec_ctr == (CARD_FS / MODEM_FS)) { dec_ctr = 0; in_buffer.push_back(...); }`
      if (s.dec_ctr + 1) % 256 = CARD_FS / MODEM_FS then
        some { s with clipping := clipping2, m_DecFilter := r.2, dec_ctr := 0,
                      in_buffer := s.in_buffer ++ [toInt16 (((SHRT_MAX : Int) : α) * r.1)] }
      else
        some { s with clipping := clipping2, m_DecFilter := r.2,
                      dec_ctr := (s.dec_ctr + 1) % 256 }

/-- The input loop of the `RX`/`TX` case,
`for (size_t i = 0; (i != count) && (in_buffer.size() <= (10 * nin)); ++i) { ... }`.
The first numeric argument is `count - i`. -/
def inputLoop {α μ : Type} [LinearOrderedField α] (abs : α → α) (toInt16 : α → Int)
    (inp : List α) (ci nin : Nat) : Nat → Nat → SoundCardDV α μ → Option (SoundCardDV α μ)
  | 0, _, s => some s
  | n + 1, i, s =>
    if s.in_buffer.length ≤ 10 * nin then
      match inputBody abs toInt16 inp ci i s with
      | some s1 => inputLoop abs toInt16 inp ci nin n (i + 1) s1
      | none => none
    else some s

/-- Body of the loop that fills the modem input, at index `i`, on the pair of the array
`modem_in` and the queue `in_buffer`: `*toCopy++ = in_buffer.front(); in_buffer.pop_front();`. -/
def copyBody (i : Nat) (st : List Int × List Int) : Option (List Int × List Int) :=
  match st.2 with
  | [] => none
  | x :: rest => if i < st.1.length then some (st.1.set i x, rest) else none

/-- Body of the upsampling loop `for (j = 0; j != (CARD_FS / MODEM_FS); ++j)` on the pair of the
queue `out_buffer` and the interpolation filter:
`out_buffer.push_back(m_IntFilter.filter(sample));`. -/
def upsampleBody {α : Type} [Zero α] [Add α] [Mul α] (toInt16 : α → Int) (sample : α) (_j : Nat)
    (st : List Int × KK5JY.DSP.FirFilter α) : Option (List Int × KK5JY.DSP.FirFilter α) :=
  match st.2.filter sample with
  | some (y, F) => some (st.1 ++ [toInt16 y], F)
  | none => none

/-- The interpolation loop
`for (size_t i = 0; (i != nout) && (out_buffer.size() <= (10 * nout)); ++i) { ... }` on the pair
of the queue `out_buffer` and the interpolation filter.  The first numeric argument is
`nout - i`. -/
def interpLoop {α : Type} [Ring α] (toInt16 : α → Int) (modem_out : List Int) (nout : Nat) :
    Nat → Nat → List Int × KK5JY.DSP.FirFilter α → Option (List Int × KK5JY.DSP.FirFilter α)
  | 0, _, st => some st
  | n + 1, i, st =>
    if st.1.length ≤ 10 * nout then
      -- `float sample = *toCopy++;`
      match modem_out[i]? with
      | none => none
      | some v =>
        match KK5JY.DSP.forLoop (upsampleBody toInt16 ((v : Int) : α)) (CARD_FS / MODEM_FS) 0
            st with
        | some st1 => interpLoop toInt16 modem_out nout n (i + 1) st1
        | none => none
    else some st

/-- The modem phase of the `RX`/`TX` case: `if (in_buffer.size() >= nin) { ... }`, that is the
copy of `nin` queued samples to `modem_in`, the call of the modem and the interpolation of its
output into `out_buffer`. -/
def modemPhase {α μ : Type} [Ring α] (M : Modem μ) (toInt16 : α → Int) (nin : Nat)
    (s : SoundCardDV α μ) : Option (SoundCardDV α μ) :=
  if s.in_buffer.length ≥ nin then
    match KK5JY.DSP.forLoop copyBody nin 0 (s.modem_in, s.in_buffer) with
    | none => none
    | some copied =>
      -- `nout = freedv_rx(...)`, or `freedv_tx(...); nout = n_nom_modem_samples;`
      let sent := M.freedv_tx s.m_freedv s.modem_out copied.1
      let called : μ × List Int × Nat :=
        if s.mMode = ModesDV.RX then M.freedv_rx s.m_freedv s.modem_out copied.1
        else (sent.1, sent.2, s.n_nom_modem_samples)
      match interpLoop toInt16 called.2.1 called.2.2 called.2.2 0
          (s.out_buffer, s.m_IntFilter) with
      | none => none
      | some st =>
        some { s with modem_in := copied.1, in_buffer := copied.2, m_freedv := called.1,
                      modem_out := called.2.1, out_buffer := st.1, m_IntFilter := st.2 }
  else some s

/-- The call of the modem in the modem phase, on the filled array `modem_in`:
`if (mMode == ModesDV::RX) { nout = freedv_rx(m_freedv, modem_out, modem_in); } else {
freedv_tx(m_freedv, modem_out, modem_in); nout = n_nom_modem_samples; }`.  It returns the modem
state and the contents of `modem_out` after the call, and `nout`. -/
def modemCall {α μ : Type} (M : Modem μ) (s : SoundCardDV α μ)
    (modem_in : List Int) : μ × List Int × Nat :=
  if s.mMode = ModesDV.RX then M.freedv_rx s.m_freedv s.modem_out modem_in
  else ((M.freedv_tx s.m_freedv s.modem_out modem_in).1,
    (M.freedv_tx s.m_freedv s.modem_out modem_in).2, s.n_nom_modem_samples)

/-- Body of the drain loop at frame `i`, on the pair of the values written so far and the queue
`out_buffer`: `out_sample = static_cast<float>(out_buffer.front()) / SHRT_MAX;`
`for (j ...) *out++ = out_sample; out_buffer.pop_front();`. -/
def drainBody {α : Type} [Field α] (co : Nat) (_i : Nat) (st : List α × List Int) :
    Option (List α × List Int) :=
  match st.2 with
  | [] => none
  | x :: rest => some (fanOut co (((x : Int) : α) / ((SHRT_MAX : Int) : α)) st.1, rest)

/-- The output phase of the `RX`/`TX` case: `if (out_buffer.size() >= count) { ... } else { ... }`.
It returns the object after the phase and the values written to the output buffer. -/
def drain {α μ : Type} [Field α] (s : SoundCardDV α μ) (count : Nat) :
    Option (SoundCardDV α μ × List α) :=
  if s.out_buffer.length ≥ count then
    match KK5JY.DSP.forLoop (drainBody s.channelsOut) count 0 ([], s.out_buffer) with
    | some st => some ({ s with out_buffer := st.2 }, st.1)
    | none => none
  else some (s, muteLoop s.channelsOut count)

/-- The sound event handler `void SoundCardDV::event(float *in, float *out, size_t count)`: the
object after the call and the values written to `out`.  A mode value outside the enumeration
matches no `case`.  The first argument is the function that `abs` names in the clip tests. -/
def event {α μ : Type} [LinearOrderedField α] (abs : α → α) (M : Modem μ) (toInt16 : α → Int)
    (s : SoundCardDV α μ) (inp : List α) (count : Nat) : Option (SoundCardDV α μ × List α) :=
  -- `++m_Frames;`
  let s0 : SoundCardDV α μ := { s with m_Frames := (s.m_Frames + 1) % 2 ^ 64 }
  if s0.mMode = ModesDV.Mute then
    some (s0, muteLoop s0.channelsOut count)
  else if s0.mMode = ModesDV.Pass then
    match KK5JY.DSP.forLoop (passBody inp s0.channelsIn s0.channelsOut) count 0 [] with
    | some out => some (s0, out)
    | none => none
  else if s0.mMode = ModesDV.RX ∨ s0.mMode = ModesDV.TX then
    -- `size_t nin = (mMode == ModesDV::RX) ? freedv_nin(m_freedv) : n_speech_samples;`
    let nin : Nat := if s0.mMode = ModesDV.RX then M.freedv_nin s0.m_freedv
      else s0.n_speech_samples
    match inputLoop abs toInt16 inp s0.channelsIn nin count 0 s0 with
    | none => none
    | some s1 =>
      match modemPhase M toInt16 nin s1 with
      | none => none
      | some s2 => drain s2 count
  else some (s0, [])

/-- The ways in which the construction of a `SoundCardDV` can fail: a failure of one of the two
filter constructors, or the `local_exception` thrown by the constructor body. -/
inductive ConstructionFailure where
  | filter (e : KK5JY.DSP.Failure)
  | local_exception (what : String)
deriving DecidableEq

/-- The constructor `SoundCardDV::SoundCardDV(int modem, int id, int win)`.  What it obtains from
outside is passed in: the channel counts of the device, the result `opened` of `freedv_open`
(`none` for a null handle) and the three sample counts queried from the modem.  The member
initializers run before the body, so the filters are built first.  The two `malloc`ed arrays are
modelled as zero-filled (`malloc` itself is assumed to succeed).  The first argument is the
function that `abs` names in `FirFilter::CalculateGain`. -/
def new {α μ : Type} [LinearOrderedField α] (abs : α → α) (sin cos : α → α) (pi : α)
    (channelsIn channelsOut : Nat) (opened : Option μ)
    (n_speech_samples n_nom_modem_samples n_max_modem_samples : Nat) :
    Except ConstructionFailure (SoundCardDV α μ) :=
  match KK5JY.DSP.FirFilter.new1 abs sin pi KK5JY.DSP.FirFilter.Types.LowPass FILTER_LEN
      ((FILTER_COF : Nat) : α) CARD_FS (KK5JY.DSP.HammingWindow cos pi) with
  | .error e => .error (.filter e)
  | .ok decFilter =>
    match KK5JY.DSP.FirFilter.new1 abs sin pi KK5JY.DSP.FirFilter.Types.LowPass FILTER_LEN
        ((FILTER_COF : Nat) : α) CARD_FS (KK5JY.DSP.HammingWindow cos pi) with
    | .error e => .error (.filter e)
    | .ok intFilter =>
      match opened with
      | none => .error (.local_exception "Could not start the Modem")
      | some freedv =>
        let n := max n_speech_samples (max n_nom_modem_samples n_max_modem_samples)
        .ok { channelsIn := channelsIn, channelsOut := channelsOut, mMode := ModesDV.Mute,
              modem_in := List.replicate n 0, modem_out := List.replicate n 0,
              n_speech_samples := n_speech_samples,
              n_nom_modem_samples := n_nom_modem_samples,
              n_max_modem_samples := n_max_modem_samples, m_freedv := freedv, m_Frames := 0,
              clipping := false, in_buffer := [], out_buffer := [], dec_ctr := 0,
              m_DecFilter := decFilter, m_IntFilter := intFilter }

/-- The operations on a constructed object that write to the members modelled here: the audio
callback and the two non-`const` accessors `mode(newMode)` and `clipped()`. -/
inductive Op (α : Type) where
  | event (inp : List α) (count : Nat)
  | mode (newMode : ModesDV)
  | clipped

/-- The object after one operation (`none` when the callback has undefined behaviour). -/
def step {α μ : Type} [LinearOrderedField α] (abs : α → α) (M : Modem μ) (toInt16 : α → Int)
    (s : SoundCardDV α μ) : Op α → Option (SoundCardDV α μ)
  | .event inp count =>
    match event abs M toInt16 s inp count with
    | some r => some r.1
    | none => none
  | .mode newMode => some (s.setMode newMode).2
  | .clipped => some s.clipped.2

/-- The object after a sequence of operations. -/
def steps {α μ : Type} [LinearOrderedField α] (abs : α → α) (M : Modem μ) (toInt16 : α → Int) :
    SoundCardDV α μ → List (Op α) → Option (SoundCardDV α μ)
  | s, [] => some s
  | s, op :: ops =>
    match step abs M toInt16 s op with
    | some s1 => steps abs M toInt16 s1 ops
    | none => none

end SoundCardDV

namespace Example

/-- A stand-in modem for concrete examples: its state counts the calls, it asks for one sample
per call, and both directions leave one sample in `modem_out`, a copy of the first sample of
`modem_in`. -/
def modem : Modem Nat where
  freedv_nin := fun _ => 1
  freedv_rx := fun m _ modem_in => (m + 1, [modem_in.headD 0], 1)
  freedv_tx := fun m _ modem_in => (m + 1, [modem_in.headD 0])

/-- A filter with the single coefficient 1 over the rationals, with a zeroed ring. -/
def unitFilter : KK5JY.DSP.FirFilter ℚ :=
  { m_InputPos := 0, m_History := [0], m_Coefs := [1], Length := 1, OverallGain := 1,
    GainCorrection := 1 }

/-- A stereo device in `TX` mode with empty queues, for the stand-in modem. -/
def card : SoundCardDV ℚ Nat :=
  { channelsIn := 2, channelsOut := 2, mMode := ModesDV.TX, modem_in := [0], modem_out := [0],
    n_speech_samples := 1, n_nom_modem_samples := 1, n_max_modem_samples := 1, m_freedv := 0,
    m_Frames := 0, clipping := false, in_buffer := [], out_buffer := [], dec_ctr := 0,
    m_DecFilter := unitFilter, m_IntFilter := unitFilter }

end Example

/-! ### Reference descriptions for the rate bridge -/

/-- Closed form of the pre-normalization taps of the two filters that the constructor of
`SoundCardDV` builds: the 15 taps of the low-pass response for `FILTER_COF` at `CARD_FS` under
the Hamming window.  (`new1_deployed` below proves that the filter constructor generates this
list.) -/
def deployedTaps {α : Type} [Field α] (sin cos : α → α) (pi : α) : List α :=
  KK5JY.DSP.windowedTaps (KK5JY.DSP.HammingWindow cos pi)
    (fun i => KK5JY.DSP.IdealLowPass sin pi
      (2 * pi * ((FILTER_COF : Nat) : α) / ((CARD_FS : Nat) : α)) i
      (KK5JY.DSP.FirFilter.oddLength FILTER_LEN)) (FILTER_LEN.toNat / 2)

/-- The decimated and converted filter outputs: of the outputs `ys` of the decimation filter,
the first of which is output number `m + 1` overall, those whose overall number is a multiple of
6, each multiplied by `SHRT_MAX` and converted to `int16_t`. -/
def decimated {α : Type} [Ring α] (toInt16 : α → Int) (m : Nat) (ys : List α) : List Int :=
  ((List.range ys.length).filter (fun k => (m + k + 1) % 6 = 0)).map
    (fun k => toInt16 (((SHRT_MAX : Int) : α) * ys.getD k 0))

/-- What the input queue sees of one `RX`/`TX` callback: the block size `nin` of the modem, the
interleaved input buffer `inp` with its frame count `count`, and the content `queued` of
`in_buffer` when the callback starts (whatever earlier modem exchanges have left there). -/
structure InputCall (α : Type) where
  nin : Nat
  inp : List α
  count : Nat
  queued : List Int

/-- The first-channel samples `in[0], in[ci], in[2 ci], ...` that a callback reads. -/
def InputCall.samples {α : Type} [Zero α] (ci : Nat) (c : InputCall α) : List α :=
  (List.range c.count).map (fun i => c.inp.getD (i * ci) 0)

/-- Test harness: the input loops of a sequence of `RX`/`TX` callbacks, each started on the
queue content of its `InputCall`; it returns the object after the last loop and the log of all
samples that the loops have appended to `in_buffer`. -/
def inputCalls {α μ : Type} [LinearOrderedField α] (abs : α → α) (toInt16 : α → Int) :
    SoundCardDV α μ → List (InputCall α) → Option (SoundCardDV α μ × List Int)
  | s, [] => some (s, [])
  | s, c :: cs =>
    match SoundCardDV.inputLoop abs toInt16 c.inp s.channelsIn c.nin c.count 0
        { s with in_buffer := c.queued } with
    | none => none
    | some s1 =>
      match inputCalls abs toInt16 s1 cs with
      | none => none
      | some r => some (r.1, s1.in_buffer.drop c.queued.length ++ r.2)

/-- The overflow cap stops none of the input loops of a sequence of callbacks that starts after
`m` samples: before iteration `k` of a callback, the queue holds its initial content and the
`(m mod 6 + k) / 6` samples appended by the earlier iterations, which must not exceed
`10 * nin`. -/
def neverStopped {α : Type} : Nat → List (InputCall α) → Prop
  | _, [] => True
  | m, c :: cs =>
    (∀ k : Nat, k < c.count → c.queued.length + (m % 6 + k) / 6 ≤ 10 * c.nin) ∧
      neverStopped (m + c.count) cs

/-- Test harness: the input loop of the `RX`/`TX` case with a log of what it has processed.  It
runs the loop of `inputLoop` with the same guard and the same body, and records for every
iteration the sample read and the output of the decimation filter for it. -/
def inputTrace {α μ : Type} [LinearOrderedField α] (abs : α → α) (toInt16 : α → Int)
    (inp : List α) (ci nin : Nat) :
    Nat → Nat → SoundCardDV α μ → Option (SoundCardDV α μ × List (α × α))
  | 0, _, s => some (s, [])
  | n + 1, i, s =>
    if s.in_buffer.length ≤ 10 * nin then
      match inp[i * ci]? with
      | none => none
      | some sample =>
        match s.m_DecFilter.filter sample with
        | none => none
        | some r =>
          match SoundCardDV.inputBody abs toInt16 inp ci i s with
          | none => none
          | some s1 =>
            match inputTrace abs toInt16 inp ci nin n (i + 1) s1 with
            | none => none
            | some t => some (t.1, (sample, r.1) :: t.2)
    else some (s, [])

/-! ## The control layer (`src/scdv.h`, `src/scdv.cc`, `src/SplitCommand.h`, `src/stype.h`,
`src/fdvcore.cc`)

Further modelling conventions.

* A `std::string` and the text of a C string are lists of characters, one `Char` for each `char`;
  a `char` array is the list of its entries, and the terminator is the character of code 0.
* A write or read past the end of an array is undefined behaviour: the operation returns `none`.
* The functions of the C and C++ libraries that the control layer calls are modelled from the
  language standards (`isspace`, `toupper` in the "C" locale, `strcpy`, `atoi`), or are parameters
  where they produce or print floating-point values.
-/

/-- The terminator of a C string. -/
def NUL : Char := Char.ofNat 0

/-- The macro `VERSION_NUMBER` of `localtypes.h`. -/
def VERSION_NUMBER : String := "1.0 (beta-20180615)"

/-- The macro `DEFAULT_TEXT` of `localtypes.h`. -/
def DEFAULT_TEXT : List Char := ("fdvcore " ++ VERSION_NUMBER ++ " by KK5JY\r").toList

/-- The C library function `isspace` in the "C" locale. -/
def isspace (c : Char) : Bool := c = ' ' || (9 ≤ c.toNat && c.toNat ≤ 13)

/-- The C library function `toupper` in the "C" locale. -/
def toupper (c : Char) : Char :=
  if 97 ≤ c.toNat ∧ c.toNat ≤ 122 then Char.ofNat (c.toNat - 32) else c

/-- The C library function `strcpy(dst, src)` on the contents `dst` of the destination array:
the characters of `src` up to its terminator are written, then the terminator.  Here `src` is
the text of a `std::string`, whose `c_str()` ends at its first character of code 0. -/
def strcpy (dst src : List Char) : Option (List Char) :=
  if (src.takeWhile (fun c => c != NUL)).length + 1 ≤ dst.length then
    some (src.takeWhile (fun c => c != NUL) ++ [NUL]
      ++ dst.drop ((src.takeWhile (fun c => c != NUL)).length + 1))
  else none

namespace my

/-- The loop of `my::rtrim`: `si` runs through the string and `ei` marks the position after the
last character that is not white space. -/
def rtrim.loop : List Char → Nat → Nat → Nat
  | [], _, ei => ei
  | c :: rest, si, ei =>
    if ¬ isspace c then rtrim.loop rest (si + 1) (si + 1) else rtrim.loop rest (si + 1) ei

/-- The function `my::rtrim` of `stype.h`: `s.substr(0, ei - s.begin())`. -/
def rtrim (s : List Char) : List Char := s.take (rtrim.loop s 0 0)

/-- The function `my::to_something` of `stype.h`. -/
def to_something (s : List Char) (func : Char → Char) : List Char := s.map func

/-- The function `my::toUpper` of `stype.h`. -/
def toUpper (s : List Char) : List Char := to_something s toupper

end my

/-- The loop of `SplitCommand` on the characters still to read, with the state `inCmd`, `cmd`,
`arg`. -/
def SplitCommand.loop : List Char → Bool × List Char × List Char → Bool × List Char × List Char
  | [], st => st
  | ch :: rest, st =>
    if ch = '=' then SplitCommand.loop rest (false, st.2.1, st.2.2)
    else if st.1 then SplitCommand.loop rest (st.1, st.2.1 ++ [ch], st.2.2)
    else SplitCommand.loop rest (st.1, st.2.1, st.2.2 ++ [ch])

/-- The function `SplitCommand(input, cmd, arg)` of `SplitCommand.h`: the values of `input`,
`cmd` and `arg` after the call. -/
def SplitCommand (input : List Char) : List Char × List Char × List Char :=
  let st := SplitCommand.loop input (true, [], [])
  let cmd := my.toUpper st.2.1
  (if st.2.2.length ≠ 0 then cmd ++ ['='] ++ st.2.2 else cmd, cmd, st.2.2)

/-- The structure `local_callback_state` of `localtypes.h`: the array `tx_str`, the pointer
`ptx_str` as an index into `tx_str`, and the counter `calls`. -/
structure local_callback_state where
  tx_str : List Char
  ptx_str : Nat
  calls : Nat

/-- The callback `SoundCardDV::local_get_next_tx_char`: the character returned and the state
after the call. -/
def local_get_next_tx_char (pstate : local_callback_state) :
    Option (Char × local_callback_state) :=
  -- `char c = *pstate->ptx_str++;`
  match pstate.tx_str[pstate.ptx_str]? with
  | none => none
  | some c =>
    -- `if (*pstate->ptx_str == 0) pstate->ptx_str = pstate->tx_str;`
    match pstate.tx_str[pstate.ptx_str + 1]? with
    | none => none
    | some next =>
      if next = NUL then some (c, { pstate with ptx_str := 0 })
      else some (c, { pstate with ptx_str := pstate.ptx_str + 1 })

/-- The part of the FreeDV API that the control accessors of `SoundCardDV` call.  The two
queries return the modem state after the call with what they store through their pointer
arguments: `sync` and `snr_est`, and the field `foff` of the extended statistics. -/
structure ModemControl (α μ : Type) where
  freedv_set_snr_squelch_thresh : μ → α → μ
  freedv_set_squelch_en : μ → Int → μ
  freedv_get_modem_stats : μ → μ × Int × α
  freedv_get_modem_extended_stats : μ → μ × α

/-- The whole `SoundCardDV` object as the command loop sees it: the members that the audio
callback uses (`card`) with the members that only the control accessors use. -/
structure Device (α μ : Type) where
  card : SoundCardDV α μ
  cb_state : local_callback_state
  sql_en : Int
  sql_th : α

namespace Device

/-- The accessor `bool mode(const ModesDV &newMode)`. -/
def setMode {α μ : Type} (d : Device α μ) (newMode : ModesDV) : Bool × Device α μ :=
  ((d.card.setMode newMode).1, { d with card := (d.card.setMode newMode).2 })

/-- The accessor `void threshold(float value)`. -/
def setThreshold {α μ : Type} (C : ModemControl α μ) (d : Device α μ) (value : α) :
    Device α μ :=
  { d with sql_th := value,
           card := { d.card with
             m_freedv := C.freedv_set_snr_squelch_thresh d.card.m_freedv value } }

/-- The accessor `void squelch(bool value)`: `sql_en = value;` stores 0 or 1. -/
def setSquelch {α μ : Type} (C : ModemControl α μ) (d : Device α μ) (value : Bool) :
    Device α μ :=
  { d with sql_en := if value then 1 else 0,
           card := { d.card with
             m_freedv := C.freedv_set_squelch_en d.card.m_freedv (if value then 1 else 0) } }

/-- The accessor `void text(const std::string &s)`. -/
def setText {α μ : Type} (d : Device α μ) (s : List Char) : Option (Device α μ) :=
  -- `strcpy(cb_state.tx_str, s.empty() ? DEFAULT_TEXT : s.c_str());`
  match strcpy d.cb_state.tx_str (if s.isEmpty then DEFAULT_TEXT else s) with
  | none => none
  | some tx =>
    -- `cb_state.ptx_str = cb_state.tx_str;`
    some { d with cb_state := { d.cb_state with tx_str := tx, ptx_str := 0 } }

/-- The accessor `std::string text() const`: the string built from the array `tx_str`, which
reads up to its first terminator. -/
def text {α μ : Type} (d : Device α μ) : Option (List Char) :=
  if NUL ∈ d.cb_state.tx_str then some (d.cb_state.tx_str.takeWhile (fun c => c != NUL))
  else none

/-- The accessor `bool clipped()`. -/
def clipped {α μ : Type} (d : Device α μ) : Bool × Device α μ :=
  (d.card.clipped.1, { d with card := d.card.clipped.2 })

/-- The accessor `uint64_t frames() const`. -/
def frames {α μ : Type} (d : Device α μ) : Nat := d.card.frames

/-- The accessor `ModesDV mode() const`. -/
def mode {α μ : Type} (d : Device α μ) : ModesDV := d.card.mode

end Device

namespace Example

/-- The example device with the default text stored in a text buffer of 128 characters, and
the squelch off. -/
def device : Device ℚ Nat :=
  { card := card,
    cb_state := { tx_str := DEFAULT_TEXT ++ List.replicate (128 - DEFAULT_TEXT.length) NUL,
                  ptx_str := 0, calls := 0 },
    sql_en := 0, sql_th := -100 }

end Example

/-- Test harness: `k` calls of the next-character callback in a row; it returns the characters
returned, in order, and the callback state after the last call. -/
def nextChars : Nat → local_callback_state → Option (List Char × local_callback_state)
  | 0, st => some ([], st)
  | k + 1, st =>
    match local_get_next_tx_char st with
    | none => none
    | some r =>
      match nextChars k r.2 with
      | none => none
      | some t => some (r.1 :: t.1, t.2)

/-! ## Lemmas on the filter core -/

namespace KK5JY.DSP

section FilterLemmas

variable {α : Type} {abs : α → α}

theorem wrap_eq_mod (hp N : Nat) (h : hp < N) :
    (if hp + 1 = N then 0 else hp + 1) = (hp + 1) % N := by
  split
  · next h1 => rw [h1, Nat.mod_self]
  · next h1 => rw [Nat.mod_eq_of_lt (by omega)]

theorem getElem?_eq_some_getD (l : List α) (d : α) (i : Nat) (h : i < l.length) :
    l[i]? = some (l.getD i d) := by
  rw [List.getD_eq_getElem?_getD, List.getElem?_eq_getElem h]
  rfl

/-- The loop computes the dot product of the ring, read from `hp` on with wraparound, with the
coefficients from `cp` on, and executes its body once per remaining coefficient. -/
theorem FilterLoop_eq [CommSemiring α] (history coefs : List α) (N : Nat)
    (hh : history.length = N) :
    ∀ (n hp cp : Nat) (acc : α) (macs : Nat), hp < N → cp + n ≤ coefs.length →
      FilterLoop history N coefs n hp cp acc macs =
        some (acc + ∑ i in Finset.range n,
          history.getD ((hp + i) % N) 0 * coefs.getD (cp + i) 0, macs + n) := by
  intro n
  induction n with
  | zero => intro hp cp acc macs _ _; simp [FilterLoop]
  | succ n ih =>
    intro hp cp acc macs hhp hcp
    have h1 : history[hp]? = some (history.getD hp 0) :=
      getElem?_eq_some_getD history 0 hp (by omega)
    have h2 : coefs[cp]? = some (coefs.getD cp 0) :=
      getElem?_eq_some_getD coefs 0 cp (by omega)
    have hlt : (hp + 1) % N < N := Nat.mod_lt _ (by omega)
    rw [FilterLoop, h1, h2]
    simp only []
    rw [wrap_eq_mod hp N hhp, ih ((hp + 1) % N) (cp + 1) _ _ hlt (by omega)]
    rw [Finset.sum_range_succ']
    have hs : ∀ i, ((hp + 1) % N + i) % N = (hp + (i + 1)) % N := by
      intro i
      rw [Nat.add_mod, Nat.mod_mod, ← Nat.add_mod]
      congr 1
      omega
    simp only [hs, Nat.add_zero, Nat.mod_eq_of_lt hhp]
    have hc : ∀ i, cp + 1 + i = cp + (i + 1) := by intro i; omega
    simp only [hc]
    refine congrArg some (Prod.ext ?_ ?_)
    · show _ + _ + _ = _ + (_ + _)
      ring
    · show macs + 1 + n = macs + (n + 1)
      omega

/-- One call of `Filter` on a ring of `N` slots with `N` coefficients and the cursor in range. -/
theorem Filter_eq [CommSemiring α] (x : α) (pos : Nat) (history coefs : List α) (N : Nat)
    (hh : history.length = N) (hc : coefs.length = N) (hpos : pos < N) :
    Filter x pos history N coefs N =
      some ⟨∑ i in Finset.range N,
          (history.set pos x).getD ((pos + 1 + i) % N) 0 * coefs.getD i 0,
        (pos + 1) % N, history.set pos x, N⟩ := by
  have hN : N ≠ 0 := by omega
  have hl : (history.set pos x).length = N := by rw [List.length_set, hh]
  have hlt : (pos + 1) % N < N := Nat.mod_lt _ (by omega)
  have hs : ∀ i, ((pos + 1) % N + i) % N = (pos + 1 + i) % N := by
    intro i
    rw [Nat.add_mod, Nat.mod_mod, ← Nat.add_mod]
  unfold Filter
  rw [if_pos (by omega)]
  simp only []
  rw [wrap_eq_mod pos N hpos,
    FilterLoop_eq (history.set pos x) coefs N hl N ((pos + 1) % N) 0 0 0 hlt (by omega)]
  simp only [hs, Nat.zero_add, zero_add, if_neg hN]

theorem add_mod_ne (m e N : Nat) (h0 : 0 < e) (h1 : e < N) : (m + e) % N ≠ m % N := by
  intro h
  have h2 : m + e ≡ m + 0 [MOD N] := h
  have h3 : e ≡ 0 [MOD N] := Nat.ModEq.add_left_cancel' m h2
  have h4 : N ∣ e := (Nat.modEq_zero_iff_dvd).mp h3
  have h5 := Nat.le_of_dvd h0 h4
  omega

theorem sampleAt_append_left [Zero α] (l r : List α) (t : Int) (h : t ≤ l.length) :
    sampleAt (l ++ r) t = sampleAt l t := by
  unfold sampleAt
  split
  · rfl
  · next h0 =>
    have : (t - 1).toNat < l.length := by omega
    rw [List.getD_append _ _ _ _ this]

theorem sampleAt_append_last [Zero α] (l : List α) (x : α) (r : List α) :
    sampleAt (l ++ x :: r) ((l.length : Int) + 1) = x := by
  unfold sampleAt
  rw [if_neg (by omega)]
  have : ((l.length : Int) + 1 - 1).toNat = l.length := by omega
  rw [this, List.getD_eq_getElem?_getD, List.getElem?_append_right (le_refl _)]
  simp

/-- One call of `filter` on a well-formed object. -/
theorem FirFilter.filter_eq [CommSemiring α] (F : FirFilter α) (hF : F.WellFormed) (x : α) :
    F.filter x = some
      (∑ i in Finset.range F.Length.toNat,
          (F.m_History.set F.m_InputPos x).getD ((F.m_InputPos + 1 + i) % F.Length.toNat) 0 *
            F.m_Coefs.getD i 0,
        F.next x) := by
  obtain ⟨_, h2, h3, h4⟩ := hF
  unfold FirFilter.filter
  rw [Filter_eq x F.m_InputPos F.m_History F.m_Coefs F.Length.toNat h2 h3 h4]
  rfl

theorem FirFilter.next_Length (F : FirFilter α) (x : α) : (F.next x).Length = F.Length := rfl

theorem FirFilter.next_Coefs (F : FirFilter α) (x : α) : (F.next x).m_Coefs = F.m_Coefs := rfl

theorem FirFilter.next_wellFormed (F : FirFilter α) (hF : F.WellFormed) (x : α) :
    (F.next x).WellFormed := by
  obtain ⟨h1, h2, h3, h4⟩ := hF
  refine ⟨h1, ?_, h3, ?_⟩
  · show (F.m_History.set F.m_InputPos x).length = F.Length.toNat
    rw [List.length_set, h2]
  · show (F.m_InputPos + 1) % F.Length.toNat < F.Length.toNat
    exact Nat.mod_lt _ (by omega)

theorem FirFilter.next_tracks [Zero α] (F : FirFilter α) (hF : F.WellFormed) (past : List α)
    (hT : F.Tracks past) (x : α) : (F.next x).Tracks (past ++ [x]) := by
  obtain ⟨h1, h2, h3, h4⟩ := hF
  obtain ⟨hp, hd⟩ := hT
  have hN : 0 < F.Length.toNat := by omega
  unfold FirFilter.Tracks
  rw [FirFilter.next_Length]
  constructor
  · show (F.m_InputPos + 1) % F.Length.toNat = _
    rw [hp, List.length_append, List.length_singleton, Nat.add_mod, Nat.mod_mod, ← Nat.add_mod]
  · intro d hdN
    show (F.m_History.set F.m_InputPos x).getD _ 0 = _
    rw [List.length_append, List.length_singleton, List.getD_eq_getElem?_getD,
      List.getElem?_set]
    cases d with
    | zero =>
      have e1 : (past.length + 1 + F.Length.toNat - 1 - 0) % F.Length.toNat = F.m_InputPos := by
        rw [hp]
        have : past.length + 1 + F.Length.toNat - 1 - 0 = past.length + F.Length.toNat := by omega
        rw [this, Nat.add_mod_right]
      rw [e1, if_pos rfl, if_pos (by omega)]
      have := sampleAt_append_last past x []
      simpa using this.symm
    | succ d =>
      have e1 : past.length + 1 + F.Length.toNat - 1 - (d + 1)
          = past.length + (F.Length.toNat - 1 - d) := by omega
      have e2 : past.length + F.Length.toNat - 1 - d
          = past.length + (F.Length.toNat - 1 - d) := by omega
      have hne : F.m_InputPos ≠ (past.length + (F.Length.toNat - 1 - d)) % F.Length.toNat := by
        rw [hp]
        exact (add_mod_ne _ _ _ (by omega) (by omega)).symm
      rw [e1, if_neg hne, ← List.getD_eq_getElem?_getD, ← e2, hd d (by omega)]
      rw [sampleAt_append_left past [x] _ (by push_cast; omega)]
      congr 1
      push_cast
      ring

theorem firOutput_append_left [CommSemiring α] (c l r : List α) (t : Int) (h : t ≤ l.length) :
    firOutput c (l ++ r) t = firOutput c l t := by
  unfold firOutput
  refine Finset.sum_congr rfl ?_
  intro k hk
  have hk1 : k < c.length := Finset.mem_range.mp hk
  rw [sampleAt_append_left l r _ (by omega)]

/-- The value returned by `filter(x)` on an object whose ring tracks `past` is the direct-form
output for the inputs `past ++ [x]`. -/
theorem FirFilter.filter_output [CommSemiring α] (F : FirFilter α) (hF : F.WellFormed)
    (past : List α) (hT : F.Tracks past) (x : α) :
    F.filter x = some (firOutput F.m_Coefs (past ++ [x]) ((past.length : Int) + 1), F.next x) := by
  rw [FirFilter.filter_eq F hF x]
  have hT1 := FirFilter.next_tracks F hF past hT x
  obtain ⟨h1, h2, h3, h4⟩ := hF
  have hp := hT.1
  obtain ⟨_, hd⟩ := hT1
  rw [FirFilter.next_Length] at hd
  have hN : 0 < F.Length.toNat := by omega
  refine congrArg some (Prod.ext ?_ rfl)
  show Finset.sum (Finset.range F.Length.toNat) _
    = firOutput F.m_Coefs (past ++ [x]) ((past.length : Int) + 1)
  unfold firOutput
  rw [h3]
  refine Finset.sum_congr rfl ?_
  intro k hk
  have hk1 : k < F.Length.toNat := Finset.mem_range.mp hk
  have hidx : (F.m_InputPos + 1 + k) % F.Length.toNat
      = ((past ++ [x]).length + F.Length.toNat - 1 - (F.Length.toNat - 1 - k))
          % F.Length.toNat := by
    rw [hp, List.length_append, List.length_singleton]
    have e : past.length + 1 + F.Length.toNat - 1 - (F.Length.toNat - 1 - k)
        = past.length + (1 + k) := by omega
    rw [e, Nat.add_assoc, Nat.add_mod, Nat.mod_mod, ← Nat.add_mod]
  have hv := hd (F.Length.toNat - 1 - k) (by omega)
  have hs : (F.next x).m_History = F.m_History.set F.m_InputPos x := rfl
  rw [mul_comm ((F.m_History.set F.m_InputPos x).getD _ 0) (F.m_Coefs.getD k 0), hidx, ← hs, hv]
  congr 2
  rw [List.length_append, List.length_singleton]
  push_cast
  rw [Nat.cast_sub (by omega), Nat.cast_sub (by omega)]
  push_cast
  ring

/-- Feeding a list of samples to a well-formed object whose ring tracks `past`: every call
returns, the outputs are the direct-form outputs for the whole input so far, and the object keeps
its coefficients and tracks the extended input. -/
theorem FirFilter.run_spec [CommSemiring α] (xs : List α) :
    ∀ (F : FirFilter α) (past : List α), F.WellFormed → F.Tracks past →
      ∃ F1 : FirFilter α,
        F.run xs = some ((List.range xs.length).map
            (fun i : Nat =>
              firOutput F.m_Coefs (past ++ xs) ((past.length : Int) + (i : Int) + 1)), F1) ∧
          F1.WellFormed ∧ F1.Tracks (past ++ xs) ∧ F1.m_Coefs = F.m_Coefs ∧
            F1.Length = F.Length := by
  induction xs with
  | nil =>
    intro F past hF hT
    exact ⟨F, by simp [FirFilter.run], hF, by simpa using hT, rfl, rfl⟩
  | cons x xs ih =>
    intro F past hF hT
    obtain ⟨F1, hrun, hwf, htr, hco, hlen⟩ :=
      ih (F.next x) (past ++ [x]) (FirFilter.next_wellFormed F hF x)
        (FirFilter.next_tracks F hF past hT x)
    refine ⟨F1, ?_, hwf, by simpa using htr, hco, hlen⟩
    rw [FirFilter.run, FirFilter.filter_output F hF past hT x]
    simp only []
    rw [hrun]
    simp only []
    refine congrArg some (Prod.ext ?_ rfl)
    show _ :: _ = _
    rw [List.length_cons, List.range_succ_eq_map, List.map_cons, List.map_map]
    congr 1
    · rw [show past ++ x :: xs = (past ++ [x]) ++ xs by simp,
        firOutput_append_left F.m_Coefs (past ++ [x]) xs _ (by simp)]
      simp
    · refine List.map_congr_left ?_
      intro i _
      simp only [Function.comp, FirFilter.next_Coefs, List.append_assoc, List.singleton_append,
        List.length_append, List.length_singleton]
      congr 1
      push_cast
      ring

end FilterLemmas

section LoopLemmas

variable {α : Type} {abs : α → α}

/-- A counted loop whose body maps the `k`-th state of a sequence to the next one ends in the
state the sequence has after the last iteration. -/
theorem forLoop_spec {σ : Type} (body : Nat → σ → Option σ) (st : Nat → σ) :
    ∀ (n i : Nat), (∀ k, i ≤ k → k < i + n → body k (st k) = some (st (k + 1))) →
      forLoop body n i (st i) = some (st (i + n)) := by
  intro n
  induction n with
  | zero => intro i _; rfl
  | succ n ih =>
    intro i h
    rw [forLoop, h i (le_refl _) (by omega)]
    simp only []
    rw [ih (i + 1) (fun k hk1 hk2 => h k (by omega) (by omega))]
    congr 2
    omega

theorem set_after_init (pre suf : List α) (v : α) (h : 0 < suf.length) :
    (pre ++ suf).set pre.length v = (pre ++ [v]) ++ suf.drop 1 := by
  cases suf with
  | nil => simp at h
  | cons a t => simp [List.set_append]

/-- The coefficient generator on an odd length `2 * limit + 1`: it returns the list whose entry
`k` is `f(k - limit, length) * hn(k - limit)`. -/
theorem GenerateCoefficientsWith_eq [Field α] (f : WindowFunction α) (hn : Int → α)
    (limit : Nat) :
    GenerateCoefficientsWith f hn (2 * (limit : Int) + 1) =
      .ok ((List.range (2 * limit + 1)).map
        (fun k : Nat => f ((k : Int) - limit) (2 * (limit : Int) + 1) * hn ((k : Int) - limit))) := by
  have hdiv : Int.tdiv (2 * (limit : Int) + 1) 2 = limit := by
    rw [Int.tdiv_eq_ediv (by omega) (by omega)]
    omega
  have hcount : ((limit : Int) - (-(limit : Int)) + 1).toNat = 2 * limit + 1 := by omega
  have hlen : (2 * (limit : Int) + 1).toNat = 2 * limit + 1 := by omega
  unfold GenerateCoefficientsWith
  simp only [hdiv, hcount, hlen]
  rw [if_neg (by omega)]
  let g : Nat → α :=
    fun k => f ((k : Int) - limit) (2 * (limit : Int) + 1) * hn ((k : Int) - limit)
  let st : Nat → List α :=
    fun k => (List.range k).map g ++ List.replicate (2 * limit + 1 - k) 0
  have h0 : List.replicate (2 * limit + 1) (0 : α) = st 0 := by simp [st]
  rw [h0, forLoop_spec _ st (2 * limit + 1) 0]
  · simp [st, g]
  · intro k _ hk
    have hidx : (-(limit : Int) + (k : Int) + limit).toNat = k := by omega
    have hi : -(limit : Int) + (k : Int) = (k : Int) - limit := by ring
    have hl : (st k).length = 2 * limit + 1 := by simp [st]; omega
    simp only [hidx, hl]
    rw [if_pos ⟨by omega, by omega⟩]
    congr 1
    have hpre : ((List.range k).map g).length = k := by simp
    have hsuf : 0 < (List.replicate (2 * limit + 1 - k) (0 : α)).length := by
      simp; omega
    have := set_after_init ((List.range k).map g) (List.replicate (2 * limit + 1 - k) (0 : α))
      (f (-(limit : Int) + (k : Int)) (2 * (limit : Int) + 1) * hn (-(limit : Int) + (k : Int)))
      hsuf
    rw [hpre] at this
    show ((List.range k).map g ++ List.replicate (2 * limit + 1 - k) 0).set k _ = _
    rw [this, hi]
    simp only [st, List.range_succ, List.map_append, List.map_cons, List.map_nil,
      List.drop_replicate]
    have e : 2 * limit + 1 - k - 1 = 2 * limit + 1 - (k + 1) := by omega
    rw [e]

theorem foldl_add_sorted [LinearOrderedField α] (items : List α) :
    (items.insertionSort (fun a b => a ≤ b)).foldl (fun acc x => acc + x) 0 = items.sum := by
  rw [← List.sum_eq_foldl]
  exact (List.perm_insertionSort _ items).sum_eq

theorem take_succ_of_lt (l : List α) (d : α) (k : Nat) (h : k < l.length) :
    l.take (k + 1) = l.take k ++ [l.getD k d] := by
  rw [List.take_succ, getElem?_eq_some_getD l d k h]
  rfl

theorem drop_eq_cons_of_lt (l : List α) (d : α) (k : Nat) (h : k < l.length) :
    l.drop k = l.getD k d :: l.drop (k + 1) := by
  rw [List.drop_eq_getElem_cons h, List.getD_eq_getElem?_getD, List.getElem?_eq_getElem h]
  rfl

/-- The effect of `CalculateGain` on an object whose arrays both hold `Length` elements. -/
theorem CalculateGain_eq [LinearOrderedField α] (F : FirFilter α) (type : FirFilter.Types)
    (n : Nat) (hL : F.Length = n) (hh : F.m_History.length = n) (hc : F.m_Coefs.length = n) :
    FirFilter.CalculateGain abs F type = some
      { F with
        m_History := List.replicate n 0
        m_Coefs := F.m_Coefs.map
          (fun c => c * (if (F.m_Coefs.map abs).sum ≠ 0
            then 1 / (F.m_Coefs.map abs).sum else 1))
        OverallGain := (F.m_Coefs.map abs).sum
        GainCorrection := if (F.m_Coefs.map abs).sum ≠ 0
          then 1 / (F.m_Coefs.map abs).sum else 1 } := by
  have hn : F.Length.toNat = n := by omega
  unfold FirFilter.CalculateGain
  rw [if_neg (by omega), hn]
  -- first loop
  let st1 : Nat → List α × List α := fun k =>
    (List.replicate k 0 ++ F.m_History.drop k, (F.m_Coefs.take k).map abs)
  have h0 : (F.m_History, ([] : List α)) = st1 0 := by simp [st1]
  have hloop1 := forLoop_spec (FirFilter.CalculateGain.body1 abs F.m_Coefs) st1 n 0 (by
      intro k _ hk
      have hl : (st1 k).1.length = n := by simp [st1]; omega
      unfold FirFilter.CalculateGain.body1
      rw [if_pos (by omega), getElem?_eq_some_getD F.m_Coefs 0 k (by omega)]
      simp only []
      congr 1
      refine Prod.ext ?_ ?_
      · show (List.replicate k 0 ++ F.m_History.drop k).set k 0 = _
        have := set_after_init (List.replicate k (0 : α)) (F.m_History.drop k) 0
          (by rw [List.length_drop]; omega)
        rw [List.length_replicate] at this
        rw [this]
        simp only [st1, List.drop_drop, List.replicate_succ', Nat.add_comm 1 k]
      · show (F.m_Coefs.take k).map abs ++ [abs (F.m_Coefs.getD k 0)] = _
        simp only [st1]
        rw [take_succ_of_lt F.m_Coefs 0 k (by omega), List.map_append]
        rfl)
  have hst1 : st1 (0 + n) = (List.replicate n 0, F.m_Coefs.map abs) := by
    simp only [st1, Nat.zero_add]
    rw [List.drop_of_length_le (by omega), List.take_of_length_le (by omega), List.append_nil]
  rw [h0, hloop1, hst1]
  simp only [foldl_add_sorted]
  -- last loop
  generalize (if (F.m_Coefs.map abs).sum ≠ 0
    then 1 / (F.m_Coefs.map abs).sum else 1) = gc
  let st3 : Nat → List α := fun k =>
    (F.m_Coefs.take k).map (fun c => c * gc) ++ F.m_Coefs.drop k
  have h3 : F.m_Coefs = st3 0 := by simp [st3]
  have hloop3 := forLoop_spec (FirFilter.CalculateGain.body3 gc) st3 n 0 (by
      intro k _ hk
      have hk1 : k < F.m_Coefs.length := by omega
      have hget : (st3 k)[k]? = some (F.m_Coefs.getD k 0) := by
        have hpl : ((F.m_Coefs.take k).map (fun c => c * gc)).length = k := by
          rw [List.length_map, List.length_take, Nat.min_eq_left (by omega)]
        simp only [st3]
        rw [List.getElem?_append_right (by rw [hpl]), hpl, Nat.sub_self,
          drop_eq_cons_of_lt F.m_Coefs 0 k hk1, List.getElem?_cons_zero]
      unfold FirFilter.CalculateGain.body3
      rw [hget]
      simp only []
      congr 1
      show ((F.m_Coefs.take k).map (fun c => c * gc) ++ F.m_Coefs.drop k).set k _ = _
      have := set_after_init ((F.m_Coefs.take k).map (fun c => c * gc)) (F.m_Coefs.drop k)
        (F.m_Coefs.getD k 0 * gc) (by rw [List.length_drop]; omega)
      rw [List.length_map, List.length_take, Nat.min_eq_left (by omega)] at this
      rw [this]
      simp only [st3, List.drop_drop]
      rw [take_succ_of_lt F.m_Coefs 0 k hk1, List.map_append]
      rfl)
  have hst3 : st3 (0 + n) = F.m_Coefs.map (fun c => c * gc) := by
    simp only [st3, Nat.zero_add]
    rw [List.drop_of_length_le (by omega), List.take_of_length_le (by omega), List.append_nil]
  rw [show forLoop (FirFilter.CalculateGain.body3 gc) n 0 F.m_Coefs
      = forLoop (FirFilter.CalculateGain.body3 gc) n 0 (st3 0) from by rw [← h3], hloop3, hst3]

theorem finishConstruction_eq [LinearOrderedField α] (type : FirFilter.Types) (taps : List α) :
    FirFilter.finishConstruction abs type (taps.length : Int) taps = .ok (constructed abs taps) := by
  unfold FirFilter.finishConstruction
  rw [if_neg (by omega)]
  simp only []
  rw [CalculateGain_eq _ type taps.length rfl (by simp) rfl]
  rfl

theorem windowedTaps_length [Field α] (f : WindowFunction α) (hn : Int → α) (limit : Nat) :
    (windowedTaps f hn limit).length = 2 * limit + 1 := by
  simp [windowedTaps]

theorem oddLength_of_nonneg (L : Int) (h : 0 ≤ L) :
    FirFilter.oddLength L = 2 * ((L.toNat / 2 : Nat) : Int) + 1 := by
  unfold FirFilter.oddLength
  rw [Int.tmod_eq_emod h (by omega)]
  split <;> omega

theorem oddLength_neg (L : Int) (h : L < 0) : FirFilter.oddLength L < 0 := by
  unfold FirFilter.oddLength
  split
  · next h0 =>
    have : L ≠ -1 := by
      intro h1
      rw [h1] at h0
      revert h0
      decide
    omega
  · exact h

/-- What both constructors do after the `switch`, given a generator call that goes through
`GenerateCoefficientsWith`. -/
theorem generate_then_finish [LinearOrderedField α] (type : FirFilter.Types)
    (f : WindowFunction α) (hn : Int → α) (L : Int) :
    (match GenerateCoefficientsWith f hn (FirFilter.oddLength L) with
      | .error e => Except.error e
      | .ok m_Coefs => FirFilter.finishConstruction abs type (FirFilter.oddLength L) m_Coefs)
    = if L < 0 then .error .bad_array_new_length
      else .ok (constructed abs (windowedTaps f hn (L.toNat / 2))) := by
  by_cases hL : L < 0
  · rw [if_pos hL]
    have := oddLength_neg L hL
    unfold GenerateCoefficientsWith
    simp only [if_pos this]
  · rw [if_neg hL, oddLength_of_nonneg L (by omega), GenerateCoefficientsWith_eq]
    simp only []
    have hl := windowedTaps_length f hn (L.toNat / 2)
    have : (2 * ((L.toNat / 2 : Nat) : Int) + 1)
        = ((windowedTaps f hn (L.toNat / 2)).length : Int) := by
      rw [hl]; push_cast; ring
    rw [show (List.range (2 * (L.toNat / 2) + 1)).map
        (fun k : Nat => f ((k : Int) - (L.toNat / 2 : Nat)) (2 * ((L.toNat / 2 : Nat) : Int) + 1)
          * hn ((k : Int) - (L.toNat / 2 : Nat))) = windowedTaps f hn (L.toNat / 2) from rfl]
    rw [this, finishConstruction_eq]

/-- The single-cutoff constructor in closed form. -/
theorem new1_eq [LinearOrderedField α] (sin : α → α) (pi : α) (type : FirFilter.Types) (L : Int)
    (fc : α) (fs : Nat) (f : WindowFunction α) :
    FirFilter.new1 abs sin pi type L fc fs f =
      if type = FirFilter.Types.LowPass then
        if L < 0 then .error .bad_array_new_length
        else .ok (constructed abs (windowedTaps f
          (fun i => IdealLowPass sin pi (2 * pi * fc / (fs : α)) i (FirFilter.oddLength L))
          (L.toNat / 2)))
      else if type = FirFilter.Types.HighPass then
        if L < 0 then .error .bad_array_new_length
        else .ok (constructed abs (windowedTaps f
          (fun i => IdealHighPass sin pi (2 * pi * fc / (fs : α)) i (FirFilter.oddLength L))
          (L.toNat / 2)))
      else if type = FirFilter.Types.BandPass ∨ type = FirFilter.Types.BandStop then
        .error (.FirFilterException
          "This constructor cannot be used for bandpass and bandstop filters")
      else .error (.FirFilterException "Unknown filter type specified") := by
  unfold FirFilter.new1 FirFilter.generate1 GenerateLowPassCoefficients
    GenerateHighPassCoefficients GenerateCoefficients
  simp only []
  by_cases h1 : type = FirFilter.Types.LowPass
  · simp only [if_pos h1]
    exact generate_then_finish type f _ L
  · simp only [if_neg h1]
    by_cases h2 : type = FirFilter.Types.HighPass
    · simp only [if_pos h2]
      exact generate_then_finish type f _ L
    · simp only [if_neg h2]
      by_cases h3 : type = FirFilter.Types.BandPass ∨ type = FirFilter.Types.BandStop
      · simp only [if_pos h3]
      · simp only [if_neg h3]

/-- The two-cutoff constructor in closed form. -/
theorem new2_eq [LinearOrderedField α] (sin : α → α) (pi : α) (type : FirFilter.Types) (L : Int)
    (f1 f2 : α) (fs : Nat) (f : WindowFunction α) :
    FirFilter.new2 abs sin pi type L f1 f2 fs f =
      if type = FirFilter.Types.BandPass then
        if L < 0 then .error .bad_array_new_length
        else .ok (constructed abs (windowedTaps f
          (fun i => IdealBandPass sin pi (2 * pi * f1 / (fs : α)) (2 * pi * f2 / (fs : α)) i
            (FirFilter.oddLength L))
          (L.toNat / 2)))
      else if type = FirFilter.Types.BandStop then
        if L < 0 then .error .bad_array_new_length
        else .ok (constructed abs (windowedTaps f
          (fun i => IdealBandStop sin pi (2 * pi * f1 / (fs : α)) (2 * pi * f2 / (fs : α)) i
            (FirFilter.oddLength L))
          (L.toNat / 2)))
      else if type = FirFilter.Types.LowPass ∨ type = FirFilter.Types.HighPass then
        .error (.FirFilterException "This constructor is only for bandpass and bandstop filters")
      else .error (.FirFilterException "Unknown filter type specified") := by
  unfold FirFilter.new2 FirFilter.generate2 GenerateBandPassCoefficients
    GenerateBandStopCoefficients GenerateCoefficients2
  simp only []
  by_cases h1 : type = FirFilter.Types.BandPass
  · simp only [if_pos h1]
    exact generate_then_finish type f _ L
  · simp only [if_neg h1]
    by_cases h2 : type = FirFilter.Types.BandStop
    · simp only [if_pos h2]
      exact generate_then_finish type f _ L
    · simp only [if_neg h2]
      by_cases h3 : type = FirFilter.Types.LowPass ∨ type = FirFilter.Types.HighPass
      · simp only [if_pos h3]
      · simp only [if_neg h3]

end LoopLemmas

section FreshFilter

variable {α : Type} {abs : α → α}

theorem sampleAt_nil [Zero α] (t : Int) : sampleAt ([] : List α) t = 0 := by
  unfold sampleAt
  split <;> simp

theorem tracks_fresh [Zero α] (F : FirFilter α) (h0 : F.m_InputPos = 0)
    (hh : ∀ j, F.m_History.getD j 0 = 0) : F.Tracks [] := by
  refine ⟨by simp [h0], ?_⟩
  intro d _
  rw [hh, sampleAt_nil]

theorem getD_replicate_zero [Zero α] (n j : Nat) : (List.replicate n (0 : α)).getD j 0 = 0 := by
  rw [List.getD_eq_getElem?_getD, List.getElem?_replicate]
  split <;> rfl

/-- Feeding `xs` to a well-formed object with a zeroed ring and the cursor at 0: the outputs are
the direct-form outputs `firOutput m_Coefs xs 1, ..., firOutput m_Coefs xs |xs|`. -/
theorem run_fresh [CommSemiring α] (F : FirFilter α) (hF : F.WellFormed) (h0 : F.m_InputPos = 0)
    (hh : ∀ j, F.m_History.getD j 0 = 0) (xs : List α) :
    ∃ F1 : FirFilter α,
      F.run xs = some ((List.range xs.length).map
        (fun i : Nat => firOutput F.m_Coefs xs ((i : Int) + 1)), F1) := by
  obtain ⟨F1, h, _⟩ := FirFilter.run_spec xs F [] hF (tracks_fresh F h0 hh)
  refine ⟨F1, ?_⟩
  rw [h]
  simp

theorem constructed_wellFormed [LinearOrderedField α] (taps : List α) (h : 1 ≤ taps.length) :
    (constructed abs taps).WellFormed := by
  refine ⟨?_, ?_, ?_, ?_⟩
  · show (1 : Int) ≤ (taps.length : Int)
    omega
  · show (List.replicate taps.length (0 : α)).length = ((taps.length : Int)).toNat
    simp
  · show (taps.map _).length = ((taps.length : Int)).toNat
    simp
  · show 0 < ((taps.length : Int)).toNat
    omega

/-- Every object returned by the single-cutoff constructor is the closed form of its
pre-normalization taps, which are the low-pass or high-pass windowed taps. -/
theorem new1_ok [LinearOrderedField α] (sin : α → α) (pi : α) (type : FirFilter.Types) (L : Int)
    (fc : α) (fs : Nat) (f : WindowFunction α) (F : FirFilter α)
    (h : FirFilter.new1 abs sin pi type L fc fs f = .ok F) :
    0 ≤ L ∧ ∃ g : CoefFunction1 α,
      (type = FirFilter.Types.LowPass ∧ g = IdealLowPass sin pi ∨
        type = FirFilter.Types.HighPass ∧ g = IdealHighPass sin pi) ∧
      F = constructed abs (windowedTaps f
        (fun i => g (2 * pi * fc / (fs : α)) i (FirFilter.oddLength L)) (L.toNat / 2)) := by
  rw [new1_eq] at h
  by_cases h1 : type = FirFilter.Types.LowPass
  · rw [if_pos h1] at h
    by_cases hL : L < 0
    · rw [if_pos hL] at h; cases h
    · rw [if_neg hL] at h
      injection h with h
      exact ⟨by omega, _, Or.inl ⟨h1, rfl⟩, h.symm⟩
  · rw [if_neg h1] at h
    by_cases h2 : type = FirFilter.Types.HighPass
    · rw [if_pos h2] at h
      by_cases hL : L < 0
      · rw [if_pos hL] at h; cases h
      · rw [if_neg hL] at h
        injection h with h
        exact ⟨by omega, _, Or.inr ⟨h2, rfl⟩, h.symm⟩
    · rw [if_neg h2] at h
      split at h <;> cases h

/-- Every object returned by the two-cutoff constructor is the closed form of its
pre-normalization taps, which are the band-pass or band-stop windowed taps. -/
theorem new2_ok [LinearOrderedField α] (sin : α → α) (pi : α) (type : FirFilter.Types) (L : Int)
    (f1 f2 : α) (fs : Nat) (f : WindowFunction α) (F : FirFilter α)
    (h : FirFilter.new2 abs sin pi type L f1 f2 fs f = .ok F) :
    0 ≤ L ∧ ∃ g : CoefFunction2 α,
      (type = FirFilter.Types.BandPass ∧ g = IdealBandPass sin pi ∨
        type = FirFilter.Types.BandStop ∧ g = IdealBandStop sin pi) ∧
      F = constructed abs (windowedTaps f
        (fun i => g (2 * pi * f1 / (fs : α)) (2 * pi * f2 / (fs : α)) i (FirFilter.oddLength L))
        (L.toNat / 2)) := by
  rw [new2_eq] at h
  by_cases h1 : type = FirFilter.Types.BandPass
  · rw [if_pos h1] at h
    by_cases hL : L < 0
    · rw [if_pos hL] at h; cases h
    · rw [if_neg hL] at h
      injection h with h
      exact ⟨by omega, _, Or.inl ⟨h1, rfl⟩, h.symm⟩
  · rw [if_neg h1] at h
    by_cases h2 : type = FirFilter.Types.BandStop
    · rw [if_pos h2] at h
      by_cases hL : L < 0
      · rw [if_pos hL] at h; cases h
      · rw [if_neg hL] at h
        injection h with h
        exact ⟨by omega, _, Or.inr ⟨h2, rfl⟩, h.symm⟩
    · rw [if_neg h2] at h
      split at h <;> cases h

/-- The `switch` of the single-cutoff constructor on a matching kind and a non-negative
requested length. -/
theorem generate1_ok [Field α] (sin : α → α) (pi : α) (type : FirFilter.Types) (L : Int)
    (hL : 0 ≤ L) (ht : type = FirFilter.Types.LowPass ∨ type = FirFilter.Types.HighPass)
    (omega_c : α) (f : WindowFunction α) :
    ∃ g : CoefFunction1 α,
      (type = FirFilter.Types.LowPass ∧ g = IdealLowPass sin pi ∨
        type = FirFilter.Types.HighPass ∧ g = IdealHighPass sin pi) ∧
      FirFilter.generate1 sin pi type f (FirFilter.oddLength L) omega_c =
        .ok (windowedTaps f (fun i => g omega_c i (FirFilter.oddLength L)) (L.toNat / 2)) := by
  unfold FirFilter.generate1 GenerateLowPassCoefficients GenerateHighPassCoefficients
    GenerateCoefficients
  by_cases h1 : type = FirFilter.Types.LowPass
  · refine ⟨_, Or.inl ⟨h1, rfl⟩, ?_⟩
    rw [if_pos h1, oddLength_of_nonneg L hL, GenerateCoefficientsWith_eq]
    rfl
  · have h2 : type = FirFilter.Types.HighPass := by
      rcases ht with h | h
      · exact absurd h h1
      · exact h
    refine ⟨_, Or.inr ⟨h2, rfl⟩, ?_⟩
    rw [if_neg h1, if_pos h2, oddLength_of_nonneg L hL, GenerateCoefficientsWith_eq]
    rfl

/-- The `switch` of the two-cutoff constructor on a matching kind and a non-negative requested
length. -/
theorem generate2_ok [Field α] (sin : α → α) (pi : α) (type : FirFilter.Types) (L : Int)
    (hL : 0 ≤ L) (ht : type = FirFilter.Types.BandPass ∨ type = FirFilter.Types.BandStop)
    (omega_c1 omega_c2 : α) (f : WindowFunction α) :
    ∃ g : CoefFunction2 α,
      (type = FirFilter.Types.BandPass ∧ g = IdealBandPass sin pi ∨
        type = FirFilter.Types.BandStop ∧ g = IdealBandStop sin pi) ∧
      FirFilter.generate2 sin pi type f (FirFilter.oddLength L) omega_c1 omega_c2 =
        .ok (windowedTaps f (fun i => g omega_c1 omega_c2 i (FirFilter.oddLength L))
          (L.toNat / 2)) := by
  unfold FirFilter.generate2 GenerateBandPassCoefficients GenerateBandStopCoefficients
    GenerateCoefficients2
  by_cases h1 : type = FirFilter.Types.BandPass
  · refine ⟨_, Or.inl ⟨h1, rfl⟩, ?_⟩
    rw [if_pos h1, oddLength_of_nonneg L hL, GenerateCoefficientsWith_eq]
    rfl
  · have h2 : type = FirFilter.Types.BandStop := by
      rcases ht with h | h
      · exact absurd h h1
      · exact h
    refine ⟨_, Or.inr ⟨h2, rfl⟩, ?_⟩
    rw [if_neg h1, if_pos h2, oddLength_of_nonneg L hL, GenerateCoefficientsWith_eq]
    rfl

/-- Construction from generated taps: when the `switch` yields `taps` for a non-negative
requested length, the single-cutoff constructor returns their closed form. -/
theorem new1_of_generate1 [LinearOrderedField α] (sin : α → α) (pi : α)
    (type : FirFilter.Types) (L : Int) (fc : α) (fs : Nat) (f : WindowFunction α)
    (taps : List α)
    (hg : FirFilter.generate1 sin pi type f (FirFilter.oddLength L) (2 * pi * fc / (fs : α))
      = .ok taps)
    (hlen : (taps.length : Int) = FirFilter.oddLength L) :
    FirFilter.new1 abs sin pi type L fc fs f = .ok (constructed abs taps) := by
  unfold FirFilter.new1
  simp only []
  rw [hg]
  simp only []
  rw [← hlen, finishConstruction_eq]

theorem new2_of_generate2 [LinearOrderedField α] (sin : α → α) (pi : α)
    (type : FirFilter.Types) (L : Int) (f1 f2 : α) (fs : Nat) (f : WindowFunction α)
    (taps : List α)
    (hg : FirFilter.generate2 sin pi type f (FirFilter.oddLength L) (2 * pi * f1 / (fs : α))
      (2 * pi * f2 / (fs : α)) = .ok taps)
    (hlen : (taps.length : Int) = FirFilter.oddLength L) :
    FirFilter.new2 abs sin pi type L f1 f2 fs f = .ok (constructed abs taps) := by
  unfold FirFilter.new2
  simp only []
  rw [hg]
  simp only []
  rw [← hlen, finishConstruction_eq]

theorem windowedTaps_length_int [Field α] (f : WindowFunction α) (hn : Int → α) (L : Int)
    (hL : 0 ≤ L) :
    ((windowedTaps f hn (L.toNat / 2)).length : Int) = FirFilter.oddLength L := by
  rw [windowedTaps_length, oddLength_of_nonneg L hL]
  push_cast
  ring

/-- Every object returned by either constructor is the closed form of a non-empty tap list. -/
theorem new_ok_constructed [LinearOrderedField α] (sin : α → α) (pi : α)
    (type : FirFilter.Types) (L : Int) (fc f1 f2 : α) (fs : Nat) (f : WindowFunction α)
    (F : FirFilter α)
    (h : FirFilter.new1 abs sin pi type L fc fs f = .ok F ∨
      FirFilter.new2 abs sin pi type L f1 f2 fs f = .ok F) :
    ∃ taps : List α, taps.length = 2 * (L.toNat / 2) + 1 ∧ F = constructed abs taps := by
  rcases h with h | h
  · obtain ⟨_, g, _, hF⟩ := new1_ok sin pi type L fc fs f F h
    exact ⟨_, windowedTaps_length _ _ _, hF⟩
  · obtain ⟨_, g, _, hF⟩ := new2_ok sin pi type L f1 f2 fs f F h
    exact ⟨_, windowedTaps_length _ _ _, hF⟩

theorem windowedTaps_pos [Field α] (f : WindowFunction α) (hn : Int → α) (limit : Nat) :
    1 ≤ (windowedTaps f hn limit).length := by
  rw [windowedTaps_length]
  omega

theorem gainCorrectionOf_eq [LinearOrderedField α] (taps : List α) :
    gainCorrectionOf abs taps
      = if (taps.map abs).sum = 0 then 1 else 1 / (taps.map abs).sum := by
  unfold gainCorrectionOf
  by_cases h : (taps.map abs).sum = 0
  · rw [if_neg (not_not.mpr h), if_pos h]
  · rw [if_pos h, if_neg h]

/-- The normalization facts of a constructed object, relative to its pre-normalization taps. -/
theorem constructed_normalization [LinearOrderedField α] (taps : List α) :
    ((taps.length : Int) = (constructed abs taps).Length) ∧
      (constructed abs taps).m_Coefs.length = taps.length ∧
      (constructed abs taps).OverallGain = (taps.map abs).sum ∧
      ((taps.map abs).insertionSort (fun a b => a ≤ b)).foldl
          (fun acc x => acc + x) 0 = (taps.map abs).sum ∧
      (constructed abs taps).GainCorrection =
        (if (constructed abs taps).OverallGain = 0 then 1
          else 1 / (constructed abs taps).OverallGain) ∧
      (constructed abs taps).m_Coefs
        = taps.map (fun c => c * (constructed abs taps).GainCorrection) ∧
      ((constructed abs taps).OverallGain = 0 → (constructed abs taps).m_Coefs = taps) := by
  refine ⟨rfl, by simp [constructed], rfl, foldl_add_sorted _, gainCorrectionOf_eq taps, rfl, ?_⟩
  intro h
  have h1 : (taps.map abs).sum = 0 := h
  show taps.map (fun c => c * gainCorrectionOf abs taps) = taps
  rw [gainCorrectionOf_eq, if_pos h1]
  simp

theorem windowedTaps_getElem? [Field α] (f : WindowFunction α) (hn : Int → α) (limit : Nat)
    (i : Int) (h1 : -(limit : Int) ≤ i) (h2 : i ≤ limit) :
    (windowedTaps f hn limit)[(i + (limit : Int)).toNat]?
      = some (f i (2 * (limit : Int) + 1) * hn i) := by
  unfold windowedTaps
  rw [List.getElem?_map, List.getElem?_range (by omega)]
  simp only [Option.map_some']
  have : (((i + (limit : Int)).toNat : Nat) : Int) - (limit : Int) = i := by omega
  rw [this]

/-- The shared generator on an odd positive length: it returns `length` taps, and the tap at
index `i + limit` is `f(i, length) * hn(i)`. -/
theorem GenerateCoefficientsWith_spec [Field α] (f : WindowFunction α) (hn : Int → α) (N : Int)
    (hN : 0 < N) (hodd : N % 2 = 1) :
    ∃ taps : List α, GenerateCoefficientsWith f hn N = .ok taps ∧ (taps.length : Int) = N ∧
      ∀ i : Int, -(N / 2) ≤ i → i ≤ N / 2 →
        taps[(i + N / 2).toNat]? = some (f i N * hn i) := by
  have hNe : N = 2 * (((N / 2).toNat : Nat) : Int) + 1 := by omega
  have hl : (((N / 2).toNat : Nat) : Int) = N / 2 := by omega
  refine ⟨windowedTaps f hn (N / 2).toNat, ?_, ?_, ?_⟩
  · conv_lhs => rw [hNe]
    rw [GenerateCoefficientsWith_eq]
    rfl
  · rw [windowedTaps_length]
    omega
  · intro i h1 h2
    have := windowedTaps_getElem? f hn (N / 2).toNat i (by omega) (by omega)
    have hN2 : 2 * (N / 2) + 1 = N := by omega
    rw [hl, hN2] at this
    exact this

/-- The length normalization: an odd length is kept, an even one is incremented. -/
theorem oddLength_spec (L : Int) :
    (Odd L → FirFilter.oddLength L = L) ∧ (Even L → FirFilter.oddLength L = L + 1) ∧
      Odd (FirFilter.oddLength L) ∧ L ≤ FirFilter.oddLength L ∧
      FirFilter.oddLength L ≤ L + 1 := by
  have ht : Int.tmod L 2 = 0 ↔ L % 2 = 0 := by
    rw [← Int.dvd_iff_tmod_eq_zero, Int.dvd_iff_emod_eq_zero]
  unfold FirFilter.oddLength
  by_cases h : L % 2 = 0
  · rw [if_pos (ht.mpr h)]
    refine ⟨fun ho => ?_, fun _ => rfl, ?_, by omega, by omega⟩
    · rw [Int.odd_iff] at ho
      omega
    · rw [Int.odd_iff]
      omega
  · rw [if_neg (fun h1 => h (ht.mp h1))]
    refine ⟨fun _ => rfl, fun he => ?_, ?_, by omega, by omega⟩
    · rw [Int.even_iff] at he
      omega
    · rw [Int.odd_iff]
      omega

end FreshFilter

section Symmetry

variable {α : Type} {abs : α → α}

end Symmetry

section DCGain

variable {α : Type} {abs : α → α}

theorem sum_range_getD [AddCommMonoid α] (l : List α) :
    ∑ k in Finset.range l.length, l.getD k 0 = l.sum := by
  induction l with
  | nil => simp
  | cons a l ih =>
    rw [List.length_cons, Finset.sum_range_succ', List.sum_cons]
    simp only [List.getD_cons_succ, List.getD_cons_zero]
    rw [ih, add_comm]

theorem sampleAt_replicate_one [Zero α] [One α] (n : Nat) (t : Int) (h1 : 1 ≤ t)
    (h2 : t ≤ n) : sampleAt (List.replicate n (1 : α)) t = 1 := by
  unfold sampleAt
  rw [if_neg (by omega), List.getD_eq_getElem?_getD, List.getElem?_replicate,
    if_pos (by omega)]
  rfl

/-- Fed the constant input 1, the direct form returns the sum of the coefficients once the
whole window lies inside the input. -/
theorem firOutput_constant_one [CommSemiring α] (c : List α) (n : Nat) (m : Int)
    (h1 : (c.length : Int) ≤ m) (h2 : m ≤ n) :
    firOutput c (List.replicate n 1) m = c.sum := by
  unfold firOutput
  rw [← sum_range_getD c]
  refine Finset.sum_congr rfl ?_
  intro k hk
  have hk1 : k < c.length := Finset.mem_range.mp hk
  rw [sampleAt_replicate_one n _ (by omega) (by omega), mul_one]

theorem sum_le_sum_abs [LinearOrderedField α] (l : List α) :
    l.sum ≤ (l.map (fun c => |c|)).sum := by
  induction l with
  | nil => simp
  | cons a l ih =>
    rw [List.sum_cons, List.map_cons, List.sum_cons]
    exact add_le_add (le_abs_self a) ih

/-- The sum of a list equals the sum of its absolute values exactly when no entry is
negative. -/
theorem sum_eq_sum_abs_iff [LinearOrderedField α] (l : List α) :
    l.sum = (l.map (fun c => |c|)).sum ↔ ∀ t ∈ l, 0 ≤ t := by
  induction l with
  | nil => simp
  | cons a l ih =>
    rw [List.sum_cons, List.map_cons, List.sum_cons]
    constructor
    · intro h
      have h1 := le_abs_self a
      have h2 := sum_le_sum_abs l
      have ha : a = |a| := le_antisymm h1 (by linarith)
      have hl : l.sum = (l.map (fun c => |c|)).sum := le_antisymm h2 (by linarith)
      intro t ht
      rcases List.mem_cons.mp ht with rfl | ht
      · rw [ha]
        exact abs_nonneg _
      · exact ih.mp hl t ht
    · intro h
      rw [abs_of_nonneg (h a (List.mem_cons_self _ _)),
        ih.mpr (fun t ht => h t (List.mem_cons_of_mem _ ht))]

/-- The steady-state response of a constructed object to the constant input 1: from output
`N` on it is the sum of the pre-normalization taps times the gain correction. -/
theorem dc_gain_of_constructed [LinearOrderedField α] (taps : List α) (h : 1 ≤ taps.length) :
    ∀ n : Nat, ∃ (outs : List α) (F1 : FirFilter α),
      (constructed abs taps).run (List.replicate n 1) = some (outs, F1) ∧ outs.length = n ∧
      ∀ m : Nat, (constructed abs taps).Length.toNat ≤ m → m ≤ n →
        outs[m - 1]? = some (taps.sum * (constructed abs taps).GainCorrection) := by
  have hN : (constructed abs taps).Length.toNat = taps.length := by
    show ((taps.length : Int)).toNat = taps.length
    omega
  have hcl : (constructed abs taps).m_Coefs.length = taps.length := by simp [constructed]
  have hsum : (constructed abs taps).m_Coefs.sum
      = taps.sum * (constructed abs taps).GainCorrection := by
    have := List.sum_map_mul_right taps (fun c => c) (gainCorrectionOf abs taps)
    rw [List.map_id'] at this
    exact this
  intro n
  obtain ⟨F1, hrun⟩ := run_fresh (constructed abs taps) (constructed_wellFormed taps h) rfl
    (fun j => getD_replicate_zero _ j) (List.replicate n 1)
  refine ⟨_, F1, hrun, by simp, ?_⟩
  intro m hm1 hm2
  rw [List.getElem?_map, List.getElem?_range (by rw [List.length_replicate]; omega)]
  simp only [Option.map_some']
  rw [firOutput_constant_one _ _ _ (by rw [hcl]; omega) (by omega), hsum]

/-- With the floating-point `abs`, the steady-state response to the constant input 1 is 1
exactly when no pre-normalization tap is negative and the overall gain is not 0. -/
theorem dc_gain_eq_one_iff [LinearOrderedField α] (taps : List α) :
    taps.sum * (constructed abs_float taps).GainCorrection = 1 ↔
      (∀ t ∈ taps, 0 ≤ t) ∧ (constructed abs_float taps).OverallGain ≠ 0 := by
  show taps.sum * gainCorrectionOf abs_float taps = 1 ↔
    (∀ t ∈ taps, 0 ≤ t) ∧ (taps.map (fun c => |c|)).sum ≠ 0
  rw [gainCorrectionOf_eq]
  show taps.sum * (if (taps.map (fun c => |c|)).sum = 0 then 1
    else 1 / (taps.map (fun c => |c|)).sum) = 1 ↔ _
  by_cases h0 : (taps.map (fun c => |c|)).sum = 0
  · rw [if_pos h0, mul_one]
    have hle := sum_le_sum_abs taps
    constructor
    · intro h1
      rw [h0, h1] at hle
      exact absurd hle (by norm_num)
    · intro h1
      exact absurd h0 h1.2
  · rw [if_neg h0, mul_one_div, div_eq_one_iff_eq h0, sum_eq_sum_abs_iff]
    exact ⟨fun h1 => ⟨h1, h0⟩, fun h1 => h1.1⟩

end DCGain

section AbsLemmas

variable {α : Type} {abs : α → α}

/-- `int abs(int)` maps every value of magnitude below 1 to 0: the conversion to `int` truncates
it to 0. -/
theorem abs_int_of_abs_lt_one [LinearOrderedField α] [FloorRing α] (x : α) (h : |x| < 1) :
    abs_int x = 0 := by
  unfold abs_int
  have h1 := abs_lt.mp h
  by_cases h0 : 0 ≤ x
  · rw [if_pos h0, Int.floor_eq_zero_iff.mpr ⟨h0, h1.2⟩]
    simp
  · rw [if_neg h0, Int.ceil_eq_zero_iff.mpr ⟨h1.1, le_of_lt (not_le.mp h0)⟩]
    simp

/-- The values `int abs(int)` yields for taps of magnitude below 1 sum to 0. -/
theorem sum_map_abs_int [LinearOrderedField α] [FloorRing α] (l : List α)
    (h : ∀ t ∈ l, |t| < 1) : (l.map abs_int).sum = 0 := by
  apply List.sum_eq_zero
  intro x hx
  obtain ⟨t, ht, rfl⟩ := List.mem_map.mp hx
  exact abs_int_of_abs_lt_one t (h t ht)

/-- A constructed object whose values `abs(tap)` sum to 0: the overall gain is 0, the gain
correction 1, and the stored taps are the pre-normalization taps. -/
theorem constructed_of_gain_zero [LinearOrderedField α] (taps : List α)
    (h : (taps.map abs).sum = 0) :
    (constructed abs taps).OverallGain = 0 ∧ (constructed abs taps).GainCorrection = 1 ∧
      (constructed abs taps).m_Coefs = taps := by
  have hg : gainCorrectionOf abs taps = 1 := by
    unfold gainCorrectionOf
    rw [if_neg (not_not.mpr h)]
  refine ⟨h, hg, ?_⟩
  show taps.map (fun c => c * gainCorrectionOf abs taps) = taps
  rw [hg]
  simp

/-- The checked angle of the window formulas is the angle of the model whenever the filter has
more than one tap. -/
theorem windowAngleChecked_of_ne [Field α] [CharZero α] [DecidableEq α] (pi m : α) (n N : Int)
    (h : N ≠ 1) : windowAngleChecked pi m n N = some (windowAngle pi m n N) := by
  unfold windowAngleChecked checkedDiv windowAngle
  have : ((N - 1 : Int) : α) ≠ 0 := by
    intro h0
    have : N - 1 = 0 := by exact_mod_cast h0
    omega
  rw [if_neg this]

/-- The checked conversion of a cutoff is the quotient of the model for a sample rate above 0. -/
theorem omegaChecked_of_pos [Field α] [CharZero α] [DecidableEq α] (pi fc : α) (fs : Nat)
    (h : 0 < fs) : omegaChecked pi fc fs = some (2 * pi * fc / (fs : α)) := by
  unfold omegaChecked checkedDiv
  have : ((fs : Nat) : α) ≠ 0 := by
    exact_mod_cast (Nat.pos_iff_ne_zero.mp h)
  rw [if_neg this]

/-- For a sample rate above 0 and a requested length of at least 2 (or the rectangle window,
which divides nothing), no division of the construction has a zero divisor: the checked
conversion of every cutoff and the checked angle of every window value are the values of the
model. -/
theorem divisions_defined [Field α] [CharZero α] [DecidableEq α] (pi : α) (L : Int) (fs : Nat)
    (f : WindowFunction α) (hfs : 0 < fs) (hN : 2 ≤ L ∨ f = RectangleWindow) :
    (∀ c : α, omegaChecked pi c fs = some (2 * pi * c / (fs : α))) ∧
    (f = RectangleWindow ∨ ∀ (m : α) (n : Int),
      windowAngleChecked pi m n (FirFilter.oddLength L)
        = some (windowAngle pi m n (FirFilter.oddLength L))) := by
  refine ⟨fun c => omegaChecked_of_pos pi c fs hfs, ?_⟩
  rcases hN with h | h
  · right
    intro m n
    apply windowAngleChecked_of_ne
    have := (oddLength_spec L).2.2.2.1
    omega
  · exact Or.inl h

/-- The three windowed taps of a filter of length 3. -/
theorem windowedTaps_one [Field α] (f : WindowFunction α) (hn : Int → α) :
    windowedTaps f hn 1 = [f (-1) 3 * hn (-1), f 0 3 * hn 0, f 1 3 * hn 1] := by
  rfl

/-- The seven windowed taps of a filter of length 7. -/
theorem windowedTaps_three [Field α] (f : WindowFunction α) (hn : Int → α) :
    windowedTaps f hn 3 = [f (-3) 7 * hn (-3), f (-2) 7 * hn (-2), f (-1) 7 * hn (-1),
      f 0 7 * hn 0, f 1 7 * hn 1, f 2 7 * hn 2, f 3 7 * hn 3] := by
  rfl

/-- The cutoff 12000 Hz at the sample rate 48000 Hz as an angle: `pi / 2`. -/
theorem quarter_omega : 2 * Real.pi * 12000 / ((48000 : Nat) : ℝ) = Real.pi / 2 := by
  push_cast
  ring

theorem sin_quarter :
    Real.sin (Real.pi / 2 * ((1 : Int) : ℝ)) = 1 ∧ Real.sin (Real.pi / 2 * ((-1 : Int) : ℝ)) = -1 ∧
    Real.sin (Real.pi / 2 * ((2 : Int) : ℝ)) = 0 ∧ Real.sin (Real.pi / 2 * ((-2 : Int) : ℝ)) = 0 ∧
    Real.sin (Real.pi / 2 * ((3 : Int) : ℝ)) = -1 ∧ Real.sin (Real.pi / 2 * ((-3 : Int) : ℝ)) = 1 := by
  have e1 : Real.pi / 2 * ((1 : Int) : ℝ) = Real.pi / 2 := by push_cast; ring
  have e2 : Real.pi / 2 * ((-1 : Int) : ℝ) = -(Real.pi / 2) := by push_cast; ring
  have e3 : Real.pi / 2 * ((2 : Int) : ℝ) = Real.pi := by push_cast; ring
  have e4 : Real.pi / 2 * ((-2 : Int) : ℝ) = -Real.pi := by push_cast; ring
  have e5 : Real.pi / 2 * ((3 : Int) : ℝ) = Real.pi / 2 + Real.pi := by push_cast; ring
  have e6 : Real.pi / 2 * ((-3 : Int) : ℝ) = -(Real.pi / 2 + Real.pi) := by push_cast; ring
  rw [e1, e2, e3, e4, e5, e6]
  simp [Real.sin_add]

/-- The pre-normalization taps of the low-pass filter with 3 taps, the rectangle window and the
cutoff at a quarter of the sample rate. -/
theorem lowPass3_taps :
    windowedTaps (RectangleWindow : WindowFunction ℝ)
      (fun i => IdealLowPass Real.sin Real.pi (2 * Real.pi * 12000 / ((48000 : Nat) : ℝ)) i
        (FirFilter.oddLength 3)) ((3 : Int).toNat / 2)
      = [1 / Real.pi, 1 / 2, 1 / Real.pi] := by
  have hpi := Real.pi_pos
  rw [show (3 : Int).toNat / 2 = 1 from by decide, windowedTaps_one, quarter_omega]
  obtain ⟨s1, s2, -⟩ := sin_quarter
  simp only [RectangleWindow, IdealLowPass, one_mul]
  rw [if_neg (by decide : ¬ (-1 : Int) = 0), if_pos trivial,
    if_neg (by decide : ¬ (1 : Int) = 0), s1, s2]
  congr 1
  · push_cast; field_simp
  · congr 1
    · field_simp; ring
    · congr 1
      push_cast; field_simp

/-- The pre-normalization taps of the high-pass filter with 3 taps, the rectangle window and the
cutoff at a quarter of the sample rate. -/
theorem highPass3_taps :
    windowedTaps (RectangleWindow : WindowFunction ℝ)
      (fun i => IdealHighPass Real.sin Real.pi (2 * Real.pi * 12000 / ((48000 : Nat) : ℝ)) i
        (FirFilter.oddLength 3)) ((3 : Int).toNat / 2)
      = [-(1 / Real.pi), 1 / 2, -(1 / Real.pi)] := by
  have hpi := Real.pi_pos
  rw [show (3 : Int).toNat / 2 = 1 from by decide, windowedTaps_one, quarter_omega]
  obtain ⟨s1, s2, -⟩ := sin_quarter
  simp only [RectangleWindow, IdealHighPass, one_mul]
  rw [if_neg (by decide : ¬ (-1 : Int) = 0), if_pos trivial,
    if_neg (by decide : ¬ (1 : Int) = 0), s1, s2]
  congr 1
  · push_cast; field_simp
  · congr 1
    · field_simp; ring
    · congr 1
      push_cast; field_simp

/-- The pre-normalization taps of the low-pass filter with 7 taps, the rectangle window and the
cutoff at a quarter of the sample rate. -/
theorem lowPass7_taps :
    windowedTaps (RectangleWindow : WindowFunction ℝ)
      (fun i => IdealLowPass Real.sin Real.pi (2 * Real.pi * 12000 / ((48000 : Nat) : ℝ)) i
        (FirFilter.oddLength 7)) ((7 : Int).toNat / 2)
      = [-(1 / (3 * Real.pi)), 0, 1 / Real.pi, 1 / 2, 1 / Real.pi, 0, -(1 / (3 * Real.pi))] := by
  have hpi := Real.pi_pos
  rw [show (7 : Int).toNat / 2 = 3 from by decide, windowedTaps_three, quarter_omega]
  obtain ⟨s1, s2, s3, s4, s5, s6⟩ := sin_quarter
  simp only [RectangleWindow, IdealLowPass, one_mul]
  rw [if_neg (by decide : ¬ (-3 : Int) = 0), if_neg (by decide : ¬ (-2 : Int) = 0),
    if_neg (by decide : ¬ (-1 : Int) = 0), if_pos trivial, if_neg (by decide : ¬ (1 : Int) = 0),
    if_neg (by decide : ¬ (2 : Int) = 0), if_neg (by decide : ¬ (3 : Int) = 0),
    s1, s2, s3, s4, s5, s6]
  have a1 : (1 : ℝ) / (Real.pi * ((-3 : Int) : ℝ)) = -(1 / (3 * Real.pi)) := by
    push_cast; field_simp; ring
  have a2 : (0 : ℝ) / (Real.pi * ((-2 : Int) : ℝ)) = 0 := zero_div _
  have a3 : (-1 : ℝ) / (Real.pi * ((-1 : Int) : ℝ)) = 1 / Real.pi := by
    push_cast; field_simp
  have a4 : Real.pi / 2 / Real.pi = 1 / 2 := by field_simp; ring
  have a5 : (1 : ℝ) / (Real.pi * ((1 : Int) : ℝ)) = 1 / Real.pi := by
    push_cast; field_simp
  have a6 : (0 : ℝ) / (Real.pi * ((2 : Int) : ℝ)) = 0 := zero_div _
  have a7 : (-1 : ℝ) / (Real.pi * ((3 : Int) : ℝ)) = -(1 / (3 * Real.pi)) := by
    push_cast; field_simp; ring
  rw [a1, a2, a3, a4, a5, a6, a7]

end AbsLemmas

/-! ## The claims -/

section Claims

variable {α : Type}

/-- C1: starting from an all-zero history with cursor 0, for every coefficient array `c` of
`N ≥ 1` entries and every input sequence `x_1, x_2, ...`, every call of `filter` returns, and the
`m`-th returned value is the sum over `k < N` of `c[k] * x_{m - (N - 1 - k)}` with `x_t = 0` for
`t ≤ 0`: the newest input meets the last coefficient and the oldest meets `c[0]`. -/
theorem C1_filter_is_direct_form_convolution [CommSemiring α] (c : List α) (hN : 1 ≤ c.length)
    (g1 g2 : α) (xs : List α) :
    ∃ (outs : List α) (F1 : FirFilter α),
      FirFilter.run ⟨0, List.replicate c.length 0, c, (c.length : Int), g1, g2⟩ xs
          = some (outs, F1) ∧
        outs.length = xs.length ∧
        ∀ m : Nat, 1 ≤ m → m ≤ xs.length →
          outs[m - 1]? = some (∑ k in Finset.range c.length,
            c.getD k 0 * sampleAt xs ((m : Int) - ((c.length : Int) - 1 - (k : Int)))) := by
  obtain ⟨F1, h⟩ := run_fresh ⟨0, List.replicate c.length 0, c, (c.length : Int), g1, g2⟩
    ⟨by show (1 : Int) ≤ (c.length : Int); omega, by simp, by simp, by
      show 0 < ((c.length : Int)).toNat
      omega⟩ rfl (fun j => getD_replicate_zero _ j) xs
  refine ⟨_, F1, h, by simp, ?_⟩
  intro m hm1 hm2
  rw [List.getElem?_map,
    List.getElem?_range (by omega)]
  simp only [Option.map_some', firOutput]
  have : ((m - 1 : Nat) : Int) + 1 = (m : Int) := by omega
  rw [this]

/-- Witness for C1: the coefficients `[1, 2, 3]` over the integers and the inputs `[1, 0, 0, 5]`. -/
theorem C1_filter_is_direct_form_convolution_witness :
    1 ≤ ([1, 2, 3] : List Int).length ∧
    ∃ (outs : List Int) (F1 : FirFilter Int),
      FirFilter.run ⟨0, List.replicate ([1, 2, 3] : List Int).length 0, [1, 2, 3],
          (([1, 2, 3] : List Int).length : Int), 0, 1⟩ [1, 0, 0, 5] = some (outs, F1) ∧
        outs.length = ([1, 0, 0, 5] : List Int).length ∧
        ∀ m : Nat, 1 ≤ m → m ≤ ([1, 0, 0, 5] : List Int).length →
          outs[m - 1]? = some (∑ k in Finset.range ([1, 2, 3] : List Int).length,
            ([1, 2, 3] : List Int).getD k 0 *
              sampleAt [1, 0, 0, 5]
                ((m : Int) - ((([1, 2, 3] : List Int).length : Int) - 1 - (k : Int)))) :=
  ⟨by decide, C1_filter_is_direct_form_convolution [1, 2, 3] (by decide) 0 1 [1, 0, 0, 5]⟩

/-- C3: ring-buffer wraparound.  For a filter with `N` taps, `0 < k < N` and `N + k` samples fed
to a fresh filter, the output at every step `s` in `N + 1 .. N + k` equals the `N`-th output of a
fresh filter fed only `x_{s-N+1}, ..., x_s`: older samples have been evicted, and the position of
the cursor in the ring does not matter. -/
theorem C3_ring_buffer_wraparound [CommSemiring α] (c : List α) (hN : 1 ≤ c.length) (g1 g2 : α)
    (k : Nat) (_hk0 : 0 < k) (_hk : k < c.length) (xs : List α)
    (hxs : xs.length = c.length + k) (s : Nat) (hs1 : c.length + 1 ≤ s)
    (hs2 : s ≤ c.length + k) :
    ∃ (outs : List α) (F1 : FirFilter α) (outsLast : List α) (F2 : FirFilter α) (y : α),
      FirFilter.run ⟨0, List.replicate c.length 0, c, (c.length : Int), g1, g2⟩ xs
          = some (outs, F1) ∧
        FirFilter.run ⟨0, List.replicate c.length 0, c, (c.length : Int), g1, g2⟩
          ((xs.drop (s - c.length)).take c.length) = some (outsLast, F2) ∧
        outs[s - 1]? = some y ∧ outsLast[c.length - 1]? = some y := by
  have hwf : (⟨0, List.replicate c.length 0, c, (c.length : Int), g1, g2⟩ :
      FirFilter α).WellFormed :=
    ⟨by show (1 : Int) ≤ (c.length : Int); omega, by simp, by simp, by
      show 0 < ((c.length : Int)).toNat
      omega⟩
  obtain ⟨F1, h1⟩ := run_fresh _ hwf rfl (fun j => getD_replicate_zero _ j) xs
  obtain ⟨F2, h2⟩ := run_fresh _ hwf rfl (fun j => getD_replicate_zero _ j)
    ((xs.drop (s - c.length)).take c.length)
  have hwl : ((xs.drop (s - c.length)).take c.length).length = c.length := by
    rw [List.length_take, List.length_drop]
    omega
  refine ⟨_, F1, _, F2, firOutput c xs s, h1, h2, ?_, ?_⟩
  · rw [List.getElem?_map, List.getElem?_range (by omega)]
    simp only [Option.map_some']
    have : ((s - 1 : Nat) : Int) + 1 = (s : Int) := by omega
    rw [this]
  · rw [List.getElem?_map, List.getElem?_range (by omega)]
    simp only [Option.map_some']
    have : ((c.length - 1 : Nat) : Int) + 1 = (c.length : Int) := by omega
    rw [this]
    congr 1
    unfold firOutput
    refine Finset.sum_congr rfl ?_
    intro j hj
    have hj1 : j < c.length := Finset.mem_range.mp hj
    congr 1
    unfold sampleAt
    rw [if_neg (by omega), if_neg (by omega)]
    have e1 : ((c.length : Int) - ((c.length : Int) - 1 - (j : Int)) - 1).toNat = j := by omega
    have e2 : ((s : Int) - ((c.length : Int) - 1 - (j : Int)) - 1).toNat
        = s - c.length + j := by omega
    rw [e1, e2, List.getD_eq_getElem?_getD, List.getD_eq_getElem?_getD,
      List.getElem?_take_of_lt hj1, List.getElem?_drop]

/-- Witness for C3: three taps, `k = 2`, five integer samples, step `s = 5`. -/
theorem C3_ring_buffer_wraparound_witness :
    ∃ (outs : List Int) (F1 : FirFilter Int) (outsLast : List Int) (F2 : FirFilter Int)
      (y : Int),
      FirFilter.run ⟨0, List.replicate ([1, 2, 3] : List Int).length 0, [1, 2, 3],
          (([1, 2, 3] : List Int).length : Int), 0, 1⟩ [4, 7, -1, 5, 9] = some (outs, F1) ∧
        FirFilter.run ⟨0, List.replicate ([1, 2, 3] : List Int).length 0, [1, 2, 3],
            (([1, 2, 3] : List Int).length : Int), 0, 1⟩
          ((([4, 7, -1, 5, 9] : List Int).drop (5 - ([1, 2, 3] : List Int).length)).take
            ([1, 2, 3] : List Int).length) = some (outsLast, F2) ∧
        outs[5 - 1]? = some y ∧ outsLast[([1, 2, 3] : List Int).length - 1]? = some y :=
  C3_ring_buffer_wraparound ([1, 2, 3] : List Int) (by decide) 0 1 2 (by decide) (by decide)
    [4, 7, -1, 5, 9] (by decide) 5 (by decide) (by decide)

/-- C5: what `CalculateGain` computes.

First the failing input: the low-pass filter with 3 taps, the rectangle window and the cutoff
12000 Hz at 48000 Hz has the pre-normalization taps `1 / pi, 1 / 2, 1 / pi`, whose absolute
values sum to `1 / 2 + 2 / pi`.  With `int abs(int)`, each tap is converted to the `int` 0
first: `OverallGain` is 0, `GainCorrection` stays 1 and the stored taps are the
pre-normalization taps, not scaled.

Then the general rule, for either constructor, a matching kind, any window function, a sample
rate `fs > 0` and a requested length `L ≥ 2` (for the rectangle window also `L ≥ 0`), with
`taps` the pre-normalization coefficients generated by the constructor's `switch`, and for
whichever function `abs` names: `OverallGain` is the sum of the values `abs(tap)` (sorting them
first does not change the sum), `GainCorrection` is `1 / OverallGain`, or 1 when
`OverallGain = 0`, and every stored tap is its pre-normalization value times `GainCorrection`
(unscaled when the sum is 0).  That is the claimed normalization exactly when `abs` is the
floating-point absolute value. -/
theorem C5_gain_normalization :
    (∃ (F : FirFilter ℝ) (taps : List ℝ),
      FirFilter.new1 abs_int Real.sin Real.pi FirFilter.Types.LowPass 3 12000 48000
        RectangleWindow = .ok F ∧
      FirFilter.generate1 Real.sin Real.pi FirFilter.Types.LowPass RectangleWindow
        (FirFilter.oddLength 3) (2 * Real.pi * 12000 / ((48000 : Nat) : ℝ)) = .ok taps ∧
      taps = [1 / Real.pi, 1 / 2, 1 / Real.pi] ∧
      (taps.map (fun c => |c|)).sum = 1 / 2 + 2 / Real.pi ∧
      F.OverallGain = 0 ∧ F.OverallGain ≠ (taps.map (fun c => |c|)).sum ∧
      F.GainCorrection = 1 ∧ F.GainCorrection ≠ 1 / (taps.map (fun c => |c|)).sum ∧
      F.m_Coefs = taps) ∧
    (∀ (β : Type) [LinearOrderedField β] (abs : β → β) (sin : β → β) (pi : β) (L : Int)
      (fc f1 f2 : β) (fs : Nat) (f : WindowFunction β),
      0 ≤ L → 0 < fs → (2 ≤ L ∨ f = RectangleWindow) →
      (∀ type : FirFilter.Types,
        type = FirFilter.Types.LowPass ∨ type = FirFilter.Types.HighPass →
        ∃ (F : FirFilter β) (taps : List β),
          FirFilter.new1 abs sin pi type L fc fs f = .ok F ∧
          FirFilter.generate1 sin pi type f (FirFilter.oddLength L) (2 * pi * fc / (fs : β))
            = .ok taps ∧
          (taps.length : Int) = F.Length ∧ F.m_Coefs.length = taps.length ∧
          F.OverallGain = (taps.map abs).sum ∧
          ((taps.map abs).insertionSort (fun a b => a ≤ b)).foldl
            (fun acc x => acc + x) 0 = (taps.map abs).sum ∧
          F.GainCorrection = (if F.OverallGain = 0 then 1 else 1 / F.OverallGain) ∧
          F.m_Coefs = taps.map (fun c => c * F.GainCorrection) ∧
          (F.OverallGain = 0 → F.m_Coefs = taps)) ∧
      (∀ type : FirFilter.Types,
        type = FirFilter.Types.BandPass ∨ type = FirFilter.Types.BandStop →
        ∃ (F : FirFilter β) (taps : List β),
          FirFilter.new2 abs sin pi type L f1 f2 fs f = .ok F ∧
          FirFilter.generate2 sin pi type f (FirFilter.oddLength L) (2 * pi * f1 / (fs : β))
            (2 * pi * f2 / (fs : β)) = .ok taps ∧
          (taps.length : Int) = F.Length ∧ F.m_Coefs.length = taps.length ∧
          F.OverallGain = (taps.map abs).sum ∧
          ((taps.map abs).insertionSort (fun a b => a ≤ b)).foldl
            (fun acc x => acc + x) 0 = (taps.map abs).sum ∧
          F.GainCorrection = (if F.OverallGain = 0 then 1 else 1 / F.OverallGain) ∧
          F.m_Coefs = taps.map (fun c => c * F.GainCorrection) ∧
          (F.OverallGain = 0 → F.m_Coefs = taps))) := by
  constructor
  · have hpi := Real.pi_pos
    have hpi3 := Real.pi_gt_three
    obtain ⟨g, hgk, hg⟩ := generate1_ok Real.sin Real.pi FirFilter.Types.LowPass 3 (by decide)
      (Or.inl rfl) (2 * Real.pi * 12000 / ((48000 : Nat) : ℝ)) RectangleWindow
    have hgl : g = IdealLowPass Real.sin Real.pi := by
      rcases hgk with ⟨_, h⟩ | ⟨h, _⟩
      · exact h
      · exact absurd h (by decide)
    subst hgl
    rw [lowPass3_taps] at hg
    have hnew := @new1_of_generate1 ℝ abs_int _ Real.sin Real.pi FirFilter.Types.LowPass 3 12000
      48000 RectangleWindow _ hg (by decide)
    have hinv : 1 / Real.pi < 1 := by
      rw [div_lt_one hpi]
      linarith
    have hinv0 : 0 < 1 / Real.pi := by positivity
    have hz : (([1 / Real.pi, 1 / 2, 1 / Real.pi] : List ℝ).map abs_int).sum = 0 := by
      apply sum_map_abs_int
      intro t ht
      simp only [List.mem_cons, List.mem_singleton, List.not_mem_nil, or_false] at ht
      rcases ht with rfl | rfl | rfl
      · rw [abs_of_pos hinv0]; exact hinv
      · rw [abs_of_pos (by norm_num)]; norm_num
      · rw [abs_of_pos hinv0]; exact hinv
    obtain ⟨h1, h2, h3⟩ := constructed_of_gain_zero _ hz
    have hsum : (([1 / Real.pi, 1 / 2, 1 / Real.pi] : List ℝ).map (fun c => |c|)).sum
        = 1 / 2 + 2 / Real.pi := by
      simp only [List.map_cons, List.map_nil, List.sum_cons, List.sum_nil]
      rw [abs_of_pos hinv0, abs_of_pos (by norm_num : (0 : ℝ) < 1 / 2)]
      ring
    have hpos : (0 : ℝ) < 1 / 2 + 2 / Real.pi := by positivity
    refine ⟨_, _, hnew, hg, rfl, hsum, h1, ?_, h2, ?_, h3⟩
    · rw [h1, hsum]
      exact ne_of_lt hpos
    · rw [h2, hsum]
      intro h
      have h5 : (1 : ℝ) / 2 + 2 / Real.pi = 1 := by
        field_simp at h
        field_simp
        linarith
      have h6 : (0 : ℝ) < 2 / Real.pi := by positivity
      have h7 : (2 : ℝ) / Real.pi = 1 / 2 := by linarith
      rw [div_eq_iff (ne_of_gt hpi)] at h7
      have := Real.pi_lt_d2
      linarith
  · intro β _ abs sin pi L fc f1 f2 fs f hL _ _
    constructor
    · intro type ht
      obtain ⟨g, _, hg⟩ := generate1_ok sin pi type L hL ht (2 * pi * fc / (fs : β)) f
      exact ⟨_, _, new1_of_generate1 sin pi type L fc fs f _ hg
        (windowedTaps_length_int _ _ L hL), hg, constructed_normalization _⟩
    · intro type ht
      obtain ⟨g, _, hg⟩ := generate2_ok sin pi type L hL ht (2 * pi * f1 / (fs : β))
        (2 * pi * f2 / (fs : β)) f
      exact ⟨_, _, new2_of_generate2 sin pi type L f1 f2 fs f _ hg
        (windowedTaps_length_int _ _ L hL), hg, constructed_normalization _⟩

/-- Witness for the general rule of C5: a band-stop filter over the rationals with requested
length 3, with `int abs(int)`. -/
theorem C5_gain_normalization_witness :
    ∃ (F : FirFilter ℚ) (taps : List ℚ),
      FirFilter.new2 abs_int (fun x : ℚ => x) 3 FirFilter.Types.BandStop 3 1 2 8 RectangleWindow
        = .ok F ∧
      FirFilter.generate2 (fun x : ℚ => x) 3 FirFilter.Types.BandStop RectangleWindow
        (FirFilter.oddLength 3) (2 * 3 * 1 / ((8 : Nat) : ℚ)) (2 * 3 * 2 / ((8 : Nat) : ℚ))
        = .ok taps ∧
      (taps.length : Int) = F.Length ∧ F.m_Coefs.length = taps.length ∧
      F.OverallGain = (taps.map abs_int).sum ∧
      ((taps.map abs_int).insertionSort (fun a b => a ≤ b)).foldl
        (fun acc x => acc + x) 0 = (taps.map abs_int).sum ∧
      F.GainCorrection = (if F.OverallGain = 0 then 1 else 1 / F.OverallGain) ∧
      F.m_Coefs = taps.map (fun c => c * F.GainCorrection) ∧
      (F.OverallGain = 0 → F.m_Coefs = taps) :=
  (C5_gain_normalization.2 ℚ abs_int (fun x : ℚ => x) 3 3 1 1 2 8 RectangleWindow (by decide)
    (by decide) (Or.inl (by decide))).2 FirFilter.Types.BandStop (Or.inr rfl)

/-- C6 (as amended): for a sample rate `fs > 0`, every requested length `L ≥ 2` (so every odd
tap count `N ≥ 3`; for the rectangle window also `N = 1`), every window function and every
cutoff, and whichever function `abs` names in `CalculateGain`, a constructed low-pass filter fed
the constant input 1 returns, from its `N`-th output onward, the sum of its pre-normalization
taps times `GainCorrection`.  Under these conditions no division of the construction has a zero
divisor: the conversion `2 * pi * c / fs` of every cutoff and, unless the window is the
rectangle, the angle `(m * pi * (n + N / 2)) / (N - 1)` of every window value are defined. -/
theorem C6_dc_gain_of_low_pass [LinearOrderedField α] (abs : α → α) (sin : α → α) (pi : α)
    (L : Int) (hL : 0 ≤ L) (fc : α) (fs : Nat) (hfs : 0 < fs) (f : WindowFunction α)
    (hN2 : 2 ≤ L ∨ f = RectangleWindow) :
    (∃ (F : FirFilter α) (taps : List α),
      FirFilter.new1 abs sin pi FirFilter.Types.LowPass L fc fs f = .ok F ∧
      FirFilter.generate1 sin pi FirFilter.Types.LowPass f (FirFilter.oddLength L)
        (2 * pi * fc / (fs : α)) = .ok taps ∧
      (∀ n : Nat, ∃ (outs : List α) (F1 : FirFilter α),
        F.run (List.replicate n 1) = some (outs, F1) ∧ outs.length = n ∧
        ∀ m : Nat, F.Length.toNat ≤ m → m ≤ n →
          outs[m - 1]? = some (taps.sum * F.GainCorrection))) ∧
    ((∀ c : α, omegaChecked pi c fs = some (2 * pi * c / (fs : α))) ∧
      (f = RectangleWindow ∨ ∀ (m : α) (n : Int),
        windowAngleChecked pi m n (FirFilter.oddLength L)
          = some (windowAngle pi m n (FirFilter.oddLength L)))) := by
  obtain ⟨g, _, hg⟩ := generate1_ok sin pi FirFilter.Types.LowPass L hL (Or.inl rfl)
    (2 * pi * fc / (fs : α)) f
  exact ⟨⟨_, _, new1_of_generate1 sin pi FirFilter.Types.LowPass L fc fs f _ hg
    (windowedTaps_length_int _ _ L hL), hg, dc_gain_of_constructed _ (windowedTaps_pos f
      (fun i => g (2 * pi * fc / (fs : α)) i (FirFilter.oddLength L)) (L.toNat / 2))⟩,
    divisions_defined pi L fs f hfs hN2⟩

/-- Witness for the amended C6: a rectangle-window low-pass filter over the rationals with
requested length 4. -/
theorem C6_dc_gain_of_low_pass_witness :
    ∃ (F : FirFilter ℚ) (taps : List ℚ),
      FirFilter.new1 abs_int (fun x : ℚ => x) 3 FirFilter.Types.LowPass 4 1 4 RectangleWindow
        = .ok F ∧
      FirFilter.generate1 (fun x : ℚ => x) 3 FirFilter.Types.LowPass RectangleWindow
        (FirFilter.oddLength 4) (2 * 3 * 1 / ((4 : Nat) : ℚ)) = .ok taps ∧
      (∀ n : Nat, ∃ (outs : List ℚ) (F1 : FirFilter ℚ),
        F.run (List.replicate n 1) = some (outs, F1) ∧ outs.length = n ∧
        ∀ m : Nat, F.Length.toNat ≤ m → m ≤ n →
          outs[m - 1]? = some (taps.sum * F.GainCorrection)) :=
  (C6_dc_gain_of_low_pass abs_int (fun x : ℚ => x) 3 4 (by decide) 1 4 (by decide)
    RectangleWindow (Or.inl (by decide))).1

/-- Counterexample to C6 as stated: the half-band low-pass filter with 7 taps and the rectangle
window (cutoff 12000 Hz at 48000 Hz, so `omega = pi / 2`) is constructed, and fed seven ones its
7th output is not 1, with either candidate for `abs`.  Its pre-normalization taps are
`-1 / (3 pi), 0, 1 / pi, 1 / 2, 1 / pi, 0, -1 / (3 pi)`; the outermost ones are negative, so with
the floating-point `abs` the sum of the taps is smaller than the sum of their absolute values by
which it is divided, and with `int abs(int)` the taps are not scaled at all and their sum is
`1 / 2 + 4 / (3 pi) < 1`. -/
theorem C6_counterexample_half_band :
    (RectangleWindow : WindowFunction ℝ) ∈ windowCatalog Real.cos Real.pi ∧
    (∃ (F : FirFilter ℝ) (outs : List ℝ) (F1 : FirFilter ℝ) (y : ℝ),
      FirFilter.new1 abs_float Real.sin Real.pi FirFilter.Types.LowPass 7 12000 48000
        RectangleWindow = .ok F ∧
      F.Length = 7 ∧ F.run (List.replicate 7 1) = some (outs, F1) ∧
      outs[7 - 1]? = some y ∧ y ≠ 1) ∧
    (∃ (F : FirFilter ℝ) (outs : List ℝ) (F1 : FirFilter ℝ) (y : ℝ),
      FirFilter.new1 abs_int Real.sin Real.pi FirFilter.Types.LowPass 7 12000 48000
        RectangleWindow = .ok F ∧
      F.Length = 7 ∧ F.run (List.replicate 7 1) = some (outs, F1) ∧
      outs[7 - 1]? = some y ∧ y ≠ 1) := by
  have hpi := Real.pi_pos
  have hpi3 := Real.pi_gt_three
  obtain ⟨g, hgk, hg⟩ := generate1_ok Real.sin Real.pi FirFilter.Types.LowPass 7 (by decide)
    (Or.inl rfl) (2 * Real.pi * 12000 / ((48000 : Nat) : ℝ)) RectangleWindow
  have hgl : g = IdealLowPass Real.sin Real.pi := by
    rcases hgk with ⟨_, h⟩ | ⟨h, _⟩
    · exact h
    · exact absurd h (by decide)
  subst hgl
  rw [lowPass7_taps] at hg
  have hneg : -(1 / (3 * Real.pi)) < 0 := by
    rw [neg_lt_zero]
    positivity
  have hsum : ([-(1 / (3 * Real.pi)), 0, 1 / Real.pi, 1 / 2, 1 / Real.pi, 0,
      -(1 / (3 * Real.pi))] : List ℝ).sum = 1 / 2 + 4 / (3 * Real.pi) := by
    simp only [List.sum_cons, List.sum_nil]
    field_simp
    ring
  have hlt : (1 : ℝ) / 2 + 4 / (3 * Real.pi) < 1 := by
    have : (4 : ℝ) / (3 * Real.pi) < 1 / 2 := by
      rw [div_lt_div_iff₀ (by positivity) (by norm_num)]
      linarith
    linarith
  refine ⟨by simp [windowCatalog], ?_, ?_⟩
  · have hnew := @new1_of_generate1 ℝ abs_float _ Real.sin Real.pi FirFilter.Types.LowPass 7
      12000 48000 RectangleWindow _ hg (by decide)
    obtain ⟨outs, F1, hrun, _, hout⟩ := @dc_gain_of_constructed ℝ abs_float _ _
      (by decide : 1 ≤ ([-(1 / (3 * Real.pi)), 0, 1 / Real.pi, 1 / 2, 1 / Real.pi, 0,
        -(1 / (3 * Real.pi))] : List ℝ).length) 7
    refine ⟨_, outs, F1, _, hnew, rfl, hrun, hout 7 (by decide) (le_refl _), ?_⟩
    intro hone
    have hall := ((dc_gain_eq_one_iff _).mp hone).1
    have := hall (-(1 / (3 * Real.pi))) (List.mem_cons_self _ _)
    linarith
  · have hnew := @new1_of_generate1 ℝ abs_int _ Real.sin Real.pi FirFilter.Types.LowPass 7
      12000 48000 RectangleWindow _ hg (by decide)
    obtain ⟨outs, F1, hrun, _, hout⟩ := @dc_gain_of_constructed ℝ abs_int _ _
      (by decide : 1 ≤ ([-(1 / (3 * Real.pi)), 0, 1 / Real.pi, 1 / 2, 1 / Real.pi, 0,
        -(1 / (3 * Real.pi))] : List ℝ).length) 7
    have hinv : 1 / Real.pi < 1 := by
      rw [div_lt_one hpi]
      linarith
    have hinv0 : 0 < 1 / Real.pi := by positivity
    have hinv3 : 1 / (3 * Real.pi) < 1 := by
      rw [div_lt_one (by positivity)]
      linarith
    have hz : (([-(1 / (3 * Real.pi)), 0, 1 / Real.pi, 1 / 2, 1 / Real.pi, 0,
        -(1 / (3 * Real.pi))] : List ℝ).map abs_int).sum = 0 := by
      apply sum_map_abs_int
      intro t ht
      simp only [List.mem_cons, List.mem_singleton, List.not_mem_nil, or_false] at ht
      rcases ht with rfl | rfl | rfl | rfl | rfl | rfl | rfl
      · rw [abs_neg, abs_of_pos (by positivity)]; exact hinv3
      · simp
      · rw [abs_of_pos hinv0]; exact hinv
      · rw [abs_of_pos (by norm_num)]; norm_num
      · rw [abs_of_pos hinv0]; exact hinv
      · simp
      · rw [abs_neg, abs_of_pos (by positivity)]; exact hinv3
    obtain ⟨_, h2, _⟩ := constructed_of_gain_zero _ hz
    refine ⟨_, outs, F1, _, hnew, rfl, hrun, hout 7 (by decide) (le_refl _), ?_⟩
    rw [h2, mul_one, hsum]
    exact ne_of_lt hlt

/-- C7: for an odd length `N > 0` with `limit = N / 2`, each of the four generators returns `N`
pre-normalization taps, and for every `i` in `[-limit, limit]` the tap stored at index
`i + limit` is `window(i, N) * ideal(i)`, where the ideal response at `i = 0` is `omega / pi`
(low-pass), `1 - omega / pi` (high-pass), `(omega2 - omega1) / pi` (band-pass),
`1 - (omega2 - omega1) / pi` (band-stop), and for `i ≠ 0` it is `sin(omega i) / (pi i)`,
`-sin(omega i) / (pi i)`, `(sin(omega2 i) - sin(omega1 i)) / (pi i)` and
`(sin(omega1 i) - sin(omega2 i)) / (pi i)`.  The constructors call the generators with
`omega = 2 * pi * f / fs`. -/
theorem C7_taps_are_window_times_ideal [Field α] (sin : α → α) (pi : α) (f : WindowFunction α)
    (N : Int) (hN : 0 < N) (hodd : N % 2 = 1) (omega omega1 omega2 : α) :
    ∃ lp hp bp bs : List α,
      GenerateLowPassCoefficients sin pi f N omega = .ok lp ∧
      GenerateHighPassCoefficients sin pi f N omega = .ok hp ∧
      GenerateBandPassCoefficients sin pi f N omega1 omega2 = .ok bp ∧
      GenerateBandStopCoefficients sin pi f N omega1 omega2 = .ok bs ∧
      (lp.length : Int) = N ∧ (hp.length : Int) = N ∧ (bp.length : Int) = N ∧
      (bs.length : Int) = N ∧
      ∀ i : Int, -(N / 2) ≤ i → i ≤ N / 2 →
        lp[(i + N / 2).toNat]? = some (f i N *
          (if i = 0 then omega / pi else sin (omega * (i : α)) / (pi * (i : α)))) ∧
        hp[(i + N / 2).toNat]? = some (f i N *
          (if i = 0 then 1 - omega / pi else -sin (omega * (i : α)) / (pi * (i : α)))) ∧
        bp[(i + N / 2).toNat]? = some (f i N *
          (if i = 0 then (omega2 - omega1) / pi
            else (sin (omega2 * (i : α)) - sin (omega1 * (i : α))) / (pi * (i : α)))) ∧
        bs[(i + N / 2).toNat]? = some (f i N *
          (if i = 0 then 1 - (omega2 - omega1) / pi
            else (sin (omega1 * (i : α)) - sin (omega2 * (i : α))) / (pi * (i : α)))) := by
  obtain ⟨lp, hlp, hlpl, hlpi⟩ := GenerateCoefficientsWith_spec f
    (fun i => IdealLowPass sin pi omega i N) N hN hodd
  obtain ⟨hp, hhp, hhpl, hhpi⟩ := GenerateCoefficientsWith_spec f
    (fun i => IdealHighPass sin pi omega i N) N hN hodd
  obtain ⟨bp, hbp, hbpl, hbpi⟩ := GenerateCoefficientsWith_spec f
    (fun i => IdealBandPass sin pi omega1 omega2 i N) N hN hodd
  obtain ⟨bs, hbs, hbsl, hbsi⟩ := GenerateCoefficientsWith_spec f
    (fun i => IdealBandStop sin pi omega1 omega2 i N) N hN hodd
  refine ⟨lp, hp, bp, bs, hlp, hhp, hbp, hbs, hlpl, hhpl, hbpl, hbsl, ?_⟩
  intro i h1 h2
  refine ⟨?_, ?_, ?_, ?_⟩
  · rw [hlpi i h1 h2]
    rfl
  · rw [hhpi i h1 h2]
    simp only [IdealHighPass]
    congr 2
    split
    · rfl
    · rw [neg_one_mul]
  · rw [hbpi i h1 h2]
    simp only [IdealBandPass]
    congr 2
    split
    · rfl
    · rw [sub_div]
  · rw [hbsi i h1 h2]
    simp only [IdealBandStop]
    congr 2
    split
    · rfl
    · rw [sub_div]

/-- Witness for C7: length 3 over the rationals, with the identity in place of `sin`. -/
theorem C7_taps_are_window_times_ideal_witness :
    ∃ lp hp bp bs : List ℚ,
      GenerateLowPassCoefficients (fun x : ℚ => x) 3 RectangleWindow 3 1 = .ok lp ∧
      GenerateHighPassCoefficients (fun x : ℚ => x) 3 RectangleWindow 3 1 = .ok hp ∧
      GenerateBandPassCoefficients (fun x : ℚ => x) 3 RectangleWindow 3 1 2 = .ok bp ∧
      GenerateBandStopCoefficients (fun x : ℚ => x) 3 RectangleWindow 3 1 2 = .ok bs ∧
      (lp.length : Int) = 3 ∧ (hp.length : Int) = 3 ∧ (bp.length : Int) = 3 ∧
      (bs.length : Int) = 3 ∧
      ∀ i : Int, -(3 / 2) ≤ i → i ≤ 3 / 2 →
        lp[(i + 3 / 2).toNat]? = some (RectangleWindow i 3 *
          (if i = 0 then (1 : ℚ) / 3 else (fun x : ℚ => x) (1 * (i : ℚ)) / (3 * (i : ℚ)))) ∧
        hp[(i + 3 / 2).toNat]? = some (RectangleWindow i 3 *
          (if i = 0 then 1 - (1 : ℚ) / 3
            else -(fun x : ℚ => x) (1 * (i : ℚ)) / (3 * (i : ℚ)))) ∧
        bp[(i + 3 / 2).toNat]? = some (RectangleWindow i 3 *
          (if i = 0 then ((2 : ℚ) - 1) / 3
            else ((fun x : ℚ => x) (2 * (i : ℚ)) - (fun x : ℚ => x) (1 * (i : ℚ)))
              / (3 * (i : ℚ)))) ∧
        bs[(i + 3 / 2).toNat]? = some (RectangleWindow i 3 *
          (if i = 0 then 1 - ((2 : ℚ) - 1) / 3
            else ((fun x : ℚ => x) (1 * (i : ℚ)) - (fun x : ℚ => x) (2 * (i : ℚ)))
              / (3 * (i : ℚ)))) :=
  C7_taps_are_window_times_ideal (fun x : ℚ => x) 3 RectangleWindow 3 (by decide) (by decide)
    1 1 2

/-- C8: for every requested length `L` the length normalization of both constructors yields `L`
when `L` is odd and `L + 1` when `L` is even, an odd value between `L` and `L + 1`; every object
returned by either constructor has that value as `Length`, with a history and a coefficient
array of exactly `Length ≥ 1` elements; and for `L ≥ 0` and a matching kind the constructors do
return an object. -/
theorem C8_length_is_forced_odd [LinearOrderedField α] (abs : α → α) (sin : α → α) (pi : α)
    (L : Int)
    (fc f1 f2 : α) (fs : Nat) (f : WindowFunction α) :
    ((Odd L → FirFilter.oddLength L = L) ∧ (Even L → FirFilter.oddLength L = L + 1) ∧
      Odd (FirFilter.oddLength L) ∧ L ≤ FirFilter.oddLength L ∧
      FirFilter.oddLength L ≤ L + 1) ∧
    (∀ (type : FirFilter.Types) (F : FirFilter α),
      FirFilter.new1 abs sin pi type L fc fs f = .ok F ∨
        FirFilter.new2 abs sin pi type L f1 f2 fs f = .ok F →
      F.Length = FirFilter.oddLength L ∧ 1 ≤ F.Length ∧
        (F.m_History.length : Int) = F.Length ∧ (F.m_Coefs.length : Int) = F.Length) ∧
    (0 ≤ L →
      (∀ type : FirFilter.Types,
        type = FirFilter.Types.LowPass ∨ type = FirFilter.Types.HighPass →
        ∃ F : FirFilter α, FirFilter.new1 abs sin pi type L fc fs f = .ok F) ∧
      (∀ type : FirFilter.Types,
        type = FirFilter.Types.BandPass ∨ type = FirFilter.Types.BandStop →
        ∃ F : FirFilter α, FirFilter.new2 abs sin pi type L f1 f2 fs f = .ok F)) := by
  refine ⟨oddLength_spec L, ?_, ?_⟩
  · intro type F h
    have hL : 0 ≤ L := by
      rcases h with h | h
      · exact (new1_ok sin pi type L fc fs f F h).1
      · exact (new2_ok sin pi type L f1 f2 fs f F h).1
    obtain ⟨taps, hlen, hF⟩ := new_ok_constructed sin pi type L fc f1 f2 fs f F h
    subst hF
    refine ⟨?_, ?_, ?_, ?_⟩
    · show (taps.length : Int) = _
      rw [hlen, oddLength_of_nonneg L hL]
      push_cast
      ring
    · show (1 : Int) ≤ (taps.length : Int)
      omega
    · show ((List.replicate taps.length (0 : α)).length : Int) = (taps.length : Int)
      rw [List.length_replicate]
    · show ((taps.map _).length : Int) = (taps.length : Int)
      rw [List.length_map]
  · intro hL
    constructor
    · intro type ht
      obtain ⟨g, _, hg⟩ := generate1_ok sin pi type L hL ht (2 * pi * fc / (fs : α)) f
      exact ⟨_, new1_of_generate1 sin pi type L fc fs f _ hg (windowedTaps_length_int _ _ L hL)⟩
    · intro type ht
      obtain ⟨g, _, hg⟩ := generate2_ok sin pi type L hL ht (2 * pi * f1 / (fs : α))
        (2 * pi * f2 / (fs : α)) f
      exact ⟨_, new2_of_generate2 sin pi type L f1 f2 fs f _ hg
        (windowedTaps_length_int _ _ L hL)⟩

/-- C9: the single-cutoff constructor throws `FirFilterException` if and only if the kind is
neither `LowPass` nor `HighPass`, and the two-cutoff constructor throws it if and only if the
kind is neither `BandPass` nor `BandStop` (the kind may be any integer, inside or outside the
enumeration); with a mismatched kind no object is returned. -/
theorem C9_kind_mismatch_throws [LinearOrderedField α] (abs : α → α) (sin : α → α) (pi : α)
    (type : FirFilter.Types) (L : Int) (fc f1 f2 : α) (fs : Nat) (f : WindowFunction α) :
    ((∃ what : String, FirFilter.new1 abs sin pi type L fc fs f
        = .error (.FirFilterException what)) ↔
      ¬ (type = FirFilter.Types.LowPass ∨ type = FirFilter.Types.HighPass)) ∧
    ((∃ what : String, FirFilter.new2 abs sin pi type L f1 f2 fs f
        = .error (.FirFilterException what)) ↔
      ¬ (type = FirFilter.Types.BandPass ∨ type = FirFilter.Types.BandStop)) ∧
    (¬ (type = FirFilter.Types.LowPass ∨ type = FirFilter.Types.HighPass) →
      ∀ F : FirFilter α, FirFilter.new1 abs sin pi type L fc fs f ≠ .ok F) ∧
    (¬ (type = FirFilter.Types.BandPass ∨ type = FirFilter.Types.BandStop) →
      ∀ F : FirFilter α, FirFilter.new2 abs sin pi type L f1 f2 fs f ≠ .ok F) := by
  have key1 : (∃ what : String, FirFilter.new1 abs sin pi type L fc fs f
        = .error (.FirFilterException what)) ↔
      ¬ (type = FirFilter.Types.LowPass ∨ type = FirFilter.Types.HighPass) := by
    rw [new1_eq]
    by_cases h1 : type = FirFilter.Types.LowPass
    · rw [if_pos h1]
      constructor
      · rintro ⟨w, hw⟩
        split at hw <;> cases hw
      · intro h
        exact absurd (Or.inl h1) h
    · rw [if_neg h1]
      by_cases h2 : type = FirFilter.Types.HighPass
      · rw [if_pos h2]
        constructor
        · rintro ⟨w, hw⟩
          split at hw <;> cases hw
        · intro h
          exact absurd (Or.inr h2) h
      · rw [if_neg h2]
        constructor
        · rintro _ (h | h)
          · exact h1 h
          · exact h2 h
        · intro _
          split
          · exact ⟨_, rfl⟩
          · exact ⟨_, rfl⟩
  have key2 : (∃ what : String, FirFilter.new2 abs sin pi type L f1 f2 fs f
        = .error (.FirFilterException what)) ↔
      ¬ (type = FirFilter.Types.BandPass ∨ type = FirFilter.Types.BandStop) := by
    rw [new2_eq]
    by_cases h1 : type = FirFilter.Types.BandPass
    · rw [if_pos h1]
      constructor
      · rintro ⟨w, hw⟩
        split at hw <;> cases hw
      · intro h
        exact absurd (Or.inl h1) h
    · rw [if_neg h1]
      by_cases h2 : type = FirFilter.Types.BandStop
      · rw [if_pos h2]
        constructor
        · rintro ⟨w, hw⟩
          split at hw <;> cases hw
        · intro h
          exact absurd (Or.inr h2) h
      · rw [if_neg h2]
        constructor
        · rintro _ (h | h)
          · exact h1 h
          · exact h2 h
        · intro _
          split
          · exact ⟨_, rfl⟩
          · exact ⟨_, rfl⟩
  refine ⟨key1, key2, ?_, ?_⟩
  · intro h F hF
    obtain ⟨w, hw⟩ := key1.mpr h
    rw [hw] at hF
    cases hF
  · intro h F hF
    obtain ⟨w, hw⟩ := key2.mpr h
    rw [hw] at hF
    cases hF

/-- C10: on a filter with `N ≥ 1` taps whose cursor is in `[0, N)`, a call of `filter` returns
(every access is inside the arrays); afterwards the cursor is `(old + 1) mod N`, again in
`[0, N)`; exactly the slot at the old cursor has been overwritten, with the new sample; the loop
body has run exactly `N` times; the coefficients and the length are unchanged. -/
theorem C10_filter_advances_cursor_in_bounds [CommSemiring α] (F : FirFilter α)
    (hF : F.WellFormed) (sample : α) :
    ∃ r : FilterResult α,
      Filter sample F.m_InputPos F.m_History F.Length.toNat F.m_Coefs F.Length.toNat = some r ∧
        r.inputpos = (F.m_InputPos + 1) % F.Length.toNat ∧
        r.inputpos < F.Length.toNat ∧
        r.history.length = F.m_History.length ∧
        r.history[F.m_InputPos]? = some sample ∧
        (∀ j : Nat, j ≠ F.m_InputPos → r.history[j]? = F.m_History[j]?) ∧
        r.macs = F.Length.toNat ∧
        ∃ F1 : FirFilter α, F.filter sample = some (r.output, F1) ∧ F1.WellFormed ∧
          F1.m_InputPos = r.inputpos ∧ F1.m_History = r.history ∧ F1.m_Coefs = F.m_Coefs ∧
          F1.Length = F.Length := by
  have hF1 := hF
  obtain ⟨h1, h2, h3, h4⟩ := hF
  refine ⟨_, Filter_eq sample F.m_InputPos F.m_History F.m_Coefs F.Length.toNat h2 h3 h4,
    rfl, Nat.mod_lt _ (by omega), ?_, ?_, ?_, rfl, F.next sample, ?_,
    FirFilter.next_wellFormed F hF1 sample, rfl, rfl, rfl, rfl⟩
  · show (F.m_History.set F.m_InputPos sample).length = _
    rw [List.length_set]
  · show (F.m_History.set F.m_InputPos sample)[F.m_InputPos]? = _
    rw [List.getElem?_set, if_pos rfl, if_pos (by omega)]
  · intro j hj
    show (F.m_History.set F.m_InputPos sample)[j]? = _
    rw [List.getElem?_set, if_neg (fun h => hj h.symm)]
  · rw [FirFilter.filter_eq F hF1 sample]

/-- Witness for C10: three taps with the cursor on the last slot, so that it wraps to 0. -/
theorem C10_filter_advances_cursor_in_bounds_witness :
    ∃ r : FilterResult Int,
      Filter 7 2 [4, 5, 6] 3 [1, 2, 3] 3 = some r ∧
        r.inputpos = (2 + 1) % 3 ∧ r.inputpos < 3 ∧
        r.history.length = ([4, 5, 6] : List Int).length ∧
        r.history[2]? = some 7 ∧
        (∀ j : Nat, j ≠ 2 → r.history[j]? = ([4, 5, 6] : List Int)[j]?) ∧
        r.macs = 3 ∧
        ∃ F1 : FirFilter Int,
          FirFilter.filter ⟨2, [4, 5, 6], [1, 2, 3], 3, 6, 1⟩ 7 = some (r.output, F1) ∧
          F1.WellFormed ∧ F1.m_InputPos = r.inputpos ∧ F1.m_History = r.history ∧
          F1.m_Coefs = [1, 2, 3] ∧ F1.Length = 3 :=
  C10_filter_advances_cursor_in_bounds (⟨2, [4, 5, 6], [1, 2, 3], 3, 6, 1⟩ : FirFilter Int)
    (by decide) 7

end Claims

end KK5JY.DSP

/-! ## Lemmas on the sound card bridge -/

section BridgeLoops

open KK5JY.DSP

variable {α μ : Type} {abs : α → α}

/-- A counted loop with a total body that maps the `k`-th state of a sequence to the next one
ends in the state the sequence has after the last iteration. -/
theorem forEach_spec {σ : Type} (body : Nat → σ → σ) (st : Nat → σ) :
    ∀ (n i : Nat), (∀ k, i ≤ k → k < i + n → body k (st k) = st (k + 1)) →
      SoundCardDV.forEach body n i (st i) = st (i + n) := by
  intro n
  induction n with
  | zero => intro i _; rfl
  | succ n ih =>
    intro i h
    rw [SoundCardDV.forEach, h i (le_refl _) (by omega),
      ih (i + 1) (fun k hk1 hk2 => h k (by omega) (by omega))]
    congr 1
    omega

/-- The channel loop appends `co` copies of the value. -/
theorem fanOut_eq (co : Nat) (v : α) (out : List α) :
    SoundCardDV.fanOut co v out = out ++ List.replicate co v := by
  unfold SoundCardDV.fanOut
  have := forEach_spec (fun _ (o : List α) => o ++ [v]) (fun k => out ++ List.replicate k v)
    co 0 (by
      intro k _ _
      show out ++ List.replicate k v ++ [v] = out ++ List.replicate (k + 1) v
      rw [List.replicate_succ', List.append_assoc])
  simpa using this

/-- The muting loops write `count * co` zeros. -/
theorem muteLoop_eq [Zero α] (co count : Nat) :
    (SoundCardDV.muteLoop co count : List α) = List.replicate (count * co) 0 := by
  unfold SoundCardDV.muteLoop
  have := forEach_spec (fun _ (o : List α) => SoundCardDV.fanOut co 0 o)
    (fun k => List.replicate (k * co) (0 : α)) count 0 (by
      intro k _ _
      show SoundCardDV.fanOut co 0 (List.replicate (k * co) (0 : α))
        = List.replicate ((k + 1) * co) 0
      rw [fanOut_eq, ← List.replicate_add]
      congr 1
      ring)
  simpa using this

/-- Entry `i * co + j` of a list of blocks of `co` equal values is the value of block `i`. -/
theorem getElem?_flatMap_replicate {β : Type} (g : β → α) (co : Nat) :
    ∀ (l : List β) (i j : Nat) (b : β), l[i]? = some b → j < co →
      (l.flatMap (fun x => List.replicate co (g x)))[i * co + j]? = some (g b) := by
  intro l
  induction l with
  | nil => intro i j b h; simp at h
  | cons a l ih =>
    intro i j b h hj
    rw [List.flatMap_cons]
    cases i with
    | zero =>
      simp only [List.getElem?_cons_zero, Option.some.injEq] at h
      subst h
      rw [Nat.zero_mul, Nat.zero_add, List.getElem?_append_left (by simpa using hj),
        List.getElem?_replicate, if_pos hj]
    | succ i =>
      rw [List.getElem?_cons_succ] at h
      have e : (i + 1) * co + j - (List.replicate co (g a)).length = i * co + j := by
        rw [List.length_replicate, Nat.succ_mul]
        omega
      rw [List.getElem?_append_right (by rw [List.length_replicate, Nat.succ_mul]; omega), e]
      exact ih i j b h hj

theorem length_flatMap_replicate {β : Type} (g : β → α) (co : Nat) (l : List β) :
    (l.flatMap (fun x => List.replicate co (g x))).length = l.length * co := by
  induction l with
  | nil => simp
  | cons a l ih =>
    rw [List.flatMap_cons, List.length_append, ih, List.length_replicate, List.length_cons,
      Nat.succ_mul, Nat.add_comm]

/-- The drain loop on a queue that holds at least `count` samples: it writes, for each of the
first `count` queued samples in order, `co` copies of the sample divided by `SHRT_MAX`, and pops
those samples. -/
theorem drainLoop_eq [Field α] (co count : Nat) (q : List Int) (h : count ≤ q.length) :
    forLoop (SoundCardDV.drainBody co) count 0 (([] : List α), q) =
      some ((q.take count).flatMap
          (fun x => List.replicate co (((x : Int) : α) / ((SHRT_MAX : Int) : α))),
        q.drop count) := by
  have := forLoop_spec (SoundCardDV.drainBody (α := α) co)
    (fun k => ((q.take k).flatMap
        (fun x => List.replicate co (((x : Int) : α) / ((SHRT_MAX : Int) : α))), q.drop k))
    count 0 (by
      intro k _ hk
      have hk1 : k < q.length := by omega
      unfold SoundCardDV.drainBody
      simp only []
      rw [drop_eq_cons_of_lt q 0 k hk1]
      simp only []
      rw [fanOut_eq, take_succ_of_lt q 0 k hk1, List.flatMap_append]
      simp)
  simpa using this

/-- The output phase in closed form. -/
theorem drain_eq [Field α] (s : SoundCardDV α μ) (count : Nat) :
    s.drain count =
      if count ≤ s.out_buffer.length then
        some ({ s with out_buffer := s.out_buffer.drop count },
          (s.out_buffer.take count).flatMap
            (fun x => List.replicate s.channelsOut (((x : Int) : α) / ((SHRT_MAX : Int) : α))))
      else some (s, List.replicate (count * s.channelsOut) 0) := by
  unfold SoundCardDV.drain
  by_cases h : count ≤ s.out_buffer.length
  · rw [if_pos h, if_pos h, drainLoop_eq _ _ _ h]
  · rw [if_neg h, if_neg h, muteLoop_eq]

/-- One iteration of the input loop that returns: the sample read, the filter call, and the
object it leaves. -/
theorem inputBody_some [LinearOrderedField α] (toInt16 : α → Int) (inp : List α) (ci i : Nat)
    (s s1 : SoundCardDV α μ) (h : SoundCardDV.inputBody abs toInt16 inp ci i s = some s1) :
    ∃ (x y : α) (F : FirFilter α), inp[i * ci]? = some x ∧
      s.m_DecFilter.filter x = some (y, F) ∧
      s1 = { s with
        clipping := if abs y ≥ CLIP_LIMIT then true
          else (if abs x ≥ CLIP_LIMIT then true else s.clipping)
        m_DecFilter := F
        dec_ctr := if (s.dec_ctr + 1) % 256 = CARD_FS / MODEM_FS then 0
          else (s.dec_ctr + 1) % 256
        in_buffer := if (s.dec_ctr + 1) % 256 = CARD_FS / MODEM_FS
          then s.in_buffer ++ [toInt16 (((SHRT_MAX : Int) : α) * y)] else s.in_buffer } := by
  unfold SoundCardDV.inputBody at h
  cases hx : inp[i * ci]? with
  | none => rw [hx] at h; cases h
  | some x =>
    rw [hx] at h
    simp only [] at h
    cases hf : s.m_DecFilter.filter x with
    | none => rw [hf] at h; cases h
    | some r =>
      rw [hf] at h
      simp only [] at h
      refine ⟨x, r.1, r.2, rfl, hf, ?_⟩
      by_cases hd : (s.dec_ctr + 1) % 256 = CARD_FS / MODEM_FS
      · rw [if_pos hd] at h
        simp only [Option.some.injEq] at h
        rw [if_pos hd, if_pos hd, ← h]
      · rw [if_neg hd] at h
        simp only [Option.some.injEq] at h
        rw [if_neg hd, if_neg hd, ← h]

/-- One iteration of the input loop, given the sample read and the result of the filter call. -/
theorem inputBody_eq [LinearOrderedField α] (toInt16 : α → Int) (inp : List α) (ci i : Nat)
    (s : SoundCardDV α μ) (x y : α) (F : FirFilter α) (hx : inp[i * ci]? = some x)
    (hf : s.m_DecFilter.filter x = some (y, F)) :
    SoundCardDV.inputBody abs toInt16 inp ci i s = some { s with
        clipping := if abs y ≥ CLIP_LIMIT then true
          else (if abs x ≥ CLIP_LIMIT then true else s.clipping)
        m_DecFilter := F
        dec_ctr := if (s.dec_ctr + 1) % 256 = CARD_FS / MODEM_FS then 0
          else (s.dec_ctr + 1) % 256
        in_buffer := if (s.dec_ctr + 1) % 256 = CARD_FS / MODEM_FS
          then s.in_buffer ++ [toInt16 (((SHRT_MAX : Int) : α) * y)] else s.in_buffer } := by
  unfold SoundCardDV.inputBody
  rw [hx]
  simp only []
  rw [hf]
  simp only []
  by_cases hd : (s.dec_ctr + 1) % 256 = CARD_FS / MODEM_FS
  · rw [if_pos hd, if_pos hd, if_pos hd]
  · rw [if_neg hd, if_neg hd, if_neg hd]

/-- The input loop writes only `clipping`, `m_DecFilter`, `dec_ctr` and `in_buffer`. -/
theorem inputLoop_frame [LinearOrderedField α] (toInt16 : α → Int) (inp : List α)
    (ci nin : Nat) :
    ∀ (n i : Nat) (s s1 : SoundCardDV α μ),
      SoundCardDV.inputLoop abs toInt16 inp ci nin n i s = some s1 →
      s1 = { s with clipping := s1.clipping, m_DecFilter := s1.m_DecFilter,
                    dec_ctr := s1.dec_ctr, in_buffer := s1.in_buffer } := by
  intro n
  induction n with
  | zero =>
    intro i s s1 h
    simp only [SoundCardDV.inputLoop, Option.some.injEq] at h
    subst h
    rfl
  | succ n ih =>
    intro i s s1 h
    rw [SoundCardDV.inputLoop] at h
    by_cases hg : s.in_buffer.length ≤ 10 * nin
    · rw [if_pos hg] at h
      cases hb : SoundCardDV.inputBody abs toInt16 inp ci i s with
      | none => rw [hb] at h; cases h
      | some s0 =>
        rw [hb] at h
        simp only [] at h
        obtain ⟨x, y, F, _, _, hs0⟩ := inputBody_some toInt16 inp ci i s s0 hb
        have := ih _ _ _ h
        rw [this, hs0]
    · rw [if_neg hg] at h
      simp only [Option.some.injEq] at h
      subst h
      rfl

/-- The modem phase writes only `modem_in`, `in_buffer`, `m_freedv`, `modem_out`, `out_buffer`
and `m_IntFilter`. -/
theorem modemPhase_frame [Ring α] (M : Modem μ) (toInt16 : α → Int) (nin : Nat)
    (s s2 : SoundCardDV α μ) (h : SoundCardDV.modemPhase M toInt16 nin s = some s2) :
    s2 = { s with modem_in := s2.modem_in, in_buffer := s2.in_buffer, m_freedv := s2.m_freedv,
                  modem_out := s2.modem_out, out_buffer := s2.out_buffer,
                  m_IntFilter := s2.m_IntFilter } := by
  unfold SoundCardDV.modemPhase at h
  by_cases hg : s.in_buffer.length ≥ nin
  · rw [if_pos hg] at h
    cases hc : forLoop SoundCardDV.copyBody nin 0 (s.modem_in, s.in_buffer) with
    | none => rw [hc] at h; cases h
    | some copied =>
      rw [hc] at h
      simp only [] at h
      split at h
      · cases h
      · simp only [Option.some.injEq] at h
        subst h
        rfl
  · rw [if_neg hg] at h
    simp only [Option.some.injEq] at h
    subst h
    rfl

/-- An `RX`/`TX` callback is the input loop, then the modem phase, then the output phase, with
`nin` the modem's query in `RX` and the speech block size in `TX`. -/
theorem event_rxtx [LinearOrderedField α] (M : Modem μ) (toInt16 : α → Int)
    (s : SoundCardDV α μ) (inp : List α) (count : Nat)
    (hm : s.mMode = ModesDV.RX ∨ s.mMode = ModesDV.TX) (r : SoundCardDV α μ × List α)
    (h : SoundCardDV.event abs M toInt16 s inp count = some r) :
    ∃ s1 s2 : SoundCardDV α μ,
      SoundCardDV.inputLoop abs toInt16 inp s.channelsIn
          (if s.mMode = ModesDV.RX then M.freedv_nin s.m_freedv else s.n_speech_samples)
          count 0 { s with m_Frames := (s.m_Frames + 1) % 2 ^ 64 } = some s1 ∧
        SoundCardDV.modemPhase M toInt16
          (if s.mMode = ModesDV.RX then M.freedv_nin s.m_freedv else s.n_speech_samples)
          s1 = some s2 ∧
        s2.drain count = some r := by
  have h0 : s.mMode ≠ ModesDV.Mute := by
    rcases hm with h1 | h1 <;> rw [h1] <;> decide
  have h1 : s.mMode ≠ ModesDV.Pass := by
    rcases hm with h1 | h1 <;> rw [h1] <;> decide
  unfold SoundCardDV.event at h
  simp only [if_neg h0, if_neg h1, if_pos hm] at h
  split at h
  · cases h
  · next s1 hs1 =>
    split at h
    · cases h
    · next s2 hs2 => exact ⟨s1, s2, hs1, hs2, h⟩

/-- The callback never writes `mMode`. -/
theorem event_mMode [LinearOrderedField α] (M : Modem μ) (toInt16 : α → Int)
    (s : SoundCardDV α μ) (inp : List α) (count : Nat) (r : SoundCardDV α μ × List α)
    (h : SoundCardDV.event abs M toInt16 s inp count = some r) : r.1.mMode = s.mMode := by
  by_cases hm : s.mMode = ModesDV.RX ∨ s.mMode = ModesDV.TX
  · obtain ⟨s1, s2, h1, h2, h3⟩ := event_rxtx M toInt16 s inp count hm r h
    have f1 := inputLoop_frame toInt16 inp _ _ _ _ _ _ h1
    have f2 := modemPhase_frame M toInt16 _ _ _ h2
    rw [drain_eq] at h3
    have e3 : r.1.mMode = s2.mMode := by
      split at h3 <;> (simp only [Option.some.injEq] at h3; subst h3; rfl)
    rw [e3, f2]
    show s1.mMode = _
    rw [f1]
  · unfold SoundCardDV.event at h
    simp only [if_neg hm] at h
    split at h
    · simp only [Option.some.injEq] at h
      subst h
      rfl
    · split at h
      · split at h
        · simp only [Option.some.injEq] at h
          subst h
          rfl
        · cases h
      · simp only [Option.some.injEq] at h
        subst h
        rfl

/-- What `mode(newMode)` does to the mode: a valid request sets it, any other leaves it. -/
theorem setMode_mMode (s : SoundCardDV α μ) (newMode : ModesDV) :
    (newMode ≤ 3 → (s.setMode newMode).1 = true ∧ (s.setMode newMode).2.mMode = newMode) ∧
    (¬ newMode ≤ 3 → (s.setMode newMode).1 = false ∧ (s.setMode newMode).2 = s) := by
  have hg0 : ∀ n : Nat, (n < 0 ∨ n > 3) ↔ ¬ n ≤ 3 := by
    intro n
    omega
  have hg : (newMode < ModesDV.MinValue ∨ newMode > ModesDV.MaxValue) ↔ ¬ newMode ≤ 3 :=
    hg0 newMode
  unfold SoundCardDV.setMode
  constructor
  · intro h
    rw [if_neg (fun h2 => hg.mp h2 h)]
    exact ⟨rfl, rfl⟩
  · intro h
    rw [if_pos (hg.mpr h)]
    exact ⟨rfl, rfl⟩

/-- The mode changes in one operation only through a successful `mode(newMode)`. -/
theorem step_mMode [LinearOrderedField α] (M : Modem μ) (toInt16 : α → Int)
    (s s1 : SoundCardDV α μ) (op : SoundCardDV.Op α)
    (h : SoundCardDV.step abs M toInt16 s op = some s1) (hne : s1.mMode ≠ s.mMode) :
    ∃ newMode : ModesDV, op = .mode newMode ∧ (s.setMode newMode).1 = true ∧
      s1.mMode = newMode := by
  cases op with
  | event inp count =>
    simp only [SoundCardDV.step] at h
    cases he : SoundCardDV.event abs M toInt16 s inp count with
    | none => rw [he] at h; cases h
    | some r =>
      rw [he] at h
      simp only [Option.some.injEq] at h
      subst h
      exact absurd (event_mMode M toInt16 s inp count r he) hne
  | mode newMode =>
    simp only [SoundCardDV.step, Option.some.injEq] at h
    subst h
    by_cases hv : newMode ≤ 3
    · obtain ⟨h1, h2⟩ := (setMode_mMode s newMode).1 hv
      exact ⟨newMode, rfl, h1, h2⟩
    · obtain ⟨_, h2⟩ := (setMode_mMode s newMode).2 hv
      rw [h2] at hne
      exact absurd rfl hne
  | clipped =>
    simp only [SoundCardDV.step, Option.some.injEq] at h
    subst h
    exact absurd rfl hne

/-- A valid mode stays valid through any sequence of operations. -/
theorem steps_mMode [LinearOrderedField α] (M : Modem μ) (toInt16 : α → Int)
    (ops : List (SoundCardDV.Op α)) :
    ∀ s s1 : SoundCardDV α μ, s.mMode ≤ 3 → SoundCardDV.steps abs M toInt16 s ops = some s1 →
      s1.mMode ≤ 3 := by
  induction ops with
  | nil =>
    intro s s1 hv h
    simp only [SoundCardDV.steps, Option.some.injEq] at h
    subst h
    exact hv
  | cons op ops ih =>
    intro s s1 hv h
    rw [SoundCardDV.steps] at h
    cases hs : SoundCardDV.step abs M toInt16 s op with
    | none => rw [hs] at h; cases h
    | some s0 =>
      rw [hs] at h
      simp only [] at h
      refine ih s0 s1 ?_ h
      by_cases hne : s0.mMode = s.mMode
      · rw [hne]
        exact hv
      · obtain ⟨newMode, _, h1, h2⟩ := step_mMode M toInt16 s s0 op hs hne
        rw [h2]
        by_contra hc
        rw [((setMode_mMode s newMode).2 hc).1] at h1
        cases h1

/-- The constructor in closed form: with a modem handle it returns an object in `Mute` mode with
empty queues, a zero decimation counter and two identical freshly constructed filters. -/
theorem new_eq [LinearOrderedField α] (sin cos : α → α) (pi : α) (ci co : Nat) (freedv : μ)
    (n1 n2 n3 : Nat) :
    ∃ F : FirFilter α,
      FirFilter.new1 abs sin pi FirFilter.Types.LowPass FILTER_LEN ((FILTER_COF : Nat) : α) CARD_FS
        (HammingWindow cos pi) = .ok F ∧
      SoundCardDV.new abs sin cos pi ci co (some freedv) n1 n2 n3 = .ok
        { channelsIn := ci, channelsOut := co, mMode := ModesDV.Mute,
          modem_in := List.replicate (max n1 (max n2 n3)) 0,
          modem_out := List.replicate (max n1 (max n2 n3)) 0,
          n_speech_samples := n1, n_nom_modem_samples := n2, n_max_modem_samples := n3,
          m_freedv := freedv, m_Frames := 0, clipping := false, in_buffer := [],
          out_buffer := [], dec_ctr := 0, m_DecFilter := F, m_IntFilter := F } := by
  obtain ⟨g, _, hg⟩ := generate1_ok sin pi FirFilter.Types.LowPass FILTER_LEN (by decide)
    (Or.inl rfl) (2 * pi * ((FILTER_COF : Nat) : α) / ((CARD_FS : Nat) : α)) (HammingWindow cos pi)
  have hnew := @new1_of_generate1 α abs _ sin pi FirFilter.Types.LowPass FILTER_LEN
    ((FILTER_COF : Nat) : α) CARD_FS (HammingWindow cos pi) _ hg
    (windowedTaps_length_int _ _ FILTER_LEN (by decide))
  refine ⟨_, hnew, ?_⟩
  unfold SoundCardDV.new
  rw [hnew]

/-- The deployed filters have 15 pre-normalization taps. -/
theorem deployedTaps_length [Field α] (sin cos : α → α) (pi : α) :
    (deployedTaps sin cos pi).length = 15 := by
  unfold deployedTaps
  rw [windowedTaps_length]
  rfl

/-- The filter constructor, called as in the member initializers of `SoundCardDV`, returns the
closed form of the deployed taps. -/
theorem new1_deployed [LinearOrderedField α] (sin cos : α → α) (pi : α) :
    FirFilter.new1 abs sin pi FirFilter.Types.LowPass FILTER_LEN ((FILTER_COF : Nat) : α) CARD_FS
      (HammingWindow cos pi) = .ok (constructed abs (deployedTaps sin cos pi)) := by
  obtain ⟨g, hgk, hg⟩ := generate1_ok sin pi FirFilter.Types.LowPass FILTER_LEN (by decide)
    (Or.inl rfl) (2 * pi * ((FILTER_COF : Nat) : α) / ((CARD_FS : Nat) : α)) (HammingWindow cos pi)
  have hgl : g = IdealLowPass sin pi := by
    rcases hgk with ⟨_, h⟩ | ⟨h, _⟩
    · exact h
    · exact absurd h (by decide)
  subst hgl
  exact @new1_of_generate1 α abs _ sin pi FirFilter.Types.LowPass FILTER_LEN
    ((FILTER_COF : Nat) : α) CARD_FS (HammingWindow cos pi) _ hg
    (windowedTaps_length_int _ _ FILTER_LEN (by decide))

/-- The constructor of `SoundCardDV` in closed form, with the closed form of both filters. -/
theorem new_deployed [LinearOrderedField α] (sin cos : α → α) (pi : α) (ci co : Nat)
    (freedv : μ) (n1 n2 n3 : Nat) :
    SoundCardDV.new abs sin cos pi ci co (some freedv) n1 n2 n3 = .ok
      { channelsIn := ci, channelsOut := co, mMode := ModesDV.Mute,
        modem_in := List.replicate (max n1 (max n2 n3)) 0,
        modem_out := List.replicate (max n1 (max n2 n3)) 0,
        n_speech_samples := n1, n_nom_modem_samples := n2, n_max_modem_samples := n3,
        m_freedv := freedv, m_Frames := 0, clipping := false, in_buffer := [],
        out_buffer := [], dec_ctr := 0,
        m_DecFilter := constructed abs (deployedTaps sin cos pi),
        m_IntFilter := constructed abs (deployedTaps sin cos pi) } := by
  unfold SoundCardDV.new
  rw [new1_deployed]

/-- Every constructed object is in `Mute` mode. -/
theorem new_mMode [LinearOrderedField α] (sin cos : α → α) (pi : α) (ci co : Nat)
    (opened : Option μ) (n1 n2 n3 : Nat) (s : SoundCardDV α μ)
    (h : SoundCardDV.new abs sin cos pi ci co opened n1 n2 n3 = .ok s) :
    s.mMode = ModesDV.Mute := by
  cases opened with
  | none =>
    unfold SoundCardDV.new at h
    split at h
    · cases h
    · split at h
      · cases h
      · cases h
  | some freedv =>
    obtain ⟨F, _, hs⟩ := new_eq sin cos pi ci co freedv n1 n2 n3
    rw [hs] at h
    have h2 := Except.ok.inj h
    rw [← h2]

end BridgeLoops

section RunLemmas

open KK5JY.DSP

variable {α μ : Type} {abs : α → α}

theorem run_cons_of [Zero α] [Add α] [Mul α] (F F1 F2 : FirFilter α) (x y : α)
    (xs ys : List α) (h1 : F.filter x = some (y, F1)) (h2 : F1.run xs = some (ys, F2)) :
    F.run (x :: xs) = some (y :: ys, F2) := by
  rw [FirFilter.run, h1]
  simp only []
  rw [h2]

theorem run_cons_inv [Zero α] [Add α] [Mul α] (F F2 : FirFilter α) (x : α)
    (xs outs : List α) (h : F.run (x :: xs) = some (outs, F2)) :
    ∃ (y : α) (F1 : FirFilter α) (ys : List α), F.filter x = some (y, F1) ∧
      F1.run xs = some (ys, F2) ∧ outs = y :: ys := by
  rw [FirFilter.run] at h
  cases hf : F.filter x with
  | none => rw [hf] at h; cases h
  | some r =>
    rw [hf] at h
    simp only [] at h
    cases hr : r.2.run xs with
    | none => rw [hr] at h; cases h
    | some r2 =>
      rw [hr] at h
      simp only [Option.some.injEq, Prod.mk.injEq] at h
      exact ⟨r.1, r.2, r2.1, rfl, by rw [hr, ← h.2], h.1.symm⟩

/-- Feeding two lists one after the other is feeding their concatenation. -/
theorem run_append [Zero α] [Add α] [Mul α] (xs : List α) :
    ∀ (F F1 F2 : FirFilter α) (ys o1 o2 : List α), F.run xs = some (o1, F1) →
      F1.run ys = some (o2, F2) → F.run (xs ++ ys) = some (o1 ++ o2, F2) := by
  induction xs with
  | nil =>
    intro F F1 F2 ys o1 o2 h1 h2
    simp only [FirFilter.run, Option.some.injEq, Prod.mk.injEq] at h1
    rw [← h1.1, h1.2]
    exact h2
  | cons x xs ih =>
    intro F F1 F2 ys o1 o2 h1 h2
    obtain ⟨y, F0, ys0, hf, hr, ho⟩ := run_cons_inv F F1 x xs o1 h1
    rw [ho]
    exact run_cons_of F F0 F2 x y (xs ++ ys) (ys0 ++ o2) hf (ih F0 F1 F2 ys ys0 o2 hr h2)

/-- A well-formed filter returns on every input, with one output per sample, and stays
well-formed. -/
theorem run_wellFormed [CommSemiring α] (xs : List α) :
    ∀ F : FirFilter α, F.WellFormed →
      ∃ (ys : List α) (F1 : FirFilter α), F.run xs = some (ys, F1) ∧ F1.WellFormed ∧
        ys.length = xs.length := by
  induction xs with
  | nil => intro F hF; exact ⟨[], F, rfl, hF, rfl⟩
  | cons x xs ih =>
    intro F hF
    obtain ⟨ys, F1, hr, hw, hl⟩ := ih (F.next x) (FirFilter.next_wellFormed F hF x)
    exact ⟨_, F1, run_cons_of F _ F1 x _ xs ys (FirFilter.filter_eq F hF x) hr, hw, by simp [hl]⟩

theorem ratio_eq : CARD_FS / MODEM_FS = 6 := by decide

/-- The decimated outputs of a list of outputs, one output at a time. -/
theorem decimated_cons [Ring α] (toInt16 : α → Int) (m : Nat) (y : α) (ys : List α) :
    decimated toInt16 m (y :: ys) =
      (if (m + 1) % 6 = 0 then [toInt16 (((SHRT_MAX : Int) : α) * y)] else []) ++
        decimated toInt16 (m + 1) ys := by
  unfold decimated
  rw [List.length_cons, List.range_succ_eq_map, List.filter_cons]
  have hm : List.map (fun k => toInt16 (((SHRT_MAX : Int) : α) * (y :: ys).getD k 0))
      (List.filter (fun k => decide ((m + k + 1) % 6 = 0)) (List.map Nat.succ (List.range ys.length)))
      = List.map (fun k => toInt16 (((SHRT_MAX : Int) : α) * ys.getD k 0))
        (List.filter (fun k => decide ((m + 1 + k + 1) % 6 = 0)) (List.range ys.length)) := by
    rw [List.filter_map, List.map_map]
    have e : ((fun k => decide ((m + k + 1) % 6 = 0)) ∘ Nat.succ)
        = (fun k => decide ((m + 1 + k + 1) % 6 = 0)) := by
      funext k
      simp only [Function.comp, Nat.succ_eq_add_one]
      congr 2
      omega
    rw [e]
    rfl
  by_cases h : (m + 1) % 6 = 0
  · rw [if_pos h, if_pos (by simpa using h), List.map_cons, hm]
    rfl
  · rw [if_neg h, if_neg (by simpa using h), hm]
    rfl

theorem decimated_nil [Ring α] (toInt16 : α → Int) (m : Nat) :
    decimated toInt16 m ([] : List α) = [] := rfl

/-- The decimated outputs of a concatenation. -/
theorem decimated_append [Ring α] (toInt16 : α → Int) (ys1 : List α) :
    ∀ (m : Nat) (ys2 : List α),
      decimated toInt16 m (ys1 ++ ys2)
        = decimated toInt16 m ys1 ++ decimated toInt16 (m + ys1.length) ys2 := by
  induction ys1 with
  | nil => intro m ys2; simp [decimated_nil]
  | cons y ys ih =>
    intro m ys2
    rw [List.cons_append, decimated_cons, decimated_cons, ih, List.length_cons,
      List.append_assoc]
    congr 3
    omega

/-- One iteration of the input loop on a well-formed decimation filter: it returns, and it
leaves the filter advanced by the sample, the counter stepped, and the queue extended when the
counter wraps. -/
theorem inputBody_wellFormed [LinearOrderedField α] (toInt16 : α → Int) (inp : List α)
    (ci i : Nat) (s : SoundCardDV α μ) (x : α) (hx : inp[i * ci]? = some x)
    (hF : s.m_DecFilter.WellFormed) :
    ∃ (y : α) (s0 : SoundCardDV α μ),
      s.m_DecFilter.filter x = some (y, s.m_DecFilter.next x) ∧
      SoundCardDV.inputBody abs toInt16 inp ci i s = some s0 ∧
      s0.m_DecFilter = s.m_DecFilter.next x ∧
      s0.dec_ctr = (if (s.dec_ctr + 1) % 256 = CARD_FS / MODEM_FS then 0
        else (s.dec_ctr + 1) % 256) ∧
      s0.in_buffer = (if (s.dec_ctr + 1) % 256 = CARD_FS / MODEM_FS
        then s.in_buffer ++ [toInt16 (((SHRT_MAX : Int) : α) * y)] else s.in_buffer) :=
  ⟨_, _, FirFilter.filter_eq s.m_DecFilter hF x,
    inputBody_eq toInt16 inp ci i s x _ _ hx (FirFilter.filter_eq s.m_DecFilter hF x),
    rfl, rfl, rfl⟩

/-- The input loop when the cap never stops it, after `m` samples in earlier callbacks: every
sample is filtered, the queue receives the decimated outputs, and the counter follows the total
number of samples modulo 6. -/
theorem inputLoop_spec [LinearOrderedField α] (toInt16 : α → Int) (inp : List α)
    (ci nin : Nat) :
    ∀ (n i m : Nat) (s : SoundCardDV α μ) (xs : List α), xs.length = n →
      (∀ k : Nat, k < n → inp[(i + k) * ci]? = some (xs.getD k 0)) →
      s.m_DecFilter.WellFormed → s.dec_ctr = m % 6 →
      (∀ k : Nat, k < n → s.in_buffer.length + (m % 6 + k) / 6 ≤ 10 * nin) →
      ∃ (ys : List α) (F1 : FirFilter α) (s1 : SoundCardDV α μ),
        s.m_DecFilter.run xs = some (ys, F1) ∧ F1.WellFormed ∧ ys.length = n ∧
        SoundCardDV.inputLoop abs toInt16 inp ci nin n i s = some s1 ∧
        s1.in_buffer = s.in_buffer ++ decimated toInt16 m ys ∧
        s1.dec_ctr = (m + n) % 6 ∧ s1.m_DecFilter = F1 := by
  intro n
  induction n with
  | zero =>
    intro i m s xs hl _ hF hd _
    have : xs = [] := List.length_eq_zero.mp hl
    subst this
    exact ⟨[], s.m_DecFilter, s, rfl, hF, rfl, rfl, by simp [decimated_nil], hd, rfl⟩
  | succ n ih =>
    intro i m s xs hl hx hF hd hcap
    cases xs with
    | nil => simp at hl
    | cons x xs =>
      have hl1 : xs.length = n := by simpa using hl
      have hx0 : inp[i * ci]? = some x := by
        have := hx 0 (by omega)
        simpa using this
      have hg : s.in_buffer.length ≤ 10 * nin := by
        have := hcap 0 (by omega)
        omega
      have hr6 := ratio_eq
      have hdc : ((s.dec_ctr + 1) % 256 = CARD_FS / MODEM_FS) ↔ (m + 1) % 6 = 0 := by
        rw [hr6, hd]
        omega
      obtain ⟨y, s0, hf, hb, h0F, h0d, h0b⟩ :=
        inputBody_wellFormed toInt16 inp ci i s x hx0 hF
      have h0d1 : s0.dec_ctr = (m + 1) % 6 := by
        rw [h0d]
        by_cases h6 : (s.dec_ctr + 1) % 256 = CARD_FS / MODEM_FS
        · rw [if_pos h6]
          exact (hdc.mp h6).symm
        · rw [if_neg h6]
          have := mt hdc.mpr h6
          rw [hd]
          omega
      have h0cap : ∀ k : Nat, k < n →
          s0.in_buffer.length + ((m + 1) % 6 + k) / 6 ≤ 10 * nin := by
        intro k hk
        have := hcap (k + 1) (by omega)
        rw [h0b]
        by_cases h6 : (s.dec_ctr + 1) % 256 = CARD_FS / MODEM_FS
        · rw [if_pos h6, List.length_append, List.length_singleton]
          have := hdc.mp h6
          omega
        · rw [if_neg h6]
          have := mt hdc.mpr h6
          omega
      obtain ⟨ys, F1, s1, hrun, hw, hyl, hloop, hbuf, hctr, hfil⟩ :=
        ih (i + 1) (m + 1) s0 xs hl1
          (by
            intro k hk
            have := hx (k + 1) (by omega)
            rw [List.getD_cons_succ] at this
            rw [← this]
            congr 2
            ring)
          (by rw [h0F]; exact FirFilter.next_wellFormed s.m_DecFilter hF x)
          h0d1 h0cap
      rw [h0F] at hrun
      refine ⟨_, F1, s1, run_cons_of _ _ F1 x _ xs ys hf hrun, hw, by simp [hyl], ?_, ?_, ?_,
        hfil⟩
      · rw [SoundCardDV.inputLoop, if_pos hg, hb]
        exact hloop
      · rw [hbuf, decimated_cons, h0b]
        by_cases h6 : (s.dec_ctr + 1) % 256 = CARD_FS / MODEM_FS
        · rw [if_pos h6, if_pos (hdc.mp h6), List.append_assoc]
        · rw [if_neg h6, if_neg (mt hdc.mpr h6), List.nil_append]
      · rw [hctr]
        congr 1
        omega

/-- The input loop with the cap: whenever it returns, the queue has only grown, and it is no
longer than the larger of its initial length and `10 * nin + 1`. -/
theorem inputLoop_bound [LinearOrderedField α] (toInt16 : α → Int) (inp : List α)
    (ci nin : Nat) :
    ∀ (n i : Nat) (s s1 : SoundCardDV α μ),
      SoundCardDV.inputLoop abs toInt16 inp ci nin n i s = some s1 →
      s.in_buffer.length ≤ s1.in_buffer.length ∧
        s1.in_buffer.length ≤ max s.in_buffer.length (10 * nin + 1) := by
  intro n
  induction n with
  | zero =>
    intro i s s1 h
    simp only [SoundCardDV.inputLoop, Option.some.injEq] at h
    subst h
    exact ⟨le_refl _, le_max_left _ _⟩
  | succ n ih =>
    intro i s s1 h
    rw [SoundCardDV.inputLoop] at h
    by_cases hg : s.in_buffer.length ≤ 10 * nin
    · rw [if_pos hg] at h
      cases hb : SoundCardDV.inputBody abs toInt16 inp ci i s with
      | none => rw [hb] at h; cases h
      | some s0 =>
        rw [hb] at h
        simp only [] at h
        obtain ⟨x, y, F, _, _, hs0⟩ := inputBody_some toInt16 inp ci i s s0 hb
        obtain ⟨h1, h2⟩ := ih _ _ _ h
        have hb0 : s0.in_buffer = (if (s.dec_ctr + 1) % 256 = CARD_FS / MODEM_FS
            then s.in_buffer ++ [toInt16 (((SHRT_MAX : Int) : α) * y)] else s.in_buffer) := by
          rw [hs0]
        have hlen : s.in_buffer.length ≤ s0.in_buffer.length ∧
            s0.in_buffer.length ≤ s.in_buffer.length + 1 := by
          rw [hb0]
          split
          · rw [List.length_append, List.length_singleton]
            omega
          · omega
        constructor
        · omega
        · refine le_trans h2 (max_le ?_ (le_max_right _ _))
          exact le_trans (by omega : s0.in_buffer.length ≤ 10 * nin + 1) (le_max_right _ _)
    · rw [if_neg hg] at h
      simp only [Option.some.injEq] at h
      subst h
      exact ⟨le_refl _, le_max_left _ _⟩

/-- The input loop returns when its reads stay inside the input buffer and the decimation
filter is well-formed. -/
theorem inputLoop_returns [LinearOrderedField α] (toInt16 : α → Int) (inp : List α)
    (ci nin : Nat) :
    ∀ (n i : Nat) (s : SoundCardDV α μ),
      (∀ k : Nat, k < n → (i + k) * ci < inp.length) → s.m_DecFilter.WellFormed →
      ∃ s1 : SoundCardDV α μ, SoundCardDV.inputLoop abs toInt16 inp ci nin n i s = some s1 ∧
        s1.m_DecFilter.WellFormed := by
  intro n
  induction n with
  | zero => intro i s _ hF; exact ⟨s, rfl, hF⟩
  | succ n ih =>
    intro i s hx hF
    rw [SoundCardDV.inputLoop]
    by_cases hg : s.in_buffer.length ≤ 10 * nin
    · rw [if_pos hg]
      have hx0 : inp[i * ci]? = some (inp.getD (i * ci) 0) :=
        getElem?_eq_some_getD inp 0 _ (by simpa using hx 0 (by omega))
      rw [inputBody_eq toInt16 inp ci i s _ _ _ hx0 (FirFilter.filter_eq s.m_DecFilter hF _)]
      exact ih (i + 1) _ (fun k hk => by
        have := hx (k + 1) (by omega)
        have e : i + 1 + k = i + (k + 1) := by omega
        rw [e]
        exact this) (FirFilter.next_wellFormed s.m_DecFilter hF _)
    · rw [if_neg hg]
      exact ⟨s, rfl, hF⟩

/-- The indices below `n` whose successor is a multiple of 6 are `5, 11, 17, ...`. -/
theorem filter_range_six (n : Nat) :
    (List.range n).filter (fun k => (0 + k + 1) % 6 = 0)
      = (List.range (n / 6)).map (fun j => 6 * j + 5) := by
  induction n with
  | zero => rfl
  | succ n ih =>
    rw [List.range_succ, List.filter_append, ih]
    by_cases h : (n + 1) % 6 = 0
    · have e : (n + 1) / 6 = n / 6 + 1 := by omega
      have e5 : 6 * (n / 6) + 5 = n := by omega
      rw [e, List.range_succ, List.map_append, List.map_singleton, e5]
      congr 1
      simp [h]
    · have e : (n + 1) / 6 = n / 6 := by omega
      rw [e]
      simp [h]

/-- From a counter at 0, the decimated outputs are the outputs number 6, 12, 18, ... -/
theorem decimated_zero [Ring α] (toInt16 : α → Int) (ys : List α) :
    decimated toInt16 0 ys = (List.range (ys.length / 6)).map
      (fun j => toInt16 (((SHRT_MAX : Int) : α) * ys.getD (6 * j + 5) 0)) := by
  unfold decimated
  rw [filter_range_six, List.map_map]
  rfl

/-- The input loops of a sequence of callbacks that the cap never stops, after `m` earlier
samples: all samples pass through the decimation filter in order, and the log of appended
samples is the decimation of all the filter outputs. -/
theorem inputCalls_spec [LinearOrderedField α] (toInt16 : α → Int)
    (calls : List (InputCall α)) :
    ∀ (m : Nat) (s : SoundCardDV α μ), s.m_DecFilter.WellFormed → s.dec_ctr = m % 6 →
      (∀ c ∈ calls, ∀ i : Nat, i < c.count → i * s.channelsIn < c.inp.length) →
      neverStopped m calls →
      ∃ (ys : List α) (F1 : FirFilter α) (s1 : SoundCardDV α μ) (log : List Int),
        s.m_DecFilter.run (calls.flatMap (InputCall.samples s.channelsIn)) = some (ys, F1) ∧
        ys.length = (calls.map (fun c => c.count)).sum ∧
        inputCalls abs toInt16 s calls = some (s1, log) ∧
        log = decimated toInt16 m ys ∧
        s1.dec_ctr = (m + ys.length) % 6 ∧ s1.m_DecFilter = F1 := by
  induction calls with
  | nil =>
    intro m s hF hd _ _
    exact ⟨[], s.m_DecFilter, s, [], rfl, rfl, rfl, rfl, hd, rfl⟩
  | cons c cs ih =>
    intro m s hF hd hin hcap
    obtain ⟨hc1, hc2⟩ := hcap
    have hsl : (InputCall.samples s.channelsIn c).length = c.count := by
      simp [InputCall.samples]
    obtain ⟨ys1, F1, s1, hrun1, hw1, hyl1, hloop1, hbuf1, hctr1, hfil1⟩ :=
      inputLoop_spec toInt16 c.inp s.channelsIn c.nin c.count 0 m
        { s with in_buffer := c.queued } (InputCall.samples s.channelsIn c) hsl
        (by
          intro k hk
          have hb := hin c (List.mem_cons_self _ _) k hk
          have e : (InputCall.samples s.channelsIn c).getD k 0
              = c.inp.getD (k * s.channelsIn) 0 := by
            unfold InputCall.samples
            rw [List.getD_eq_getElem?_getD, List.getElem?_map, List.getElem?_range hk]
            rfl
          rw [Nat.zero_add, getElem?_eq_some_getD c.inp 0 _ hb, e])
        hF hd hc1
    have hch : s1.channelsIn = s.channelsIn := by
      have := inputLoop_frame toInt16 c.inp s.channelsIn c.nin c.count 0 _ s1 hloop1
      rw [this]
    obtain ⟨ys2, F2, s2, log2, hrun2, hyl2, hcalls2, hlog2, hctr2, hfil2⟩ :=
      ih (m + c.count) s1 (by rw [hfil1]; exact hw1) hctr1
        (by
          intro c1 hc1m i hi
          rw [hch]
          exact hin c1 (List.mem_cons_of_mem _ hc1m) i hi)
        hc2
    rw [hfil1, hch] at hrun2
    have hrun1' : s.m_DecFilter.run (InputCall.samples s.channelsIn c) = some (ys1, F1) := hrun1
    have hbuf1' : s1.in_buffer = c.queued ++ decimated toInt16 m ys1 := hbuf1
    refine ⟨ys1 ++ ys2, F2, s2, s1.in_buffer.drop c.queued.length ++ log2,
      ?_, ?_, ?_, ?_, ?_, hfil2⟩
    · rw [List.flatMap_cons]
      exact run_append _ _ F1 F2 _ ys1 ys2 hrun1' hrun2
    · rw [List.length_append, hyl1, hyl2, List.map_cons, List.sum_cons]
    · rw [inputCalls, hloop1]
      simp only []
      rw [hcalls2]
    · rw [hbuf1', hlog2, decimated_append, hyl1, List.drop_left]
    · rw [hctr2, List.length_append, hyl1, hyl2]
      congr 1
      omega

/-- The loop that fills the modem input: it moves the first `nin` queued samples, in order, to
the front of `modem_in`. -/
theorem copyLoop_eq (nin : Nat) (buf q : List Int) (hq : nin ≤ q.length)
    (hb : nin ≤ buf.length) :
    forLoop SoundCardDV.copyBody nin 0 (buf, q)
      = some (q.take nin ++ buf.drop nin, q.drop nin) := by
  have := forLoop_spec SoundCardDV.copyBody
    (fun k => (q.take k ++ buf.drop k, q.drop k)) nin 0 (by
      intro k _ hk
      have hk1 : k < q.length := by omega
      have hlt : (q.take k).length = k := by
        rw [List.length_take, Nat.min_eq_left (by omega)]
      unfold SoundCardDV.copyBody
      simp only []
      rw [drop_eq_cons_of_lt q 0 k hk1]
      simp only []
      rw [if_pos (by rw [List.length_append, hlt, List.length_drop]; omega)]
      congr 1
      refine Prod.ext ?_ rfl
      show (q.take k ++ buf.drop k).set k _ = _
      have hs := set_after_init (q.take k) (buf.drop k) (q.getD k 0)
        (by rw [List.length_drop]; omega)
      rw [hlt] at hs
      rw [hs, take_succ_of_lt q 0 k hk1, List.drop_drop])
  simpa using this

/-- The upsampling loop feeds the same sample `k` times to the filter and appends the converted
outputs. -/
theorem upsampleLoop_eq [Zero α] [Add α] [Mul α] (toInt16 : α → Int) (v : α) :
    ∀ (k i : Nat) (q : List Int) (F F1 : FirFilter α) (ys : List α),
      F.run (List.replicate k v) = some (ys, F1) →
      forLoop (SoundCardDV.upsampleBody toInt16 v) k i (q, F)
        = some (q ++ ys.map toInt16, F1) := by
  intro k
  induction k with
  | zero =>
    intro i q F F1 ys h
    simp only [List.replicate_zero, FirFilter.run, Option.some.injEq, Prod.mk.injEq] at h
    rw [← h.1, ← h.2]
    simp [forLoop]
  | succ k ih =>
    intro i q F F1 ys h
    rw [List.replicate_succ] at h
    obtain ⟨y, F0, ys0, hf, hr, ho⟩ := run_cons_inv F F1 v _ ys h
    rw [forLoop]
    have hb : SoundCardDV.upsampleBody toInt16 v i (q, F) = some (q ++ [toInt16 y], F0) := by
      unfold SoundCardDV.upsampleBody
      simp only []
      rw [hf]
    rw [hb]
    simp only []
    rw [ih (i + 1) _ F0 F1 ys0 hr, ho, List.map_cons, List.append_assoc]
    rfl

/-- The interpolation loop when the cap never stops it: each of the `n` modem samples from index
`i` on is fed six times to the filter, and the converted outputs are appended to the queue. -/
theorem interpLoop_spec [CommRing α] (toInt16 : α → Int) (modem_out : List Int) (nout : Nat) :
    ∀ (n i : Nat) (q : List Int) (F : FirFilter α), F.WellFormed →
      i + n ≤ modem_out.length →
      (∀ k : Nat, k < n → q.length + (CARD_FS / MODEM_FS) * k ≤ 10 * nout) →
      ∃ (ys : List α) (F1 : FirFilter α),
        F.run (((modem_out.drop i).take n).flatMap
          (fun o => List.replicate (CARD_FS / MODEM_FS) ((o : Int) : α))) = some (ys, F1) ∧
        F1.WellFormed ∧ ys.length = (CARD_FS / MODEM_FS) * n ∧
        SoundCardDV.interpLoop toInt16 modem_out nout n i (q, F)
          = some (q ++ ys.map toInt16, F1) := by
  intro n
  induction n with
  | zero =>
    intro i q F hF _ _
    exact ⟨[], F, by simp [FirFilter.run], hF, rfl, by simp [SoundCardDV.interpLoop]⟩
  | succ n ih =>
    intro i q F hF hlen hcap
    have hi : i < modem_out.length := by omega
    have hg : q.length ≤ 10 * nout := by
      have := hcap 0 (by omega)
      omega
    obtain ⟨ys1, F1, hr1, hw1, hl1⟩ := run_wellFormed
      (List.replicate (CARD_FS / MODEM_FS) ((modem_out.getD i 0 : Int) : α)) F hF
    rw [List.length_replicate] at hl1
    obtain ⟨ys2, F2, hr2, hw2, hl2, hloop2⟩ := ih (i + 1) (q ++ ys1.map toInt16) F1 hw1
      (by omega) (by
        intro k hk
        have := hcap (k + 1) (by omega)
        rw [List.length_append, List.length_map, hl1]
        rw [Nat.mul_add, Nat.mul_one] at this
        omega)
    refine ⟨ys1 ++ ys2, F2, ?_, hw2, ?_, ?_⟩
    · rw [drop_eq_cons_of_lt modem_out 0 i hi, List.take_succ_cons, List.flatMap_cons]
      exact run_append _ F F1 F2 _ ys1 ys2 hr1 hr2
    · rw [List.length_append, hl1, hl2]
      ring
    · rw [SoundCardDV.interpLoop, if_pos hg, getElem?_eq_some_getD modem_out 0 i hi]
      simp only []
      rw [upsampleLoop_eq toInt16 _ _ 0 q F F1 ys1 hr1]
      simp only []
      rw [hloop2, List.map_append, List.append_assoc]

/-- The interpolation loop with the cap: it returns when its reads stay inside `modem_out` and
the filter is well-formed, the queue only grows, and it ends no longer than the larger of its
initial length and `10 * nout + 6`. -/
theorem interpLoop_bound [CommRing α] (toInt16 : α → Int) (modem_out : List Int) (nout : Nat) :
    ∀ (n i : Nat) (q : List Int) (F : FirFilter α), F.WellFormed →
      i + n ≤ modem_out.length →
      ∃ st : List Int × FirFilter α,
        SoundCardDV.interpLoop toInt16 modem_out nout n i (q, F) = some st ∧
        st.2.WellFormed ∧ q.length ≤ st.1.length ∧
        st.1.length ≤ max q.length (10 * nout + CARD_FS / MODEM_FS) := by
  intro n
  induction n with
  | zero =>
    intro i q F hF _
    exact ⟨(q, F), rfl, hF, le_refl _, le_max_left _ _⟩
  | succ n ih =>
    intro i q F hF hlen
    have hi : i < modem_out.length := by omega
    rw [SoundCardDV.interpLoop]
    by_cases hg : q.length ≤ 10 * nout
    · obtain ⟨ys1, F1, hr1, hw1, hl1⟩ := run_wellFormed
        (List.replicate (CARD_FS / MODEM_FS) ((modem_out.getD i 0 : Int) : α)) F hF
      rw [List.length_replicate] at hl1
      obtain ⟨st, hst, hw, h1, h2⟩ := ih (i + 1) (q ++ ys1.map toInt16) F1 hw1 (by omega)
      rw [List.length_append, List.length_map, hl1] at h1 h2
      refine ⟨st, ?_, hw, by omega, ?_⟩
      · simp only [if_pos hg]
        rw [getElem?_eq_some_getD modem_out 0 i hi]
        simp only []
        rw [upsampleLoop_eq toInt16 _ _ 0 q F F1 ys1 hr1]
        simp only []
        exact hst
      · refine le_trans h2 (max_le ?_ (le_max_right _ _))
        exact le_trans (by omega) (le_max_right _ _)
    · simp only [if_neg hg]
      exact ⟨(q, F), rfl, hF, le_refl _, le_max_left _ _⟩

/-- The modem phase when fewer than `nin` samples are queued: nothing happens. -/
theorem modemPhase_skip [Ring α] (M : Modem μ) (toInt16 : α → Int) (nin : Nat)
    (s : SoundCardDV α μ) (h : s.in_buffer.length < nin) :
    SoundCardDV.modemPhase M toInt16 nin s = some s := by
  unfold SoundCardDV.modemPhase
  rw [if_neg (by omega)]

/-- The modem phase when at least `nin` samples are queued: the first `nin` samples move to
the front of `modem_in`, the modem is called once on it, and its output is interpolated. -/
theorem modemPhase_made [Ring α] (M : Modem μ) (toInt16 : α → Int) (nin : Nat)
    (s : SoundCardDV α μ) (h : nin ≤ s.in_buffer.length) (hb : nin ≤ s.modem_in.length)
    (m1 : μ) (mo : List Int) (nout : Nat)
    (hcall : s.modemCall M (s.in_buffer.take nin ++ s.modem_in.drop nin) = (m1, mo, nout)) :
    SoundCardDV.modemPhase M toInt16 nin s =
      (SoundCardDV.interpLoop toInt16 mo nout nout 0 (s.out_buffer, s.m_IntFilter)).map
        (fun st => { s with modem_in := s.in_buffer.take nin ++ s.modem_in.drop nin,
                            in_buffer := s.in_buffer.drop nin, m_freedv := m1,
                            modem_out := mo, out_buffer := st.1, m_IntFilter := st.2 }) := by
  unfold SoundCardDV.modemPhase
  rw [if_pos h, copyLoop_eq nin s.modem_in s.in_buffer h hb]
  simp only []
  unfold SoundCardDV.modemCall at hcall
  by_cases hm : s.mMode = ModesDV.RX
  · rw [if_pos hm] at hcall
    simp only [if_pos hm, hcall]
    cases SoundCardDV.interpLoop toInt16 mo nout nout 0 (s.out_buffer, s.m_IntFilter) <;> rfl
  · rw [if_neg hm] at hcall
    simp only [if_neg hm, hcall]
    cases SoundCardDV.interpLoop toInt16 mo nout nout 0 (s.out_buffer, s.m_IntFilter) <;> rfl

end RunLemmas

/-! ## Lemmas on the control layer -/

section ControlLemmas

open KK5JY.DSP

variable {α μ : Type} {abs : α → α}

/-- The loop of the `Pass` case: frame `i` writes `co` copies of `in[i * ci]`. -/
theorem passLoop_eq (inp : List α) (ci co count : Nat)
    (hin : ∀ i : Nat, i < count → i * ci < inp.length) (d : α) :
    forLoop (SoundCardDV.passBody inp ci co) count 0 []
      = some ((List.range count).flatMap (fun i => List.replicate co (inp.getD (i * ci) d))) := by
  have := forLoop_spec (SoundCardDV.passBody inp ci co)
    (fun k => (List.range k).flatMap (fun i => List.replicate co (inp.getD (i * ci) d)))
    count 0 (by
      intro k _ hk
      unfold SoundCardDV.passBody
      rw [getElem?_eq_some_getD inp d (k * ci) (hin k (by omega))]
      simp only []
      rw [fanOut_eq, List.range_succ, List.flatMap_append]
      simp)
  simpa using this

/-- The callback counts itself once, modulo `2 ^ 64`. -/
theorem event_frames [LinearOrderedField α] (M : Modem μ) (toInt16 : α → Int)
    (s : SoundCardDV α μ) (inp : List α) (count : Nat) (r : SoundCardDV α μ × List α)
    (h : SoundCardDV.event abs M toInt16 s inp count = some r) :
    r.1.m_Frames = (s.m_Frames + 1) % 2 ^ 64 := by
  by_cases hm : s.mMode = ModesDV.RX ∨ s.mMode = ModesDV.TX
  · obtain ⟨s1, s2, h1, h2, h3⟩ := event_rxtx M toInt16 s inp count hm r h
    have f1 := inputLoop_frame toInt16 inp _ _ _ _ _ _ h1
    have f2 := modemPhase_frame M toInt16 _ _ _ h2
    rw [drain_eq] at h3
    have e3 : r.1.m_Frames = s2.m_Frames := by
      split at h3 <;> (simp only [Option.some.injEq] at h3; subst h3; rfl)
    rw [e3, f2]
    show s1.m_Frames = _
    rw [f1]
  · unfold SoundCardDV.event at h
    simp only [if_neg hm] at h
    split at h
    · simp only [Option.some.injEq] at h
      subst h
      rfl
    · split at h
      · split at h
        · simp only [Option.some.injEq] at h
          subst h
          rfl
        · cases h
      · simp only [Option.some.injEq] at h
        subst h
        rfl

/-- The text before the terminator of a terminated text without inner terminator. -/
theorem takeWhile_terminated (s rest : List Char) (h : NUL ∉ s) :
    (s ++ NUL :: rest).takeWhile (fun c => c != NUL) = s := by
  induction s with
  | nil => simp [List.takeWhile]
  | cons c s ih =>
    have hc : c ≠ NUL := fun e => h (by rw [e]; exact List.mem_cons_self _ _)
    have hs : NUL ∉ s := fun e => h (List.mem_cons_of_mem _ e)
    rw [List.cons_append, List.takeWhile_cons_of_pos (by simpa using hc), ih hs]

/-- A text without terminator is its own C string. -/
theorem takeWhile_no_terminator (s : List Char) (h : NUL ∉ s) :
    s.takeWhile (fun c => c != NUL) = s := by
  have := takeWhile_terminated s [] h
  induction s with
  | nil => rfl
  | cons c s ih =>
    have hc : c ≠ NUL := fun e => h (by rw [e]; exact List.mem_cons_self _ _)
    have hs : NUL ∉ s := fun e => h (List.mem_cons_of_mem _ e)
    rw [List.takeWhile_cons_of_pos (by simpa using hc), ih hs (takeWhile_terminated s [] hs)]

/-- The function `strcpy` on a text that fits. -/
theorem strcpy_fits (dst s : List Char) (h : NUL ∉ s) (hl : s.length + 1 ≤ dst.length) :
    strcpy dst s = some (s ++ NUL :: dst.drop (s.length + 1)) := by
  unfold strcpy
  rw [takeWhile_no_terminator s h, if_pos hl]
  simp

/-- Storing a text that fits the buffer of the callback state, and reading it back. -/
theorem setText_fits (d : Device α μ) (s t : List Char)
    (ht : t = if s.isEmpty then DEFAULT_TEXT else s) (h : NUL ∉ t)
    (hl : t.length + 1 ≤ d.cb_state.tx_str.length) :
    ∃ d1 : Device α μ, d.setText s = some d1 ∧
      d1 = { d with cb_state := { d.cb_state with
        tx_str := t ++ NUL :: d.cb_state.tx_str.drop (t.length + 1), ptx_str := 0 } } ∧
      d1.text = some t ∧ d1.cb_state.tx_str.length = d.cb_state.tx_str.length := by
  refine ⟨_, ?_, rfl, ?_, ?_⟩
  · unfold Device.setText
    rw [← ht, strcpy_fits _ t h hl]
  · unfold Device.text
    simp only []
    rw [if_pos (by simp), takeWhile_terminated t _ h]
  · simp only [List.length_append, List.length_cons, List.length_drop]
    omega

set_option maxRecDepth 8000 in
/-- The default text has no inner terminator. -/
theorem DEFAULT_TEXT_no_terminator : NUL ∉ DEFAULT_TEXT := by decide

/-- The loop of `SplitCommand` after the first `=`: every further `=` is skipped and every
other character goes to `arg`. -/
theorem SplitCommand_loop_arg (l : List Char) :
    ∀ cmd arg : List Char, SplitCommand.loop l (false, cmd, arg)
      = (false, cmd, arg ++ l.filter (fun c => c != '=')) := by
  induction l with
  | nil => intro cmd arg; simp [SplitCommand.loop]
  | cons ch rest ih =>
    intro cmd arg
    rw [SplitCommand.loop]
    by_cases h : ch = '='
    · rw [if_pos h, ih]
      simp [h]
    · rw [if_neg h]
      simp only [Bool.false_eq_true, if_false]
      rw [ih, List.filter_cons_of_pos (by simpa using h), List.append_assoc]
      rfl

/-- The loop of `SplitCommand` before the first `=`. -/
theorem SplitCommand_loop_cmd (l : List Char) :
    ∀ cmd arg : List Char, (SplitCommand.loop l (true, cmd, arg)).2
      = (cmd ++ l.takeWhile (fun c => c != '='),
          arg ++ (l.dropWhile (fun c => c != '=')).filter (fun c => c != '=')) := by
  induction l with
  | nil => intro cmd arg; simp [SplitCommand.loop]
  | cons ch rest ih =>
    intro cmd arg
    rw [SplitCommand.loop]
    by_cases h : ch = '='
    · rw [if_pos h, SplitCommand_loop_arg]
      simp [h]
    · rw [if_neg h]
      simp only [if_true]
      rw [ih, List.takeWhile_cons_of_pos (by simpa using h),
        List.dropWhile_cons_of_pos (by simpa using h), List.append_assoc]
      rfl

/-- What `SplitCommand` computes: `cmd` is the upper-cased text before the first `=`, and `arg`
is the text after it without any further `=`. -/
theorem SplitCommand_eq (input : List Char) :
    (SplitCommand input).2.1 = my.toUpper (input.takeWhile (fun c => c != '=')) ∧
    (SplitCommand input).2.2
      = (input.dropWhile (fun c => c != '=')).filter (fun c => c != '=') := by
  have h := SplitCommand_loop_cmd input [] []
  unfold SplitCommand
  simp only [List.nil_append] at h ⊢
  rw [h]
  exact ⟨rfl, rfl⟩

/-- The logging harness runs the input loop: same result, and the log holds, in order, the
samples read with the outputs of the decimation filter for them; the clip flag ends set exactly
when it was set before or a logged value reaches `CLIP_LIMIT` in magnitude. -/
theorem inputTrace_spec [LinearOrderedField α] (toInt16 : α → Int) (inp : List α)
    (ci nin : Nat) :
    ∀ (n i : Nat) (s : SoundCardDV α μ),
      (∀ k : Nat, k < n → (i + k) * ci < inp.length) → s.m_DecFilter.WellFormed →
      ∃ (s1 : SoundCardDV α μ) (log : List (α × α)),
        inputTrace abs toInt16 inp ci nin n i s = some (s1, log) ∧
        SoundCardDV.inputLoop abs toInt16 inp ci nin n i s = some s1 ∧
        log.length ≤ n ∧ (log.length = n ∨ 10 * nin < s1.in_buffer.length) ∧
        (∀ k : Nat, k < log.length → inp[(i + k) * ci]? = (log.map Prod.fst)[k]?) ∧
        s.m_DecFilter.run (log.map Prod.fst) = some (log.map Prod.snd, s1.m_DecFilter) ∧
        (s1.clipping = true ↔
          s.clipping = true ∨ ∃ p ∈ log, abs p.1 ≥ CLIP_LIMIT ∨ abs p.2 ≥ CLIP_LIMIT) := by
  intro n
  induction n with
  | zero =>
    intro i s _ _
    refine ⟨s, [], rfl, rfl, le_refl _, Or.inl rfl, fun k hk => absurd hk (by simp), rfl, ?_⟩
    simp
  | succ n ih =>
    intro i s hin hF
    by_cases hg : s.in_buffer.length ≤ 10 * nin
    · have hi : i * ci < inp.length := by simpa using hin 0 (by omega)
      have hx := getElem?_eq_some_getD inp 0 (i * ci) hi
      obtain ⟨y, s0, hf, hb, h0F, _, _⟩ :=
        @inputBody_wellFormed α μ abs _ toInt16 inp ci i s (inp.getD (i * ci) 0) hx hF
      have hs0 := @inputBody_eq α μ abs _ toInt16 inp ci i s _ _ _ hx hf
      rw [hb] at hs0
      have hs0c : s0.clipping = (if abs y ≥ CLIP_LIMIT then true
          else (if abs (inp.getD (i * ci) 0) ≥ CLIP_LIMIT then true else s.clipping)) := by
        rw [Option.some.inj hs0]
      have hF0 : s0.m_DecFilter.WellFormed := by
        rw [h0F]
        exact FirFilter.next_wellFormed s.m_DecFilter hF _
      obtain ⟨s1, log, h1, h2, h3, h4, h5, h6, h7⟩ := ih (i + 1) s0
        (by intro k hk; have := hin (k + 1) (by omega); rwa [Nat.add_assoc, Nat.add_comm 1 k])
        hF0
      refine ⟨s1, (inp.getD (i * ci) 0, y) :: log, ?_, ?_, ?_, ?_, ?_, ?_, ?_⟩
      · rw [inputTrace, if_pos hg, hx]
        simp only []
        rw [hf]
        simp only []
        rw [hb]
        simp only []
        rw [h1]
      · rw [SoundCardDV.inputLoop, if_pos hg, hb]
        exact h2
      · simp only [List.length_cons]
        omega
      · simp only [List.length_cons]
        rcases h4 with h4 | h4
        · exact Or.inl (by omega)
        · exact Or.inr h4
      · intro k hk
        cases k with
        | zero => simpa using hx
        | succ k =>
          simp only [List.length_cons] at hk
          have := h5 k (by omega)
          rw [Nat.add_assoc, Nat.add_comm 1 k] at this
          simpa using this
      · simp only [List.map_cons]
        rw [h0F] at h6
        exact run_cons_of s.m_DecFilter _ _ _ _ _ _ hf h6
      · have hc0 : s0.clipping = true ↔
            (s.clipping = true ∨ abs (inp.getD (i * ci) 0) ≥ CLIP_LIMIT ∨ abs y ≥ CLIP_LIMIT) := by
          rw [hs0c]
          by_cases c1 : abs y ≥ CLIP_LIMIT
          · rw [if_pos c1]
            exact ⟨fun _ => Or.inr (Or.inr c1), fun _ => rfl⟩
          · rw [if_neg c1]
            by_cases c2 : abs (inp.getD (i * ci) 0) ≥ CLIP_LIMIT
            · rw [if_pos c2]
              exact ⟨fun _ => Or.inr (Or.inl c2), fun _ => rfl⟩
            · rw [if_neg c2]
              exact ⟨fun h => Or.inl h, fun h => h.elim id (fun h => h.elim (absurd · c2)
                (absurd · c1))⟩
        rw [h7, hc0]
        simp only [List.mem_cons, exists_eq_or_imp]
        constructor
        · rintro ((h | h) | h)
          · exact Or.inl h
          · exact Or.inr (Or.inl h)
          · exact Or.inr (Or.inr h)
        · rintro (h | h | h)
          · exact Or.inl (Or.inl h)
          · exact Or.inl (Or.inr h)
          · exact Or.inr h
    · refine ⟨s, [], ?_, ?_, Nat.zero_le _, Or.inr (by omega), fun k hk => absurd hk (by simp),
        rfl, ?_⟩
      · rw [inputTrace, if_neg hg]
      · rw [SoundCardDV.inputLoop, if_neg hg]
      · simp

end ControlLemmas

/-! ## Lemmas on the peak level of the filters -/

section PeakLemmas

open KK5JY.DSP

variable {α μ : Type} {abs : α → α}

/-- The sum of the absolute values of a list, as a sum over its indices. -/
theorem sum_range_abs_getD [LinearOrderedField α] (c : List α) :
    ∑ k in Finset.range c.length, |c.getD k 0| = (c.map (fun t => |t|)).sum := by
  have h := sum_range_getD (c.map (fun t => |t|))
  rw [List.length_map] at h
  rw [← h]
  refine Finset.sum_congr rfl (fun k hk => ?_)
  have hk1 : k < c.length := Finset.mem_range.mp hk
  rw [List.getD_eq_getElem _ _ hk1, List.getD_eq_getElem _ _ (by rw [List.length_map]; exact hk1),
    List.getElem_map]

/-- The magnitude of a direct-form output is at most the sum of the absolute values of the
coefficients times a bound on the magnitudes of the inputs in the window. -/
theorem firOutput_abs_le [LinearOrderedField α] (c xs : List α) (m : Int) (B : α)
    (hB : ∀ k : Nat, k < c.length → |sampleAt xs (m - (k : Int))| ≤ B) :
    |firOutput c xs m| ≤ (c.map (fun t => |t|)).sum * B := by
  unfold firOutput
  refine le_trans (Finset.abs_sum_le_sum_abs _ _) ?_
  rw [← sum_range_abs_getD, Finset.sum_mul]
  refine Finset.sum_le_sum (fun k hk => ?_)
  have hk1 : k < c.length := Finset.mem_range.mp hk
  rw [abs_mul]
  refine mul_le_mul_of_nonneg_left ?_ (abs_nonneg _)
  have := hB (c.length - 1 - k) (by omega)
  have e : ((c.length - 1 - k : Nat) : Int) = (c.length : Int) - 1 - (k : Int) := by omega
  rwa [e] at this

/-- A direct-form output with non-negative coefficients of sum 1 lies between any two bounds
on the inputs in the window. -/
theorem firOutput_convex [LinearOrderedField α] (c xs : List α) (m : Int) (lo hi : α)
    (hc : ∀ k : Nat, k < c.length → 0 ≤ c.getD k 0) (hs : c.sum = 1)
    (hB : ∀ k : Nat, k < c.length →
      lo ≤ sampleAt xs (m - (k : Int)) ∧ sampleAt xs (m - (k : Int)) ≤ hi) :
    lo ≤ firOutput c xs m ∧ firOutput c xs m ≤ hi := by
  have hw : ∀ k ∈ Finset.range c.length,
      lo ≤ sampleAt xs (m - ((c.length : Int) - 1 - (k : Int))) ∧
        sampleAt xs (m - ((c.length : Int) - 1 - (k : Int))) ≤ hi := by
    intro k hk
    have hk1 : k < c.length := Finset.mem_range.mp hk
    have := hB (c.length - 1 - k) (by omega)
    have e : ((c.length - 1 - k : Nat) : Int) = (c.length : Int) - 1 - (k : Int) := by omega
    rwa [e] at this
  have hsum : ∑ k in Finset.range c.length, c.getD k 0 = 1 := by
    rw [sum_range_getD, hs]
  unfold firOutput
  constructor
  · calc lo = ∑ k in Finset.range c.length, c.getD k 0 * lo := by
          rw [← Finset.sum_mul, hsum, one_mul]
      _ ≤ _ := Finset.sum_le_sum (fun k hk =>
          mul_le_mul_of_nonneg_left (hw k hk).1 (hc k (Finset.mem_range.mp hk)))
  · calc _ ≤ ∑ k in Finset.range c.length, c.getD k 0 * hi := Finset.sum_le_sum (fun k hk =>
          mul_le_mul_of_nonneg_left (hw k hk).2 (hc k (Finset.mem_range.mp hk)))
      _ = hi := by rw [← Finset.sum_mul, hsum, one_mul]

/-- The stored taps of a filter constructed with the floating-point `abs`: their absolute values
sum to 1 when `OverallGain` is not 0, and they are all 0 otherwise. -/
theorem constructed_abs_sum [LinearOrderedField α] (taps : List α) :
    ((constructed abs_float taps).OverallGain ≠ 0 →
      ((constructed abs_float taps).m_Coefs.map (fun t => |t|)).sum = 1) ∧
    ((constructed abs_float taps).OverallGain = 0 → ∀ c ∈ (constructed abs_float taps).m_Coefs, c = 0) := by
  delta abs_float
  have hnn : ∀ l : List α, 0 ≤ (l.map (fun t => |t|)).sum := by
    intro l
    exact List.sum_nonneg (by intro x hx; obtain ⟨t, _, rfl⟩ := List.mem_map.mp hx; exact abs_nonneg t)
  constructor
  · intro h
    have hS : (taps.map (fun c => |c|)).sum ≠ 0 := h
    have hpos : 0 < (taps.map (fun c => |c|)).sum := lt_of_le_of_ne (hnn taps) (Ne.symm hS)
    show ((taps.map (fun c => c * gainCorrectionOf (fun c => |c|) taps)).map (fun t => |t|)).sum = 1
    rw [gainCorrectionOf_eq, if_neg hS, List.map_map]
    have e : ((fun t : α => |t|) ∘ fun c => c * (1 / (taps.map (fun c => |c|)).sum))
        = fun c => |c| * (1 / (taps.map (fun c => |c|)).sum) := by
      funext c
      show |c * (1 / (taps.map (fun c => |c|)).sum)| = _
      rw [abs_mul, abs_of_pos (one_div_pos.mpr hpos)]
    rw [e]
    have e2 : (taps.map (fun c => |c| * (1 / (taps.map (fun c => |c|)).sum))).sum
        = (taps.map (fun c => |c|)).sum * (1 / (taps.map (fun c => |c|)).sum) := by
      rw [← List.sum_map_mul_right]
    rw [e2, mul_one_div_cancel hS]
  · intro h c hc
    have hS : (taps.map (fun c => |c|)).sum = 0 := h
    have hz : ∀ t ∈ taps, t = 0 := by
      intro t ht
      have hle := List.single_le_sum (l := taps.map (fun c => |c|)) (by
        intro x hx; obtain ⟨t, _, rfl⟩ := List.mem_map.mp hx; exact abs_nonneg t)
        |t| (List.mem_map.mpr ⟨t, ht, rfl⟩)
      rw [hS] at hle
      exact abs_eq_zero.mp (le_antisymm hle (abs_nonneg t))
    have hc1 : c ∈ taps.map (fun c => c * gainCorrectionOf (fun c => |c|) taps) := hc
    obtain ⟨t, ht, rfl⟩ := List.mem_map.mp hc1
    rw [hz t ht, zero_mul]

/-- A filter freshly constructed with the floating-point `abs`, run on any input: it returns one
output for each sample, and the magnitude of each output is at most any bound on the magnitudes
of the inputs in its window (the inputs before the first are 0). -/
theorem constructed_run_bound [LinearOrderedField α] (taps : List α) (h : 1 ≤ taps.length)
    (xs : List α) :
    ∃ (outs : List α) (F1 : FirFilter α),
      (constructed abs_float taps).run xs = some (outs, F1) ∧ outs.length = xs.length ∧
      ∀ (i : Nat) (B : α), i < xs.length →
        (∀ k : Nat, k < (constructed abs_float taps).Length.toNat →
          |sampleAt xs ((i : Int) + 1 - (k : Int))| ≤ B) →
        |outs.getD i 0| ≤ B := by
  delta abs_float
  obtain ⟨F1, hrun⟩ := run_fresh (constructed (fun c => |c|) taps) (constructed_wellFormed taps h) rfl
    (fun j => getD_replicate_zero _ _) xs
  refine ⟨_, F1, hrun, by simp, fun i B hi hB => ?_⟩
  have hlen : (constructed (fun c => |c|) taps).m_Coefs.length = taps.length := by
    show (taps.map _).length = _
    rw [List.length_map]
  have hL : (constructed (fun c => |c|) taps).Length.toNat = taps.length := by
    show ((taps.length : Int)).toNat = _
    simp
  rw [hL] at hB
  have hB0 : 0 ≤ B := le_trans (abs_nonneg _) (hB 0 (by omega))
  rw [List.getD_eq_getElem _ _ (by simpa using hi), List.getElem_map, List.getElem_range]
  have hle := firOutput_abs_le (constructed (fun c => |c|) taps).m_Coefs xs ((i : Int) + 1) B
    (by rw [hlen]; exact hB)
  refine le_trans hle ?_
  by_cases hg : (constructed (fun c => |c|) taps).OverallGain = 0
  · have hz : ∀ c ∈ (constructed (fun c => |c|) taps).m_Coefs, c = 0 :=
      (constructed_abs_sum taps).2 hg
    have hs : ((constructed (fun c => |c|) taps).m_Coefs.map (fun t => |t|)).sum = 0 := by
      apply List.sum_eq_zero
      intro x hx
      obtain ⟨t, ht, rfl⟩ := List.mem_map.mp hx
      rw [hz t ht, abs_zero]
    rw [hs, zero_mul]
    exact hB0
  · have h1 : ((constructed (fun c => |c|) taps).m_Coefs.map (fun t => |t|)).sum = 1 :=
      (constructed_abs_sum taps).1 hg
    rw [h1, one_mul]

/-- The Hamming window is positive at every index, for every length. -/
theorem HammingWindow_pos (n N : Int) : 0 < HammingWindow Real.cos Real.pi n N := by
  unfold HammingWindow
  have h := Real.cos_le_one (windowAngle Real.pi 2 n N)
  norm_num
  linarith

/-- The ideal low-pass response of the deployed filters (cutoff 2800 Hz at 48000 Hz) is positive
at every index from -8 to 8. -/
theorem IdealLowPass_deployed_pos (i N : Int) (h1 : -8 ≤ i) (h2 : i ≤ 8) :
    0 < IdealLowPass Real.sin Real.pi
      (2 * Real.pi * ((FILTER_COF : Nat) : ℝ) / ((CARD_FS : Nat) : ℝ)) i N := by
  have hpi := Real.pi_pos
  have hw : (2 * Real.pi * ((FILTER_COF : Nat) : ℝ) / ((CARD_FS : Nat) : ℝ))
      = Real.pi * (7 / 60) := by
    simp only [FILTER_COF, CARD_FS]
    push_cast
    ring
  rw [hw]
  unfold IdealLowPass
  by_cases h0 : i = 0
  · rw [if_pos h0]
    positivity
  · rw [if_neg h0]
    rcases lt_or_gt_of_ne h0 with hneg | hpos
    · have hi : ((i : Int) : ℝ) < 0 := by exact_mod_cast hneg
      have hi8 : (-8 : ℝ) ≤ ((i : Int) : ℝ) := by exact_mod_cast h1
      have hs : Real.sin (Real.pi * (7 / 60) * (i : ℝ)) < 0 := by
        apply Real.sin_neg_of_neg_of_neg_pi_lt
        · nlinarith
        · nlinarith
      exact div_pos_of_neg_of_neg hs (by nlinarith)
    · have hi : (0 : ℝ) < ((i : Int) : ℝ) := by exact_mod_cast hpos
      have hi8 : ((i : Int) : ℝ) ≤ 8 := by exact_mod_cast h2
      have hs : 0 < Real.sin (Real.pi * (7 / 60) * (i : ℝ)) := by
        apply Real.sin_pos_of_pos_of_lt_pi
        · positivity
        · nlinarith
      exact div_pos hs (by positivity)

/-- A filter constructed with the floating-point `abs` whose pre-normalization taps are all
positive: the stored taps are positive and sum to 1. -/
theorem constructed_of_pos [LinearOrderedField α] (taps : List α) (h : 1 ≤ taps.length)
    (hp : ∀ t ∈ taps, 0 < t) :
    (∀ c ∈ (constructed abs_float taps).m_Coefs, 0 < c) ∧ (constructed abs_float taps).m_Coefs.sum = 1 ∧
      taps.sum * (constructed abs_float taps).GainCorrection = 1 := by
  delta abs_float
  have habs : (taps.map (fun c => |c|)).sum = taps.sum :=
    ((sum_eq_sum_abs_iff taps).mpr (fun t ht => le_of_lt (hp t ht))).symm
  have hpos : 0 < taps.sum := by
    cases taps with
    | nil => simp at h
    | cons t ts =>
      rw [List.sum_cons]
      have h1 := hp t (List.mem_cons_self _ _)
      have h2 : 0 ≤ ts.sum :=
        List.sum_nonneg (fun x hx => le_of_lt (hp x (List.mem_cons_of_mem _ hx)))
      linarith
  have hg : (constructed (fun c => |c|) taps).GainCorrection = 1 / taps.sum := by
    show gainCorrectionOf (fun c => |c|) taps = _
    rw [gainCorrectionOf_eq, habs, if_neg (ne_of_gt hpos)]
  refine ⟨fun c hc => ?_, ?_, ?_⟩
  · have hc1 : c ∈ taps.map (fun c => c * gainCorrectionOf (fun c => |c|) taps) := hc
    obtain ⟨t, ht, rfl⟩ := List.mem_map.mp hc1
    have hg1 : gainCorrectionOf (fun c => |c|) taps = 1 / taps.sum := hg
    rw [hg1]
    exact mul_pos (hp t ht) (one_div_pos.mpr hpos)
  · show (taps.map (fun c => c * gainCorrectionOf (fun c => |c|) taps)).sum = 1
    have hg1 : gainCorrectionOf (fun c => |c|) taps = 1 / taps.sum := hg
    rw [hg1, List.sum_map_mul_right, List.map_id', mul_one_div_cancel (ne_of_gt hpos)]
  · rw [hg, mul_one_div_cancel (ne_of_gt hpos)]

/-- A freshly constructed filter with non-negative stored taps of sum 1, run on any input: each
output lies between any two bounds on the inputs in its window (the inputs before the first
are 0). -/
theorem constructed_run_convex [LinearOrderedField α] (taps : List α) (h : 1 ≤ taps.length)
    (hc : ∀ c ∈ (constructed abs taps).m_Coefs, 0 < c) (hs : (constructed abs taps).m_Coefs.sum = 1)
    (xs : List α) :
    ∃ (outs : List α) (F1 : FirFilter α),
      (constructed abs taps).run xs = some (outs, F1) ∧ outs.length = xs.length ∧
      ∀ (i : Nat) (lo hi : α), i < xs.length →
        (∀ k : Nat, k < taps.length →
          lo ≤ sampleAt xs ((i : Int) + 1 - (k : Int)) ∧
            sampleAt xs ((i : Int) + 1 - (k : Int)) ≤ hi) →
        lo ≤ outs.getD i 0 ∧ outs.getD i 0 ≤ hi := by
  obtain ⟨F1, hrun⟩ := run_fresh (constructed abs taps) (constructed_wellFormed taps h) rfl
    (fun j => getD_replicate_zero _ _) xs
  refine ⟨_, F1, hrun, by simp, fun i lo hi hi1 hB => ?_⟩
  have hlen : (constructed abs taps).m_Coefs.length = taps.length := by
    show (taps.map _).length = _
    rw [List.length_map]
  rw [List.getD_eq_getElem _ _ (by simpa using hi1), List.getElem_map, List.getElem_range]
  refine firOutput_convex (constructed abs taps).m_Coefs xs ((i : Int) + 1) lo hi ?_ hs
    (by rw [hlen]; exact hB)
  intro k hk
  rw [List.getD_eq_getElem _ _ hk]
  exact le_of_lt (hc _ (List.getElem_mem _))

/-- The sum of a list given by a function on `0, ..., n - 1`. -/
theorem sum_map_range [AddCommMonoid α] (g : Nat → α) (n : Nat) :
    ((List.range n).map g).sum = ∑ k in Finset.range n, g k := by
  induction n with
  | zero => simp
  | succ n ih =>
    rw [List.range_succ, List.map_append, List.sum_append, ih, Finset.sum_range_succ]
    simp

/-- The cutoff of the deployed filters as an angle: `7 pi / 60`. -/
theorem deployed_omega :
    (2 * Real.pi * ((FILTER_COF : Nat) : ℝ) / ((CARD_FS : Nat) : ℝ)) = Real.pi * (7 / 60) := by
  simp only [FILTER_COF, CARD_FS]
  push_cast
  ring

/-- The ideal low-pass response of the deployed filters is at most `7 / 60`, its value at index
0, at every index. -/
theorem IdealLowPass_deployed_le (i N : Int) :
    IdealLowPass Real.sin Real.pi
      (2 * Real.pi * ((FILTER_COF : Nat) : ℝ) / ((CARD_FS : Nat) : ℝ)) i N ≤ 7 / 60 := by
  have hpi := Real.pi_pos
  rw [deployed_omega]
  unfold IdealLowPass
  by_cases h0 : i = 0
  · rw [if_pos h0]
    have e : Real.pi * (7 / 60) / Real.pi = 7 / 60 := by field_simp; ring
    rw [e]
  · rw [if_neg h0]
    rcases lt_or_gt_of_ne h0 with hneg | hpos
    · have hi : ((i : Int) : ℝ) < 0 := by exact_mod_cast hneg
      have hx : Real.pi * (7 / 60) * (i : ℝ) ≤ 0 := by nlinarith
      have hs : Real.pi * (7 / 60) * (i : ℝ) ≤ Real.sin (Real.pi * (7 / 60) * (i : ℝ)) := by
        have := Real.sin_le (x := -(Real.pi * (7 / 60) * (i : ℝ))) (by linarith)
        rw [Real.sin_neg] at this
        linarith
      have hd : Real.pi * (i : ℝ) < 0 := by nlinarith
      rw [div_le_iff_of_neg hd]
      nlinarith
    · have hi : (0 : ℝ) < ((i : Int) : ℝ) := by exact_mod_cast hpos
      have hs : Real.sin (Real.pi * (7 / 60) * (i : ℝ)) ≤ Real.pi * (7 / 60) * (i : ℝ) :=
        Real.sin_le (by positivity)
      have hd : 0 < Real.pi * (i : ℝ) := by positivity
      rw [div_le_iff₀ hd]
      nlinarith

/-- The Hamming window is at most 1 at every index, for every length. -/
theorem HammingWindow_le_one (n N : Int) : HammingWindow Real.cos Real.pi n N ≤ 1 := by
  unfold HammingWindow
  have h := Real.neg_one_le_cos (windowAngle Real.pi 2 n N)
  norm_num
  linarith

/-- The Hamming window of 15 taps at tap `k`, i.e. at index `k - 7`. -/
theorem HammingWindow_deployed (k : Nat) :
    HammingWindow Real.cos Real.pi ((k : Int) - 7) 15
      = 0.54 - 0.46 * Real.cos (Real.pi * (k : ℝ) / 7) := by
  unfold HammingWindow
  have e : windowAngle Real.pi 2 ((k : Int) - 7) 15 = Real.pi * (k : ℝ) / 7 := by
    unfold windowAngle
    rw [show Int.tdiv 15 2 = 7 from by decide]
    push_cast
    ring
  rw [e]

/-- The 15 weights of the deployed Hamming window sum to `7.64`. -/
theorem HammingWindow_deployed_sum :
    ∑ k in Finset.range 15, HammingWindow Real.cos Real.pi ((k : Int) - 7) 15 = 191 / 25 := by
  have hc : ∀ k : Nat, Real.cos (Real.pi * ((k + 7 : Nat) : ℝ) / 7)
      = -Real.cos (Real.pi * (k : ℝ) / 7) := by
    intro k
    rw [show Real.pi * ((k + 7 : Nat) : ℝ) / 7 = Real.pi * (k : ℝ) / 7 + Real.pi from by
      push_cast; ring, Real.cos_add_pi]
  have h0 : Real.cos (Real.pi * ((0 : Nat) : ℝ) / 7) = 1 := by simp
  have h14 : Real.cos (Real.pi * ((14 : Nat) : ℝ) / 7) = 1 := by
    rw [show Real.pi * ((14 : Nat) : ℝ) / 7 = 2 * Real.pi from by push_cast; ring,
      Real.cos_two_pi]
  simp only [HammingWindow_deployed, Finset.sum_range_succ, Finset.sum_range_zero]
  have h7 := hc 0
  have h8 := hc 1
  have h9 := hc 2
  have h10 := hc 3
  have h11 := hc 4
  have h12 := hc 5
  have h13 := hc 6
  simp only [Nat.zero_add, Nat.reduceAdd] at h7 h8 h9 h10 h11 h12 h13
  rw [h7, h8, h9, h10, h11, h12, h13, h14, h0]
  ring

theorem deployedTaps_eq :
    deployedTaps Real.sin Real.cos Real.pi = (List.range 15).map (fun k : Nat =>
      HammingWindow Real.cos Real.pi ((k : Int) - 7) 15 *
        IdealLowPass Real.sin Real.pi
          (2 * Real.pi * ((FILTER_COF : Nat) : ℝ) / ((CARD_FS : Nat) : ℝ)) ((k : Int) - 7) 15) := by
  rfl

/-- Every pre-normalization tap of the deployed filters lies strictly between 0 and 1. -/
theorem deployedTaps_bounds (t : ℝ) (ht : t ∈ deployedTaps Real.sin Real.cos Real.pi) :
    0 < t ∧ t < 1 := by
  rw [deployedTaps_eq] at ht
  obtain ⟨k, hk, rfl⟩ := List.mem_map.mp ht
  have hk1 : k < 15 := List.mem_range.mp hk
  have w1 := HammingWindow_pos ((k : Int) - 7) 15
  have w2 := HammingWindow_le_one ((k : Int) - 7) 15
  have i1 := IdealLowPass_deployed_pos ((k : Int) - 7) 15 (by omega) (by omega)
  have i2 := IdealLowPass_deployed_le ((k : Int) - 7) 15
  constructor
  · exact mul_pos w1 i1
  · nlinarith

/-- The pre-normalization taps of the deployed filters sum to at most `1337 / 1500`, which is
below 1. -/
theorem deployedTaps_sum_le : (deployedTaps Real.sin Real.cos Real.pi).sum ≤ 1337 / 1500 := by
  rw [deployedTaps_eq, sum_map_range]
  calc _ ≤ ∑ k in Finset.range 15, HammingWindow Real.cos Real.pi ((k : Int) - 7) 15 * (7 / 60) :=
        Finset.sum_le_sum (fun k _ => mul_le_mul_of_nonneg_left
          (IdealLowPass_deployed_le _ _) (le_of_lt (HammingWindow_pos _ _)))
    _ = 1337 / 1500 := by
        rw [← Finset.sum_mul, HammingWindow_deployed_sum]
        norm_num

end PeakLemmas

/-! ## Further lemmas: text cursor, command splitting, symmetry, sample range -/

section FurtherLemmas

open KK5JY.DSP

variable {α μ : Type} {abs : α → α}

/-- The value of `toupper` on a lower-case letter is an upper-case letter. -/
theorem toupper_toNat (c : Char) :
    (toupper c).toNat = if 97 ≤ c.toNat ∧ c.toNat ≤ 122 then c.toNat - 32 else c.toNat := by
  unfold toupper
  by_cases h : 97 ≤ c.toNat ∧ c.toNat ≤ 122
  · rw [if_pos h, if_pos h]
    have hv : (c.toNat - 32).isValidChar := by
      left
      omega
    rw [Char.ofNat, dif_pos hv]
    rfl
  · rw [if_neg h, if_neg h]

/-- Two characters with the same code are equal. -/
theorem char_eq_of_toNat (a b : Char) (h : a.toNat = b.toNat) : a = b := by
  rw [← Char.ofNat_toNat a, ← Char.ofNat_toNat b, h]

/-- The function `toupper` never yields or removes the character `=`. -/
theorem toupper_eq_sign (c : Char) : toupper c = '=' ↔ c = '=' := by
  have h := toupper_toNat c
  constructor
  · intro e
    rw [e] at h
    have h61 : ('=' : Char).toNat = 61 := rfl
    rw [h61] at h
    split at h
    · omega
    · exact char_eq_of_toNat c _ (by rw [h61]; exact h.symm)
  · intro e
    rw [e]
    rfl

/-- The function `toupper` is idempotent. -/
theorem toupper_idem (c : Char) : toupper (toupper c) = toupper c := by
  have h := toupper_toNat c
  have h2 := toupper_toNat (toupper c)
  apply char_eq_of_toNat
  rw [h2]
  split
  · rename_i hh
    rw [h] at hh
    split at hh <;> omega
  · rfl

/-- The function `my::toUpper` is idempotent. -/
theorem toUpper_idem (s : List Char) : my.toUpper (my.toUpper s) = my.toUpper s := by
  unfold my.toUpper my.to_something
  rw [List.map_map]
  exact List.map_congr_left (fun c _ => toupper_idem c)

/-- The function `my::toUpper` neither yields nor removes the character `=`. -/
theorem toUpper_eq_sign (s : List Char) : '=' ∈ my.toUpper s ↔ '=' ∈ s := by
  unfold my.toUpper my.to_something
  rw [List.mem_map]
  constructor
  · rintro ⟨c, hc, e⟩
    rw [(toupper_eq_sign c).mp e] at hc
    exact hc
  · intro h
    exact ⟨'=', h, rfl⟩

/-- The first component of `SplitCommand` is rebuilt from the other two. -/
theorem SplitCommand_input (x : List Char) :
    (SplitCommand x).1 = if (SplitCommand x).2.2 = [] then (SplitCommand x).2.1
      else (SplitCommand x).2.1 ++ '=' :: (SplitCommand x).2.2 := by
  unfold SplitCommand
  simp only []
  cases (SplitCommand.loop x (true, [], [])).2.2 with
  | nil => rfl
  | cons c t => simp

/-- The function `SplitCommand` on a line without `=`. -/
theorem SplitCommand_no_sign (x : List Char) (h : '=' ∉ x) :
    (SplitCommand x).2.1 = my.toUpper x ∧ (SplitCommand x).2.2 = [] := by
  obtain ⟨h1, h2⟩ := SplitCommand_eq x
  have ht : x.takeWhile (fun c => c != '=') = x := by
    rw [List.takeWhile_eq_self_iff]
    intro c hc
    simpa using fun e : c = '=' => h (e ▸ hc)
  have hd : x.dropWhile (fun c => c != '=') = [] := by
    rw [List.dropWhile_eq_nil_iff]
    intro c hc
    simpa using fun e : c = '=' => h (e ▸ hc)
  rw [h1, h2, ht, hd]
  exact ⟨rfl, rfl⟩

/-- The function `SplitCommand` on a line with exactly one `=`. -/
theorem SplitCommand_one_sign (a b : List Char) (ha : '=' ∉ a) (hb : '=' ∉ b) :
    (SplitCommand (a ++ '=' :: b)).2.1 = my.toUpper a ∧ (SplitCommand (a ++ '=' :: b)).2.2 = b := by
  obtain ⟨h1, h2⟩ := SplitCommand_eq (a ++ '=' :: b)
  have hpa : ∀ c ∈ a, (fun c => c != '=') c = true := by
    intro c hc
    simpa using fun e : c = '=' => ha (e ▸ hc)
  have ht : (a ++ '=' :: b).takeWhile (fun c => c != '=') = a := by
    rw [List.takeWhile_append_of_pos hpa, List.takeWhile_cons_of_neg (by simp)]
    simp
  have hd : (a ++ '=' :: b).dropWhile (fun c => c != '=') = '=' :: b := by
    rw [List.dropWhile_append_of_pos hpa, List.dropWhile_cons_of_neg (by simp)]
  rw [h1, h2, ht, hd, List.filter_cons_of_neg (by simp)]
  refine ⟨rfl, ?_⟩
  rw [List.filter_eq_self]
  intro c hc
  simpa using fun e : c = '=' => hb (e ▸ hc)

/-- One call of the next-character callback with the cursor inside a terminated text: it
returns the character under the cursor and moves the cursor on, back to the start at the end
of the text. -/
theorem local_get_next_tx_char_eq (st : local_callback_state) (text rest : List Char)
    (htx : st.tx_str = text ++ NUL :: rest) (hn : NUL ∉ text) (p : Nat)
    (hp : st.ptx_str = p) (hlt : p < text.length) :
    local_get_next_tx_char st
      = some (text.getD p NUL, { st with ptx_str := (p + 1) % text.length }) := by
  unfold local_get_next_tx_char
  rw [hp, htx, List.getElem?_append_left hlt, getElem?_eq_some_getD text NUL p hlt]
  simp only []
  by_cases he : p + 1 = text.length
  · have h1 : (text ++ NUL :: rest)[p + 1]? = some NUL := by
      rw [List.getElem?_append_right (by omega), he]
      simp
    rw [h1]
    simp only [if_true]
    rw [he, Nat.mod_self]
  · have hlt1 : p + 1 < text.length := by omega
    have h1 : (text ++ NUL :: rest)[p + 1]? = some (text.getD (p + 1) NUL) := by
      rw [List.getElem?_append_left hlt1, getElem?_eq_some_getD text NUL (p + 1) hlt1]
    rw [h1]
    simp only []
    have hne : text.getD (p + 1) NUL ≠ NUL := by
      intro e
      apply hn
      rw [← e, List.getD_eq_getElem _ _ hlt1]
      exact List.getElem_mem _
    rw [if_neg hne, Nat.mod_eq_of_lt hlt1]

/-- Calls of the next-character callback in a row, from a cursor inside a terminated text:
call `j` returns character `(p + j) mod L` of the text. -/
theorem nextChars_spec (text rest : List Char) (hn : NUL ∉ text) :
    ∀ (k p : Nat) (st : local_callback_state), st.tx_str = text ++ NUL :: rest →
      st.ptx_str = p → p < text.length →
      ∃ (cs : List Char) (st1 : local_callback_state),
        nextChars k st = some (cs, st1) ∧ cs.length = k ∧
        (∀ j : Nat, j < k → cs[j]? = text[(p + j) % text.length]?) ∧
        st1 = { st with ptx_str := (p + k) % text.length } := by
  intro k
  induction k with
  | zero =>
    intro p st _ hp hlt
    refine ⟨[], st, rfl, rfl, fun j hj => absurd hj (by omega), ?_⟩
    rw [Nat.add_zero, Nat.mod_eq_of_lt hlt, ← hp]
  | succ k ih =>
    intro p st htx hp hlt
    have hstep := local_get_next_tx_char_eq st text rest htx hn p hp hlt
    have hL : 0 < text.length := by omega
    obtain ⟨cs, st1, h1, h2, h3, h4⟩ := ih ((p + 1) % text.length)
      { st with ptx_str := (p + 1) % text.length } htx rfl (Nat.mod_lt _ hL)
    refine ⟨text.getD p NUL :: cs, st1, ?_, by simp [h2], ?_, ?_⟩
    · rw [nextChars, hstep]
      simp only []
      rw [h1]
    · intro j hj
      cases j with
      | zero =>
        rw [Nat.add_zero, Nat.mod_eq_of_lt hlt, getElem?_eq_some_getD text NUL p hlt,
          List.getElem?_cons_zero]
      | succ j =>
        rw [List.getElem?_cons_succ, h3 j (by omega), Nat.mod_add_mod]
        congr 2
        omega
    · rw [h4, Nat.mod_add_mod]
      congr 2
      omega

/-- What `text(s)` leaves in the callback state when it returns: the stored text, which is `s`
(or `DEFAULT_TEXT` for the empty string) up to its first terminator, then the terminator, with
the read cursor at the start. -/
theorem setText_stored (d d1 : Device α μ) (s : List Char) (h : d.setText s = some d1) :
    ∃ rest : List Char,
      d1.cb_state.tx_str = (if s.isEmpty then DEFAULT_TEXT else s).takeWhile (fun c => c != NUL)
        ++ NUL :: rest ∧
      NUL ∉ (if s.isEmpty then DEFAULT_TEXT else s).takeWhile (fun c => c != NUL) ∧
      d1.cb_state.ptx_str = 0 := by
  unfold Device.setText at h
  generalize (if s.isEmpty = true then DEFAULT_TEXT else s) = t at h ⊢
  unfold strcpy at h
  by_cases hfit : (t.takeWhile (fun c => c != NUL)).length + 1 ≤ d.cb_state.tx_str.length
  · rw [if_pos hfit] at h
    simp only [] at h
    rw [← Option.some.inj h]
    refine ⟨List.drop ((List.takeWhile (fun c => c != NUL) t).length + 1) d.cb_state.tx_str,
      by simp, ?_, rfl⟩
    intro hm
    have := List.mem_takeWhile_imp hm
    simp at this
  · rw [if_neg hfit] at h
    cases h

/-- A sample of a sequence bounded in magnitude is bounded in magnitude, also before the start
of the sequence. -/
theorem sampleAt_abs_le [LinearOrderedField α] (xs : List α) (B : α) (hB : 0 ≤ B)
    (h : ∀ x ∈ xs, |x| ≤ B) (t : Int) : |sampleAt xs t| ≤ B := by
  unfold sampleAt
  split
  · rw [abs_zero]
    exact hB
  · by_cases hlt : (t - 1).toNat < xs.length
    · rw [List.getD_eq_getElem _ _ hlt]
      exact h _ (List.getElem_mem _)
    · rw [List.getD_eq_default _ _ (by omega), abs_zero]
      exact hB

/-- The modem phase and the frame drain leave the decimation filter alone. -/
theorem after_input_decFilter [Field α] (M : Modem μ) (toInt16 : α → Int) (nin count : Nat)
    (s1 s2 : SoundCardDV α μ) (r : SoundCardDV α μ × List α)
    (h2 : SoundCardDV.modemPhase M toInt16 nin s1 = some s2) (h3 : s2.drain count = some r) :
    r.1.m_DecFilter = s1.m_DecFilter := by
  have f2 := modemPhase_frame M toInt16 _ _ _ h2
  rw [drain_eq] at h3
  have e3 : r.1.m_DecFilter = s2.m_DecFilter := by
    split at h3 <;> (simp only [Option.some.injEq] at h3; subst h3; rfl)
  rw [e3, f2]

/-- What the input loop appends to `in_buffer`: for some of the logged iterations, in order, the
conversion of `SHRT_MAX` times the logged filter output. -/
theorem inputTrace_queue [LinearOrderedField α] (toInt16 : α → Int) (inp : List α)
    (ci nin : Nat) :
    ∀ (n i : Nat) (s : SoundCardDV α μ),
      (∀ k : Nat, k < n → (i + k) * ci < inp.length) → s.m_DecFilter.WellFormed →
      ∃ (s1 : SoundCardDV α μ) (log app : List (α × α)),
        inputTrace abs toInt16 inp ci nin n i s = some (s1, log) ∧ app.Sublist log ∧
        s1.in_buffer
          = s.in_buffer ++ app.map (fun p => toInt16 (((SHRT_MAX : Int) : α) * p.2)) := by
  intro n
  induction n with
  | zero =>
    intro i s _ _
    exact ⟨s, [], [], rfl, List.Sublist.refl _, by simp⟩
  | succ n ih =>
    intro i s hin hF
    by_cases hg : s.in_buffer.length ≤ 10 * nin
    · have hi : i * ci < inp.length := by simpa using hin 0 (by omega)
      have hx := getElem?_eq_some_getD inp 0 (i * ci) hi
      obtain ⟨y, s0, hf, hb, h0F, _, h0b⟩ :=
        inputBody_wellFormed toInt16 inp ci i s (inp.getD (i * ci) 0) hx hF
      have hF0 : s0.m_DecFilter.WellFormed := by
        rw [h0F]
        exact FirFilter.next_wellFormed s.m_DecFilter hF _
      obtain ⟨s1, log, app, h1, h2, h3⟩ := ih (i + 1) s0
        (by intro k hk; have := hin (k + 1) (by omega); rwa [Nat.add_assoc, Nat.add_comm 1 k])
        hF0
      have htr : inputTrace abs toInt16 inp ci nin (n + 1) i s
          = some (s1, (inp.getD (i * ci) 0, y) :: log) := by
        rw [inputTrace, if_pos hg, hx]
        simp only []
        rw [hf]
        simp only []
        rw [hb]
        simp only []
        rw [h1]
      by_cases hd : (s.dec_ctr + 1) % 256 = CARD_FS / MODEM_FS
      · rw [if_pos hd] at h0b
        refine ⟨s1, _, (inp.getD (i * ci) 0, y) :: app, htr, List.Sublist.cons₂ _ h2, ?_⟩
        rw [h3, h0b, List.map_cons, List.append_assoc]
        rfl
      · rw [if_neg hd] at h0b
        refine ⟨s1, _, app, htr, List.Sublist.cons _ h2, ?_⟩
        rw [h3, h0b]
    · refine ⟨s, [], [], ?_, List.Sublist.refl _, by simp⟩
      rw [inputTrace, if_neg hg]

/-- The absolute values of the stored taps of a filter constructed with the floating-point `abs`
sum to at most 1. -/
theorem constructed_abs_sum_le [LinearOrderedField α] (taps : List α) :
    ((constructed abs_float taps).m_Coefs.map (fun t => |t|)).sum ≤ 1 := by
  by_cases hg : (constructed abs_float taps).OverallGain = 0
  · have hz := (constructed_abs_sum taps).2 hg
    have hs : ((constructed abs_float taps).m_Coefs.map (fun t => |t|)).sum = 0 := by
      apply List.sum_eq_zero
      intro x hx
      obtain ⟨t, ht, rfl⟩ := List.mem_map.mp hx
      rw [hz t ht, abs_zero]
    rw [hs]
    exact zero_le_one
  · rw [(constructed_abs_sum taps).1 hg]

/-- The decimation filter of a newly constructed device: well-formed, with an empty past, and
the closed form of the deployed taps. -/
theorem new_decFilter [LinearOrderedField α] (sin cos : α → α) (pi : α) (ci co : Nat)
    (freedv : μ) (n1 n2 n3 : Nat) (s0 : SoundCardDV α μ)
    (h : SoundCardDV.new abs sin cos pi ci co (some freedv) n1 n2 n3 = .ok s0) :
    s0.m_DecFilter.WellFormed ∧ s0.m_DecFilter.Tracks [] ∧
      s0.m_DecFilter = constructed abs (deployedTaps sin cos pi) ∧
      s0.m_IntFilter = constructed abs (deployedTaps sin cos pi) := by
  rw [new_deployed] at h
  have hs := Except.ok.inj h
  have hD : s0.m_DecFilter = constructed abs (deployedTaps sin cos pi) := by
    rw [← hs]
  have hI : s0.m_IntFilter = constructed abs (deployedTaps sin cos pi) := by
    rw [← hs]
  rw [hD]
  exact ⟨constructed_wellFormed _ (by rw [deployedTaps_length]; decide),
    tracks_fresh _ rfl (fun j => getD_replicate_zero _ _), rfl, hI⟩

end FurtherLemmas

/-! ## The claims on the sound card bridge -/

section BridgeClaims

open KK5JY.DSP

variable {α μ : Type}

/-- C11: with `CARD_FS / MODEM_FS = 6`, starting from `dec_ctr = 0` with a well-formed decimation
filter, as long as the overflow cap stops none of the input loops (`neverStopped`), the input
loops of any sequence of `RX`/`TX` callbacks that process `m` samples in total return, and they
have appended exactly `m / 6` samples to `in_buffer`: the 6th, 12th, ... output of the
decimation filter over all samples read, each multiplied by `SHRT_MAX` and converted; `dec_ctr`
ends as `m % 6`. -/
theorem C11_decimation_ratio [LinearOrderedField α] (abs : α → α) (toInt16 : α → Int)
    (s : SoundCardDV α μ) (calls : List (InputCall α)) (hF : s.m_DecFilter.WellFormed)
    (h0 : s.dec_ctr = 0)
    (hin : ∀ c ∈ calls, ∀ i : Nat, i < c.count → i * s.channelsIn < c.inp.length)
    (hcap : neverStopped 0 calls) :
    CARD_FS / MODEM_FS = 6 ∧
    ∃ (ys : List α) (F1 : FirFilter α) (s1 : SoundCardDV α μ) (log : List Int),
      s.m_DecFilter.run (calls.flatMap (InputCall.samples s.channelsIn)) = some (ys, F1) ∧
      ys.length = (calls.map (fun c => c.count)).sum ∧
      inputCalls abs toInt16 s calls = some (s1, log) ∧
      log.length = ys.length / 6 ∧
      log = (List.range (ys.length / 6)).map
        (fun j => toInt16 (((SHRT_MAX : Int) : α) * ys.getD (6 * j + 5) 0)) ∧
      s1.dec_ctr = ys.length % 6 ∧ s1.m_DecFilter = F1 := by
  refine ⟨ratio_eq, ?_⟩
  obtain ⟨ys, F1, s1, log, h1, h2, h3, h4, h5, h6⟩ :=
    inputCalls_spec toInt16 calls 0 s hF (by rw [h0]) hin hcap
  rw [decimated_zero] at h4
  refine ⟨ys, F1, s1, log, h1, h2, h3, ?_, h4, ?_, h6⟩
  · rw [h4, List.length_map, List.length_range]
  · rw [h5, Nat.zero_add]

/-- Witness for C11: two callbacks of four and three frames on the stereo example device. -/
theorem C11_decimation_ratio_witness :
    CARD_FS / MODEM_FS = 6 ∧
    ∃ (ys : List ℚ) (F1 : FirFilter ℚ) (s1 : SoundCardDV ℚ Nat) (log : List Int),
      Example.unitFilter.run
        (([⟨1, [1, 0, 2, 0, 3, 0, 4, 0], 4, []⟩, ⟨1, [5, 0, 6, 0, 7, 0], 3, [9]⟩] :
          List (InputCall ℚ)).flatMap (InputCall.samples 2)) = some (ys, F1) ∧
      ys.length = (([⟨1, [1, 0, 2, 0, 3, 0, 4, 0], 4, []⟩, ⟨1, [5, 0, 6, 0, 7, 0], 3, [9]⟩] :
          List (InputCall ℚ)).map (fun c => c.count)).sum ∧
      inputCalls abs_int truncToInt16 Example.card
        [⟨1, [1, 0, 2, 0, 3, 0, 4, 0], 4, []⟩, ⟨1, [5, 0, 6, 0, 7, 0], 3, [9]⟩]
          = some (s1, log) ∧
      log.length = ys.length / 6 ∧
      log = (List.range (ys.length / 6)).map
        (fun j => truncToInt16 (((SHRT_MAX : Int) : ℚ) * ys.getD (6 * j + 5) 0)) ∧
      s1.dec_ctr = ys.length % 6 ∧ s1.m_DecFilter = F1 :=
  C11_decimation_ratio abs_int truncToInt16 Example.card
    [⟨1, [1, 0, 2, 0, 3, 0, 4, 0], 4, []⟩, ⟨1, [5, 0, 6, 0, 7, 0], 3, [9]⟩]
    (by decide) rfl
    (by
      intro c hc i hi
      simp only [List.mem_cons, List.mem_singleton, List.not_mem_nil, or_false] at hc
      rcases hc with rfl | rfl
      · simp only [Example.card, List.length_cons, List.length_nil] at hi ⊢
        omega
      · simp only [Example.card, List.length_cons, List.length_nil] at hi ⊢
        omega)
    (by
      refine ⟨fun k hk => ?_, fun k hk => ?_, trivial⟩
      · simp only [List.length_nil] at hk ⊢
        omega
      · simp only [List.length_cons, List.length_nil] at hk ⊢
        omega)

/-- C12 (as amended): the input loop of an `RX`/`TX` callback returns for every frame count whose
reads stay inside the input buffer; the queue only grows, and it ends no longer than the larger
of its initial length and `10 * nin + 1`, so a queue of at most `10 * nin + 1` samples stays
within `10 * nin + 1`; when the queue is already longer than `10 * nin` the loop reads and
appends nothing. -/
theorem C12_input_overflow_cap [LinearOrderedField α] (abs : α → α) (toInt16 : α → Int)
    (inp : List α)
    (ci nin count : Nat) (s : SoundCardDV α μ)
    (hin : ∀ k : Nat, k < count → k * ci < inp.length) (hF : s.m_DecFilter.WellFormed) :
    ∃ s1 : SoundCardDV α μ,
      SoundCardDV.inputLoop abs toInt16 inp ci nin count 0 s = some s1 ∧
      s.in_buffer.length ≤ s1.in_buffer.length ∧
      s1.in_buffer.length ≤ max s.in_buffer.length (10 * nin + 1) ∧
      (s.in_buffer.length ≤ 10 * nin + 1 → s1.in_buffer.length ≤ 10 * nin + 1) ∧
      (10 * nin < s.in_buffer.length → s1 = s) := by
  obtain ⟨s1, h1, _⟩ := inputLoop_returns toInt16 inp ci nin count 0 s
    (by intro k hk; rw [Nat.zero_add]; exact hin k hk) hF
  have hb := inputLoop_bound toInt16 inp ci nin count 0 s s1 h1
  refine ⟨s1, h1, hb.1, hb.2, fun h => le_trans hb.2 (max_le h (le_refl _)), fun h => ?_⟩
  cases count with
  | zero =>
    simp only [SoundCardDV.inputLoop, Option.some.injEq] at h1
    exact h1.symm
  | succ n =>
    rw [SoundCardDV.inputLoop, if_neg (by omega)] at h1
    exact (Option.some.inj h1).symm

/-- Witness for the amended C12: three frames on a queue of ten samples with `nin = 1`. -/
theorem C12_input_overflow_cap_witness :
    ∃ s1 : SoundCardDV ℚ Nat,
      SoundCardDV.inputLoop abs_int truncToInt16 [1, 0, 1, 0, 1, 0] 2 1 3 0
        ({ Example.card with in_buffer := List.replicate 10 0, dec_ctr := 5 } :
          SoundCardDV ℚ Nat) = some s1 ∧
      (List.replicate 10 (0 : Int)).length ≤ s1.in_buffer.length ∧
      s1.in_buffer.length ≤ max (List.replicate 10 (0 : Int)).length (10 * 1 + 1) ∧
      ((List.replicate 10 (0 : Int)).length ≤ 10 * 1 + 1 → s1.in_buffer.length ≤ 10 * 1 + 1) ∧
      (10 * 1 < (List.replicate 10 (0 : Int)).length → s1 =
        ({ Example.card with in_buffer := List.replicate 10 0, dec_ctr := 5 } :
          SoundCardDV ℚ Nat)) :=
  C12_input_overflow_cap abs_int truncToInt16 [1, 0, 1, 0, 1, 0] 2 1 3
    ({ Example.card with in_buffer := List.replicate 10 0, dec_ctr := 5 } : SoundCardDV ℚ Nat)
    (by
      intro k hk
      simp only [List.length_cons, List.length_nil]
      omega)
    (by decide)

/-- Counterexample to C12 as stated: with `nin = 1`, a queue of `10 = 10 * nin` samples and
`dec_ctr = 5`, the input loop appends one more sample and leaves a queue of 11 samples. -/
theorem C12_counterexample_queue_of_eleven :
    (({ Example.card with in_buffer := List.replicate 10 0, dec_ctr := 5 } :
        SoundCardDV ℚ Nat).in_buffer.length ≤ 10 * 1) ∧
    (SoundCardDV.inputLoop abs_int truncToInt16 [1, 0, 1, 0, 1, 0] 2 1 3 0
        ({ Example.card with in_buffer := List.replicate 10 0, dec_ctr := 5 } :
          SoundCardDV ℚ Nat)).map (fun s1 => s1.in_buffer.length) = some 11 ∧
    ¬ (11 ≤ 10 * 1) := by
  refine ⟨by decide, ?_, by decide⟩
  rfl

/-- C13 (as amended): when the modem call is made and returns `nout` samples inside `modem_out`,
the modem phase returns; the output queue only grows and ends no longer than the larger of its
initial length and `10 * nout + 6`, so a queue of at most `10 * nout + 6` samples stays within
`10 * nout + 6`; a queue already longer than `10 * nout` is left as it is. -/
theorem C13_output_overflow_cap [LinearOrderedField α] (M : Modem μ) (toInt16 : α → Int)
    (nin : Nat) (s : SoundCardDV α μ) (m1 : μ) (mo : List Int) (nout : Nat)
    (h : nin ≤ s.in_buffer.length) (hb : nin ≤ s.modem_in.length)
    (hcall : s.modemCall M (s.in_buffer.take nin ++ s.modem_in.drop nin) = (m1, mo, nout))
    (hlen : nout ≤ mo.length) (hF : s.m_IntFilter.WellFormed) :
    ∃ s2 : SoundCardDV α μ, SoundCardDV.modemPhase M toInt16 nin s = some s2 ∧
      s.out_buffer.length ≤ s2.out_buffer.length ∧
      s2.out_buffer.length ≤ max s.out_buffer.length (10 * nout + 6) ∧
      (s.out_buffer.length ≤ 10 * nout + 6 → s2.out_buffer.length ≤ 10 * nout + 6) ∧
      (10 * nout < s.out_buffer.length → s2.out_buffer = s.out_buffer) := by
  obtain ⟨st, hst, _, h1, h2⟩ := interpLoop_bound toInt16 mo nout nout 0 s.out_buffer
    s.m_IntFilter hF (by omega)
  rw [ratio_eq] at h2
  rw [modemPhase_made M toInt16 nin s h hb m1 mo nout hcall, hst]
  refine ⟨_, rfl, h1, h2, fun h3 => le_trans h2 (max_le h3 (le_refl _)), fun h3 => ?_⟩
  show st.1 = s.out_buffer
  cases nout with
  | zero =>
    simp only [SoundCardDV.interpLoop, Option.some.injEq] at hst
    rw [← hst]
  | succ n =>
    rw [SoundCardDV.interpLoop, if_neg (by simpa using h3)] at hst
    rw [← Option.some.inj hst]

/-- Witness for the amended C13: the example device with ten queued output samples. -/
theorem C13_output_overflow_cap_witness :
    ∃ s2 : SoundCardDV ℚ Nat,
      SoundCardDV.modemPhase Example.modem truncToInt16 1
        ({ Example.card with in_buffer := [5, 6], out_buffer := List.replicate 10 0 } :
          SoundCardDV ℚ Nat) = some s2 ∧
      (List.replicate 10 (0 : Int)).length ≤ s2.out_buffer.length ∧
      s2.out_buffer.length ≤ max (List.replicate 10 (0 : Int)).length (10 * 1 + 6) ∧
      ((List.replicate 10 (0 : Int)).length ≤ 10 * 1 + 6 →
        s2.out_buffer.length ≤ 10 * 1 + 6) ∧
      (10 * 1 < (List.replicate 10 (0 : Int)).length →
        s2.out_buffer = List.replicate 10 (0 : Int)) :=
  C13_output_overflow_cap Example.modem truncToInt16 1
    ({ Example.card with in_buffer := [5, 6], out_buffer := List.replicate 10 0 } :
      SoundCardDV ℚ Nat) 1 [5] 1 (by decide) (by decide) rfl (by decide) (by decide)

/-- Counterexample to C13 as stated: with `nout = 1` and a queue of `10 = 10 * nout` samples,
the interpolation loop appends six samples and leaves a queue of 16 samples. -/
theorem C13_counterexample_queue_of_sixteen :
    (({ Example.card with in_buffer := [5, 6], out_buffer := List.replicate 10 0 } :
        SoundCardDV ℚ Nat).out_buffer.length ≤ 10 * 1) ∧
    (SoundCardDV.modemPhase Example.modem truncToInt16 1
        ({ Example.card with in_buffer := [5, 6], out_buffer := List.replicate 10 0 } :
          SoundCardDV ℚ Nat)).map (fun s2 => s2.out_buffer.length) = some 16 ∧
    ¬ (16 ≤ 10 * 1) := by
  refine ⟨by decide, ?_, by decide⟩
  rfl

/-- C14: the modem phase of an `RX`/`TX` callback.  With fewer than `nin` queued samples it
changes nothing (no modem call; `in_buffer`, `out_buffer` and the interpolation filter are the
same object state).  With at least `nin` queued samples the modem is called exactly once, on the
array whose first `nin` entries are the first `nin` queued samples in order, and `in_buffer`
keeps the remaining samples in order.  Every `RX`/`TX` callback that returns runs this phase
once, after the input loop, with `nin = freedv_nin()` in `RX` and `n_speech_samples` in `TX`,
and the frame drain that follows touches neither `in_buffer` nor the modem. -/
theorem C14_modem_exchange [LinearOrderedField α] (abs : α → α) (M : Modem μ) (toInt16 : α → Int)
    (nin : Nat) (s : SoundCardDV α μ) (m1 : μ) (mo : List Int) (nout : Nat)
    (hb : nin ≤ s.modem_in.length)
    (hcall : s.modemCall M (s.in_buffer.take nin ++ s.modem_in.drop nin) = (m1, mo, nout))
    (hlen : nout ≤ mo.length) (hF : s.m_IntFilter.WellFormed) :
    (s.in_buffer.length < nin → SoundCardDV.modemPhase M toInt16 nin s = some s) ∧
    (nin ≤ s.in_buffer.length →
      ∃ s2 : SoundCardDV α μ, SoundCardDV.modemPhase M toInt16 nin s = some s2 ∧
        s2.m_freedv = m1 ∧ s2.modem_out = mo ∧
        s2.modem_in = s.in_buffer.take nin ++ s.modem_in.drop nin ∧
        s2.in_buffer = s.in_buffer.drop nin ∧
        s.in_buffer = s2.modem_in.take nin ++ s2.in_buffer ∧
        (∀ i : Nat, i < nin → s2.modem_in[i]? = s.in_buffer[i]?) ∧
        (∀ i : Nat, s2.in_buffer[i]? = s.in_buffer[nin + i]?)) ∧
    (∀ (s0 : SoundCardDV α μ) (inp : List α) (count : Nat) (r : SoundCardDV α μ × List α),
      s0.mMode = ModesDV.RX ∨ s0.mMode = ModesDV.TX →
      SoundCardDV.event abs M toInt16 s0 inp count = some r →
      ∃ s1 s2 : SoundCardDV α μ,
        SoundCardDV.inputLoop abs toInt16 inp s0.channelsIn
            (if s0.mMode = ModesDV.RX then M.freedv_nin s0.m_freedv else s0.n_speech_samples)
            count 0 { s0 with m_Frames := (s0.m_Frames + 1) % 2 ^ 64 } = some s1 ∧
          SoundCardDV.modemPhase M toInt16
            (if s0.mMode = ModesDV.RX then M.freedv_nin s0.m_freedv else s0.n_speech_samples)
            s1 = some s2 ∧
          s2.drain count = some r ∧ r.1.in_buffer = s2.in_buffer ∧
          r.1.m_freedv = s2.m_freedv) := by
  refine ⟨modemPhase_skip M toInt16 nin s, fun h => ?_, ?_⟩
  · obtain ⟨st, hst, _, _, _⟩ := interpLoop_bound toInt16 mo nout nout 0 s.out_buffer
      s.m_IntFilter hF (by omega)
    rw [modemPhase_made M toInt16 nin s h hb m1 mo nout hcall, hst]
    have hlt : (s.in_buffer.take nin).length = nin := by
      rw [List.length_take, Nat.min_eq_left h]
    refine ⟨_, rfl, rfl, rfl, rfl, rfl, ?_, ?_, ?_⟩
    · show s.in_buffer = (s.in_buffer.take nin ++ s.modem_in.drop nin).take nin
        ++ s.in_buffer.drop nin
      rw [List.take_append_of_le_length (by omega), List.take_take, Nat.min_self,
        List.take_append_drop]
    · intro i hi
      show (s.in_buffer.take nin ++ s.modem_in.drop nin)[i]? = _
      rw [List.getElem?_append_left (by omega), List.getElem?_take_of_lt hi]
    · intro i
      show (s.in_buffer.drop nin)[i]? = _
      rw [List.getElem?_drop]
  · intro s0 inp count r hm hev
    obtain ⟨s1, s2, h1, h2, h3⟩ := event_rxtx M toInt16 s0 inp count hm r hev
    refine ⟨s1, s2, h1, h2, h3, ?_, ?_⟩
    · rw [drain_eq] at h3
      split at h3 <;> (rw [← Option.some.inj h3])
    · rw [drain_eq] at h3
      split at h3 <;> (rw [← Option.some.inj h3])

/-- Witness for C14: the example device with two queued input samples and `nin = 1`. -/
theorem C14_modem_exchange_witness :
    ((([3, 4] : List Int)).length < 1 → SoundCardDV.modemPhase Example.modem truncToInt16 1
        ({ Example.card with in_buffer := [3, 4] } : SoundCardDV ℚ Nat) =
          some ({ Example.card with in_buffer := [3, 4] } : SoundCardDV ℚ Nat)) ∧
    (1 ≤ ([3, 4] : List Int).length →
      ∃ s2 : SoundCardDV ℚ Nat, SoundCardDV.modemPhase Example.modem truncToInt16 1
          ({ Example.card with in_buffer := [3, 4] } : SoundCardDV ℚ Nat) = some s2 ∧
        s2.m_freedv = 1 ∧ s2.modem_out = [3] ∧
        s2.modem_in = ([3, 4] : List Int).take 1 ++ ([0] : List Int).drop 1 ∧
        s2.in_buffer = ([3, 4] : List Int).drop 1 ∧
        ([3, 4] : List Int) = s2.modem_in.take 1 ++ s2.in_buffer ∧
        (∀ i : Nat, i < 1 → s2.modem_in[i]? = ([3, 4] : List Int)[i]?) ∧
        (∀ i : Nat, s2.in_buffer[i]? = ([3, 4] : List Int)[1 + i]?)) ∧
    (∀ (s0 : SoundCardDV ℚ Nat) (inp : List ℚ) (count : Nat) (r : SoundCardDV ℚ Nat × List ℚ),
      s0.mMode = ModesDV.RX ∨ s0.mMode = ModesDV.TX →
      SoundCardDV.event abs_int Example.modem truncToInt16 s0 inp count = some r →
      ∃ s1 s2 : SoundCardDV ℚ Nat,
        SoundCardDV.inputLoop abs_int truncToInt16 inp s0.channelsIn
            (if s0.mMode = ModesDV.RX then Example.modem.freedv_nin s0.m_freedv
              else s0.n_speech_samples)
            count 0 { s0 with m_Frames := (s0.m_Frames + 1) % 2 ^ 64 } = some s1 ∧
          SoundCardDV.modemPhase Example.modem truncToInt16
            (if s0.mMode = ModesDV.RX then Example.modem.freedv_nin s0.m_freedv
              else s0.n_speech_samples)
            s1 = some s2 ∧
          s2.drain count = some r ∧ r.1.in_buffer = s2.in_buffer ∧
          r.1.m_freedv = s2.m_freedv) :=
  C14_modem_exchange abs_int Example.modem truncToInt16 1
    ({ Example.card with in_buffer := [3, 4] } : SoundCardDV ℚ Nat) 1 [3] 1 (by decide) rfl
    (by decide) (by decide)

/-- C15: when the modem call is made and returns the block `o_0 .. o_{nout-1}`, and the cap does
not stop the interpolation loop, the phase appends exactly `6 * nout` samples to the tail of
`out_buffer`: the converted outputs of the interpolation filter fed with each `o_i`, in order,
six times in a row. -/
theorem C15_interpolation [LinearOrderedField α] (M : Modem μ) (toInt16 : α → Int)
    (nin : Nat) (s : SoundCardDV α μ) (m1 : μ) (mo : List Int) (nout : Nat)
    (h : nin ≤ s.in_buffer.length) (hb : nin ≤ s.modem_in.length)
    (hcall : s.modemCall M (s.in_buffer.take nin ++ s.modem_in.drop nin) = (m1, mo, nout))
    (hlen : nout ≤ mo.length) (hF : s.m_IntFilter.WellFormed)
    (hcap : ∀ k : Nat, k < nout → s.out_buffer.length + 6 * k ≤ 10 * nout) :
    CARD_FS / MODEM_FS = 6 ∧
    ∃ (ys : List α) (F1 : FirFilter α) (s2 : SoundCardDV α μ),
      s.m_IntFilter.run ((mo.take nout).flatMap
        (fun o => List.replicate 6 ((o : Int) : α))) = some (ys, F1) ∧
      ys.length = 6 * nout ∧
      SoundCardDV.modemPhase M toInt16 nin s = some s2 ∧
      s2.out_buffer = s.out_buffer ++ ys.map toInt16 ∧
      s2.out_buffer.length = s.out_buffer.length + 6 * nout ∧
      s2.m_IntFilter = F1 := by
  refine ⟨ratio_eq, ?_⟩
  obtain ⟨ys, F1, h1, _, h3, h4⟩ := interpLoop_spec toInt16 mo nout nout 0 s.out_buffer
    s.m_IntFilter hF (by omega) (by rw [ratio_eq]; exact hcap)
  rw [ratio_eq, List.drop_zero] at h1
  rw [ratio_eq] at h3
  rw [modemPhase_made M toInt16 nin s h hb m1 mo nout hcall, h4]
  refine ⟨ys, F1, _, h1, h3, rfl, rfl, ?_, rfl⟩
  show (s.out_buffer ++ ys.map toInt16).length = _
  rw [List.length_append, List.length_map, h3]

/-- Witness for C15: the example device with one queued output sample and a block of one. -/
theorem C15_interpolation_witness :
    CARD_FS / MODEM_FS = 6 ∧
    ∃ (ys : List ℚ) (F1 : FirFilter ℚ) (s2 : SoundCardDV ℚ Nat),
      Example.unitFilter.run ((([3] : List Int).take 1).flatMap
        (fun o => List.replicate 6 ((o : Int) : ℚ))) = some (ys, F1) ∧
      ys.length = 6 * 1 ∧
      SoundCardDV.modemPhase Example.modem truncToInt16 1
        ({ Example.card with in_buffer := [3, 4], out_buffer := [8] } : SoundCardDV ℚ Nat)
          = some s2 ∧
      s2.out_buffer = [8] ++ ys.map truncToInt16 ∧
      s2.out_buffer.length = ([8] : List Int).length + 6 * 1 ∧
      s2.m_IntFilter = F1 :=
  C15_interpolation Example.modem truncToInt16 1
    ({ Example.card with in_buffer := [3, 4], out_buffer := [8] } : SoundCardDV ℚ Nat)
    1 [3] 1 (by decide) (by decide) rfl (by decide) (by decide)
    (by
      intro k hk
      simp only [Example.card, List.length_cons, List.length_nil]
      omega)

/-- C16: the frame drain of an `RX`/`TX` callback with frame length `count` and `co` output
channels writes exactly `count * co` samples.  If the output queue holds at least `count`
samples, the first `count` are popped in order and queued sample `i` divided by `SHRT_MAX` is
written to all `co` channels of frame `i`; otherwise every written value is 0 and the queue is
left unchanged.  Every `RX`/`TX` callback that returns ends with this phase, and what the phase
writes is what the callback writes. -/
theorem C16_frame_drain [LinearOrderedField α] (abs : α → α) (M : Modem μ) (toInt16 : α → Int)
    (s2 : SoundCardDV α μ) (count : Nat) :
    (∃ (s3 : SoundCardDV α μ) (out : List α), s2.drain count = some (s3, out) ∧
      out.length = count * s2.channelsOut ∧
      (count ≤ s2.out_buffer.length →
        s3 = { s2 with out_buffer := s2.out_buffer.drop count } ∧
        ∀ (i j : Nat) (x : Int), i < count → j < s2.channelsOut → s2.out_buffer[i]? = some x →
          out[i * s2.channelsOut + j]? = some (((x : Int) : α) / ((SHRT_MAX : Int) : α))) ∧
      (s2.out_buffer.length < count →
        s3 = s2 ∧ out = List.replicate (count * s2.channelsOut) 0)) ∧
    (∀ (s : SoundCardDV α μ) (inp : List α) (r : SoundCardDV α μ × List α),
      s.mMode = ModesDV.RX ∨ s.mMode = ModesDV.TX →
      SoundCardDV.event abs M toInt16 s inp count = some r →
      ∃ s1 s2 : SoundCardDV α μ,
        SoundCardDV.inputLoop abs toInt16 inp s.channelsIn
            (if s.mMode = ModesDV.RX then M.freedv_nin s.m_freedv else s.n_speech_samples)
            count 0 { s with m_Frames := (s.m_Frames + 1) % 2 ^ 64 } = some s1 ∧
          SoundCardDV.modemPhase M toInt16
            (if s.mMode = ModesDV.RX then M.freedv_nin s.m_freedv else s.n_speech_samples)
            s1 = some s2 ∧
          s2.drain count = some r) := by
  refine ⟨?_, fun s inp r hm h => event_rxtx M toInt16 s inp count hm r h⟩
  rw [drain_eq]
  by_cases h : count ≤ s2.out_buffer.length
  · rw [if_pos h]
    refine ⟨_, _, rfl, ?_, fun _ => ⟨rfl, ?_⟩, fun h1 => absurd h (by omega)⟩
    · rw [length_flatMap_replicate, List.length_take, Nat.min_eq_left h]
    · intro i j x hi hj hx
      exact getElem?_flatMap_replicate _ _ _ i j x
        (by rw [List.getElem?_take_of_lt hi]; exact hx) hj
  · rw [if_neg h]
    exact ⟨_, _, rfl, by simp, fun h1 => absurd h1 h, fun _ => ⟨rfl, rfl⟩⟩

/-- C17 (as amended): for every 16-bit content of the output queue, every output sample that the
frame drain of an `RX`/`TX` callback writes lies in `[-32768/32767, 1]`, and in `[-1, 1]` when
none of the drained samples is `-32768`; the same value is written to all output channels of a
frame. -/
theorem C17_output_range [LinearOrderedField α] (s2 : SoundCardDV α μ) (count : Nat)
    (h16 : ∀ x ∈ s2.out_buffer, -32768 ≤ x ∧ x ≤ 32767) :
    ∃ (s3 : SoundCardDV α μ) (out : List α), s2.drain count = some (s3, out) ∧
      (∀ v ∈ out, -(32768 / 32767 : α) ≤ v ∧ v ≤ 1) ∧
      ((∀ x ∈ s2.out_buffer.take count, x ≠ -32768) → ∀ v ∈ out, -1 ≤ v ∧ v ≤ 1) ∧
      (∀ i j : Nat, i < count → j < s2.channelsOut →
        out[i * s2.channelsOut + j]? = out[i * s2.channelsOut]?) := by
  have hpos : (0 : α) < 32767 := by norm_num
  have hS : (((SHRT_MAX : Int) : α)) = 32767 := by
    unfold SHRT_MAX
    norm_num
  rw [drain_eq]
  by_cases h : count ≤ s2.out_buffer.length
  · rw [if_pos h]
    refine ⟨_, _, rfl, ?_, ?_, ?_⟩
    · intro v hv
      rw [List.mem_flatMap] at hv
      obtain ⟨x, hx, hv⟩ := hv
      rw [List.eq_of_mem_replicate hv, hS]
      obtain ⟨h1, h2⟩ := h16 x (List.mem_of_mem_take hx)
      have h1' : (-32768 : α) ≤ (x : α) := by exact_mod_cast h1
      have h2' : (x : α) ≤ 32767 := by exact_mod_cast h2
      constructor
      · rw [← neg_div, div_le_div_iff_of_pos_right hpos]
        exact h1'
      · rw [div_le_one hpos]
        exact h2'
    · intro hne v hv
      rw [List.mem_flatMap] at hv
      obtain ⟨x, hx, hv⟩ := hv
      rw [List.eq_of_mem_replicate hv, hS]
      obtain ⟨h1, h2⟩ := h16 x (List.mem_of_mem_take hx)
      have h3 : -32767 ≤ x := by
        have := hne x hx
        omega
      have h1' : (-32767 : α) ≤ (x : α) := by exact_mod_cast h3
      have h2' : (x : α) ≤ 32767 := by exact_mod_cast h2
      constructor
      · rw [le_div_iff₀ hpos]
        linarith
      · rw [div_le_one hpos]
        exact h2'
    · intro i j hi hj
      have hi1 : i < (s2.out_buffer.take count).length := by
        rw [List.length_take, Nat.min_eq_left h]
        exact hi
      have hx := List.getElem?_eq_getElem hi1
      have hco : 0 < s2.channelsOut := by omega
      rw [getElem?_flatMap_replicate _ _ _ i j _ hx hj]
      have := getElem?_flatMap_replicate
        (fun x : Int => ((x : Int) : α) / ((SHRT_MAX : Int) : α)) s2.channelsOut
        (s2.out_buffer.take count) i 0 _ hx hco
      rw [Nat.add_zero] at this
      rw [this]
  · rw [if_neg h]
    refine ⟨_, _, rfl, ?_, ?_, ?_⟩
    · intro v hv
      rw [List.eq_of_mem_replicate hv]
      constructor
      · have : (0 : α) ≤ 32768 / 32767 := by positivity
        linarith
      · exact zero_le_one
    · intro _ v hv
      rw [List.eq_of_mem_replicate hv]
      constructor
      · linarith [zero_le_one (α := α)]
      · exact zero_le_one
    · intro i j hi hj
      have h1 : i * s2.channelsOut + j < count * s2.channelsOut := by
        calc i * s2.channelsOut + j < i * s2.channelsOut + s2.channelsOut := by omega
          _ = (i + 1) * s2.channelsOut := by ring
          _ ≤ count * s2.channelsOut := Nat.mul_le_mul_right _ hi
      have h2 : i * s2.channelsOut < count * s2.channelsOut := by omega
      rw [List.getElem?_replicate, List.getElem?_replicate, if_pos h1, if_pos h2]

/-- Witness for the amended C17: a queue of three 16-bit samples drained by a frame of two. -/
theorem C17_output_range_witness :
    ∃ (s3 : SoundCardDV ℚ Nat) (out : List ℚ),
      ({ Example.card with out_buffer := [32767, -32768, 5] } : SoundCardDV ℚ Nat).drain 2
        = some (s3, out) ∧
      (∀ v ∈ out, -(32768 / 32767 : ℚ) ≤ v ∧ v ≤ 1) ∧
      ((∀ x ∈ ([32767, -32768, 5] : List Int).take 2, x ≠ -32768) →
        ∀ v ∈ out, -1 ≤ v ∧ v ≤ 1) ∧
      (∀ i j : Nat, i < 2 → j < 2 → out[i * 2 + j]? = out[i * 2]?) :=
  C17_output_range ({ Example.card with out_buffer := [32767, -32768, 5] } : SoundCardDV ℚ Nat)
    2 (by decide)

/-- Counterexample to C17 as stated: in `TX` mode with the 16-bit sample `-32768` at the head of
the output queue, a callback of one frame writes `-32768/32767` to both output channels, which
is below `-1`. -/
theorem C17_counterexample_most_negative_sample :
    (SoundCardDV.event abs_int Example.modem truncToInt16
        ({ Example.card with out_buffer := [-32768] } : SoundCardDV ℚ Nat) [0, 0] 1).map
          (fun r => r.2) = some [-32768 / 32767, -32768 / 32767] ∧
      ¬ ((-1 : ℚ) ≤ -32768 / 32767) := by
  constructor
  · rfl
  · norm_num

/-- C18: `mode(newMode)` returns false and leaves the object unchanged for every value outside
the four valid states (numeric value above 3), and for each of the four valid values it returns
true, changes nothing but the mode, and an immediately following `mode()` returns that value. -/
theorem C18_mode_request (s : SoundCardDV α μ) (newMode : ModesDV) :
    ((newMode = ModesDV.Mute ∨ newMode = ModesDV.Pass ∨ newMode = ModesDV.RX ∨
        newMode = ModesDV.TX) ↔ newMode ≤ 3) ∧
    (¬ (newMode = ModesDV.Mute ∨ newMode = ModesDV.Pass ∨ newMode = ModesDV.RX ∨
        newMode = ModesDV.TX) →
      (s.setMode newMode).1 = false ∧ (s.setMode newMode).2 = s ∧
        (s.setMode newMode).2.mode = s.mode) ∧
    ((newMode = ModesDV.Mute ∨ newMode = ModesDV.Pass ∨ newMode = ModesDV.RX ∨
        newMode = ModesDV.TX) →
      (s.setMode newMode).1 = true ∧ (s.setMode newMode).2.mode = newMode ∧
        (s.setMode newMode).2 = { s with mMode := newMode }) := by
  have hv0 : ∀ n : Nat, (n = 0 ∨ n = 1 ∨ n = 2 ∨ n = 3) ↔ n ≤ 3 := by
    intro n
    omega
  have hg0 : ∀ n : Nat, (n < 0 ∨ n > 3) ↔ ¬ n ≤ 3 := by
    intro n
    omega
  have hv : (newMode = ModesDV.Mute ∨ newMode = ModesDV.Pass ∨ newMode = ModesDV.RX ∨
        newMode = ModesDV.TX) ↔ newMode ≤ 3 := hv0 newMode
  have hg : (newMode < ModesDV.MinValue ∨ newMode > ModesDV.MaxValue) ↔ ¬ newMode ≤ 3 :=
    hg0 newMode
  refine ⟨hv, ?_, ?_⟩
  · intro h
    have h1 : newMode < ModesDV.MinValue ∨ newMode > ModesDV.MaxValue :=
      hg.mpr (fun h2 => h (hv.mpr h2))
    unfold SoundCardDV.setMode
    rw [if_pos h1]
    exact ⟨rfl, rfl, rfl⟩
  · intro h
    have h1 : ¬ (newMode < ModesDV.MinValue ∨ newMode > ModesDV.MaxValue) :=
      fun h2 => hg.mp h2 (hv.mp h)
    unfold SoundCardDV.setMode
    rw [if_neg h1]
    exact ⟨rfl, rfl, rfl⟩

/-- C19: the audio callback never changes the mode; the mode is `Mute` after construction (and
construction with a modem handle does return an object); in one operation the mode changes only
through a `mode(newMode)` request that returns true, and then to `newMode`; so after any
sequence of callbacks, mode requests and clip queries on a constructed object the mode is one of
`Mute`, `Pass`, `RX`, `TX`.  (`abs` is the function of that name called by the clip tests of the
callback, `absGain` the one called by `CalculateGain` during construction.) -/
theorem C19_no_hidden_transitions [LinearOrderedField α] (abs absGain : α → α) (M : Modem μ)
    (toInt16 : α → Int) (sin cos : α → α) (pi : α) (ci co : Nat) (n1 n2 n3 : Nat) :
    (∀ (s : SoundCardDV α μ) (inp : List α) (count : Nat) (r : SoundCardDV α μ × List α),
      SoundCardDV.event abs M toInt16 s inp count = some r → r.1.mode = s.mode) ∧
    (∀ freedv : μ, ∃ s0 : SoundCardDV α μ,
      SoundCardDV.new absGain sin cos pi ci co (some freedv) n1 n2 n3 = .ok s0) ∧
    (∀ (opened : Option μ) (s0 : SoundCardDV α μ),
      SoundCardDV.new absGain sin cos pi ci co opened n1 n2 n3 = .ok s0 → s0.mode = ModesDV.Mute) ∧
    (∀ (s s1 : SoundCardDV α μ) (op : SoundCardDV.Op α),
      SoundCardDV.step abs M toInt16 s op = some s1 → s1.mode ≠ s.mode →
      ∃ newMode : ModesDV, op = .mode newMode ∧ (s.setMode newMode).1 = true ∧
        s1.mode = newMode) ∧
    (∀ (opened : Option μ) (s0 s : SoundCardDV α μ) (ops : List (SoundCardDV.Op α)),
      SoundCardDV.new absGain sin cos pi ci co opened n1 n2 n3 = .ok s0 →
      SoundCardDV.steps abs M toInt16 s0 ops = some s →
      s.mode = ModesDV.Mute ∨ s.mode = ModesDV.Pass ∨ s.mode = ModesDV.RX ∨
        s.mode = ModesDV.TX) := by
  refine ⟨fun s inp count r h => event_mMode M toInt16 s inp count r h, ?_,
    fun opened s0 h => new_mMode sin cos pi ci co opened n1 n2 n3 s0 h,
    fun s s1 op h hne => step_mMode M toInt16 s s1 op h hne, ?_⟩
  · intro freedv
    obtain ⟨F, _, hs⟩ := @new_eq α μ absGain _ sin cos pi ci co freedv n1 n2 n3
    exact ⟨_, hs⟩
  · intro opened s0 s ops hnew hsteps
    have h0 : s0.mMode ≤ 3 := by
      rw [new_mMode sin cos pi ci co opened n1 n2 n3 s0 hnew]
      decide
    have h3 := steps_mMode M toInt16 ops s0 s h0 hsteps
    have hv0 : ∀ n : Nat, n ≤ 3 → n = 0 ∨ n = 1 ∨ n = 2 ∨ n = 3 := by
      intro n hn
      omega
    exact hv0 s.mMode h3

/-- C20: in `Mute` mode the callback returns, writes 0 to all `count * co` output samples,
ignores the input, and leaves everything but the frame counter unchanged: `in_buffer`,
`out_buffer`, `dec_ctr`, both filters (history and cursor included) and the clip flag. -/
theorem C20_mute_writes_silence [LinearOrderedField α] (abs : α → α) (M : Modem μ)
    (toInt16 : α → Int)
    (s : SoundCardDV α μ) (hm : s.mMode = ModesDV.Mute) (inp : List α) (count : Nat) :
    ∃ (s1 : SoundCardDV α μ) (out : List α),
      SoundCardDV.event abs M toInt16 s inp count = some (s1, out) ∧
      out = List.replicate (count * s.channelsOut) 0 ∧
      (∀ inp1 : List α,
        SoundCardDV.event abs M toInt16 s inp1 count = SoundCardDV.event abs M toInt16 s inp count) ∧
      s1 = { s with m_Frames := (s.m_Frames + 1) % 2 ^ 64 } ∧
      s1.in_buffer = s.in_buffer ∧ s1.out_buffer = s.out_buffer ∧ s1.dec_ctr = s.dec_ctr ∧
      s1.m_DecFilter = s.m_DecFilter ∧ s1.m_IntFilter = s.m_IntFilter ∧
      s1.clipping = s.clipping := by
  have key : ∀ inp1 : List α, SoundCardDV.event abs M toInt16 s inp1 count
      = some ({ s with m_Frames := (s.m_Frames + 1) % 2 ^ 64 },
          List.replicate (count * s.channelsOut) 0) := by
    intro inp1
    unfold SoundCardDV.event
    simp only [if_pos hm, muteLoop_eq]
  exact ⟨_, _, key inp, rfl, fun inp1 => by rw [key inp1, key inp], rfl, rfl, rfl, rfl, rfl, rfl,
    rfl⟩

/-- Witness for C20: the example device switched to `Mute`, three frames. -/
theorem C20_mute_writes_silence_witness :
    ∃ (s1 : SoundCardDV ℚ Nat) (out : List ℚ),
      SoundCardDV.event abs_int Example.modem truncToInt16
        ({ Example.card with mMode := ModesDV.Mute, in_buffer := [7] } : SoundCardDV ℚ Nat)
        [1, 1, 1, 1, 1, 1] 3 = some (s1, out) ∧
      out = List.replicate (3 * 2) 0 ∧
      (∀ inp1 : List ℚ,
        SoundCardDV.event abs_int Example.modem truncToInt16
          ({ Example.card with mMode := ModesDV.Mute, in_buffer := [7] } : SoundCardDV ℚ Nat)
          inp1 3 =
        SoundCardDV.event abs_int Example.modem truncToInt16
          ({ Example.card with mMode := ModesDV.Mute, in_buffer := [7] } : SoundCardDV ℚ Nat)
          [1, 1, 1, 1, 1, 1] 3) ∧
      s1 = { ({ Example.card with mMode := ModesDV.Mute, in_buffer := [7] } :
          SoundCardDV ℚ Nat) with m_Frames := (0 + 1) % 2 ^ 64 } ∧
      s1.in_buffer = [7] ∧ s1.out_buffer = [] ∧ s1.dec_ctr = 0 ∧
      s1.m_DecFilter = Example.unitFilter ∧ s1.m_IntFilter = Example.unitFilter ∧
      s1.clipping = false :=
  C20_mute_writes_silence abs_int Example.modem truncToInt16
    ({ Example.card with mMode := ModesDV.Mute, in_buffer := [7] } : SoundCardDV ℚ Nat) rfl
    [1, 1, 1, 1, 1, 1] 3

/-- C21: in `Pass` mode, when the reads stay inside the input buffer, the callback returns and
writes `count * co` samples: for every frame `i < count` and every output channel `j < co`,
`out[i * co + j]` is `in[i * ci]`, the unfiltered sample of the first input channel; nothing but
the frame counter changes: `in_buffer`, `out_buffer`, `dec_ctr`, both filters and the clip flag
are as before. -/
theorem C21_pass_copies_first_channel [LinearOrderedField α] (abs : α → α) (M : Modem μ)
    (toInt16 : α → Int)
    (s : SoundCardDV α μ) (hm : s.mMode = ModesDV.Pass) (inp : List α) (count : Nat)
    (hin : ∀ i : Nat, i < count → i * s.channelsIn < inp.length) :
    ∃ (s1 : SoundCardDV α μ) (out : List α),
      SoundCardDV.event abs M toInt16 s inp count = some (s1, out) ∧
      out.length = count * s.channelsOut ∧
      (∀ i j : Nat, i < count → j < s.channelsOut →
        out[i * s.channelsOut + j]? = inp[i * s.channelsIn]?) ∧
      s1 = { s with m_Frames := (s.m_Frames + 1) % 2 ^ 64 } ∧
      s1.in_buffer = s.in_buffer ∧ s1.out_buffer = s.out_buffer ∧ s1.dec_ctr = s.dec_ctr ∧
      s1.m_DecFilter = s.m_DecFilter ∧ s1.m_IntFilter = s.m_IntFilter ∧
      s1.clipping = s.clipping := by
  have hne : ¬ s.mMode = ModesDV.Mute := by rw [hm]; decide
  have key : SoundCardDV.event abs M toInt16 s inp count
      = some ({ s with m_Frames := (s.m_Frames + 1) % 2 ^ 64 },
          (List.range count).flatMap
            (fun i => List.replicate s.channelsOut (inp.getD (i * s.channelsIn) 0))) := by
    unfold SoundCardDV.event
    simp only [if_neg hne, if_pos hm]
    rw [passLoop_eq inp s.channelsIn s.channelsOut count hin 0]
  refine ⟨_, _, key, ?_, ?_, rfl, rfl, rfl, rfl, rfl, rfl, rfl⟩
  · rw [length_flatMap_replicate, List.length_range]
  · intro i j hi hj
    rw [getElem?_eq_some_getD inp 0 (i * s.channelsIn) (hin i hi)]
    exact getElem?_flatMap_replicate (fun i => inp.getD (i * s.channelsIn) 0) s.channelsOut
      (List.range count) i j i (by rw [List.getElem?_range hi]) hj

/-- Witness for C21: the example device switched to `Pass`, three stereo frames. -/
theorem C21_pass_copies_first_channel_witness :
    ∃ (s1 : SoundCardDV ℚ Nat) (out : List ℚ),
      SoundCardDV.event abs_int Example.modem truncToInt16
        ({ Example.card with mMode := ModesDV.Pass, in_buffer := [7], clipping := true } :
          SoundCardDV ℚ Nat) [1, 2, 3, 4, 5, 6] 3 = some (s1, out) ∧
      out.length = 3 * 2 ∧
      (∀ i j : Nat, i < 3 → j < 2 →
        out[i * 2 + j]? = ([1, 2, 3, 4, 5, 6] : List ℚ)[i * 2]?) ∧
      s1 = { ({ Example.card with mMode := ModesDV.Pass, in_buffer := [7], clipping := true } :
          SoundCardDV ℚ Nat) with m_Frames := (0 + 1) % 2 ^ 64 } ∧
      s1.in_buffer = [7] ∧ s1.out_buffer = [] ∧ s1.dec_ctr = 0 ∧
      s1.m_DecFilter = Example.unitFilter ∧ s1.m_IntFilter = Example.unitFilter ∧
      s1.clipping = true :=
  C21_pass_copies_first_channel abs_int Example.modem truncToInt16
    ({ Example.card with mMode := ModesDV.Pass, in_buffer := [7], clipping := true } :
      SoundCardDV ℚ Nat) rfl [1, 2, 3, 4, 5, 6] 3
    (by
      intro i hi
      simp only [Example.card, List.length_cons, List.length_nil]
      omega)

/-- C24 (as amended): every callback that returns, in every mode, adds 1 to `frames()` modulo
`2 ^ 64`, that is exactly 1 unless the counter is at `2 ^ 64 - 1`; in `Mute` mode the callback
always returns; and `mode(newMode)`, `squelch(value)`, `threshold(value)`, `text(s)` and
`clipped()` leave the counter as it is. -/
theorem C24_frame_counter [LinearOrderedField α] (abs : α → α) (M : Modem μ) (toInt16 : α → Int)
    (C : ModemControl α μ) (d : Device α μ) :
    (∀ (inp : List α) (count : Nat) (r : SoundCardDV α μ × List α),
      SoundCardDV.event abs M toInt16 d.card inp count = some r →
      r.1.frames = (d.card.frames + 1) % 2 ^ 64 ∧
      (d.card.frames + 1 < 2 ^ 64 → r.1.frames = d.card.frames + 1)) ∧
    (d.card.mMode = ModesDV.Mute → ∀ (inp : List α) (count : Nat),
      ∃ r : SoundCardDV α μ × List α, SoundCardDV.event abs M toInt16 d.card inp count = some r) ∧
    (∀ newMode : ModesDV, (d.setMode newMode).2.frames = d.frames) ∧
    (∀ value : Bool, (d.setSquelch C value).frames = d.frames) ∧
    (∀ value : α, (d.setThreshold C value).frames = d.frames) ∧
    (∀ (s : List Char) (d1 : Device α μ), d.setText s = some d1 → d1.frames = d.frames) ∧
    d.clipped.2.frames = d.frames := by
  refine ⟨fun inp count r h => ?_, fun hm inp count => ?_, fun newMode => ?_, fun _ => rfl,
    fun _ => rfl, fun s d1 h => ?_, rfl⟩
  · have hf := event_frames M toInt16 d.card inp count r h
    refine ⟨hf, fun hlt => ?_⟩
    show r.1.m_Frames = d.card.m_Frames + 1
    rw [hf]
    exact Nat.mod_eq_of_lt hlt
  · unfold SoundCardDV.event
    simp only [if_pos hm]
    exact ⟨_, rfl⟩
  · show (d.card.setMode newMode).2.m_Frames = d.card.m_Frames
    unfold SoundCardDV.setMode
    split <;> rfl
  · unfold Device.setText at h
    split at h
    · cases h
    · rw [← Option.some.inj h]
      rfl

/-- Counterexample to C24 as stated: with the 64-bit counter at `2 ^ 64 - 1`, a callback (here
in `Mute` mode, no frames) leaves `frames()` at 0, which is not one more than before. -/
theorem C24_counterexample_counter_wraps :
    (SoundCardDV.event abs_int Example.modem truncToInt16
        ({ Example.card with mMode := ModesDV.Mute, m_Frames := 2 ^ 64 - 1 } :
          SoundCardDV ℚ Nat) [] 0).map (fun r => r.1.frames) = some 0 ∧
    ({ Example.card with mMode := ModesDV.Mute, m_Frames := 2 ^ 64 - 1 } :
        SoundCardDV ℚ Nat).frames = 18446744073709551615 ∧
    ¬ (0 = 18446744073709551615 + 1) := by
  refine ⟨?_, ?_, by decide⟩
  · rfl
  · rfl

/-- C25: on a text buffer of 128 characters.  For every non-empty `s` of at most 127 characters
without terminator, `text(s)` followed by `text()` returns `s`; `text("")` stores
`DEFAULT_TEXT`; in both cases the buffer keeps its 128 characters and the read cursor is reset,
so that the next character handed to the modem is the first character of the stored text.  But
`text(s)` is not bounded: for every `s` of 128 or more characters without terminator the copy
runs past the end of the buffer (`none`: undefined behaviour), for instance for 128 times
`A`. -/
theorem C25_text_round_trip_and_unbounded_copy (d : Device α μ)
    (hlen : d.cb_state.tx_str.length = 128) :
    (∀ s : List Char, s ≠ [] → s.length ≤ 127 → NUL ∉ s →
      ∃ d1 : Device α μ, d.setText s = some d1 ∧ d1.text = some s ∧
        d1.cb_state.tx_str.length = 128 ∧ d1.cb_state.ptx_str = 0 ∧
        (local_get_next_tx_char d1.cb_state).map (fun r => r.1) = s.head?) ∧
    (∃ d1 : Device α μ, d.setText [] = some d1 ∧ d1.text = some DEFAULT_TEXT ∧
        d1.cb_state.tx_str.length = 128 ∧ d1.cb_state.ptx_str = 0 ∧
        (local_get_next_tx_char d1.cb_state).map (fun r => r.1) = DEFAULT_TEXT.head?) ∧
    (∀ s : List Char, s ≠ [] → NUL ∉ s → 128 ≤ s.length → d.setText s = none) ∧
    d.setText (List.replicate 128 'A') = none := by
  have next : ∀ (t : List Char) (d1 : Device α μ), t ≠ [] → t.length ≤ 127 →
      d1 = { d with cb_state := { d.cb_state with
        tx_str := t ++ NUL :: d.cb_state.tx_str.drop (t.length + 1), ptx_str := 0 } } →
      (local_get_next_tx_char d1.cb_state).map (fun r => r.1) = t.head? := by
    intro t d1 ht hl hd
    subst hd
    cases t with
    | nil => exact absurd rfl ht
    | cons c t =>
      unfold local_get_next_tx_char
      simp only [List.cons_append, List.getElem?_cons_zero, List.head?_cons, Nat.zero_add]
      have hx : ∃ x, (c :: (t ++ NUL :: List.drop ((c :: t).length + 1) d.cb_state.tx_str))[1]?
          = some x := by
        cases t with
        | nil => exact ⟨NUL, by simp⟩
        | cons c2 t => exact ⟨c2, by simp⟩
      obtain ⟨x, hx⟩ := hx
      rw [hx]
      simp only []
      split <;> rfl
  have over : ∀ s : List Char, s ≠ [] → NUL ∉ s → 128 ≤ s.length → d.setText s = none := by
    intro s hs hn hl
    unfold Device.setText strcpy
    have he : s.isEmpty = false := by
      cases s with
      | nil => exact absurd rfl hs
      | cons _ _ => rfl
    simp only [he, Bool.false_eq_true, if_false]
    rw [takeWhile_no_terminator s hn, if_neg (by omega)]
  refine ⟨fun s hs hl hn => ?_, ?_, over, ?_⟩
  · have he : s.isEmpty = false := by
      cases s with
      | nil => exact absurd rfl hs
      | cons _ _ => rfl
    obtain ⟨d1, h1, h2, h3, h4⟩ := setText_fits d s s (by rw [he]; rfl) hn (by omega)
    exact ⟨d1, h1, h3, by rw [h4, hlen], by rw [h2], next s d1 hs hl h2⟩
  · obtain ⟨d1, h1, h2, h3, h4⟩ := setText_fits d [] DEFAULT_TEXT rfl DEFAULT_TEXT_no_terminator
      (by rw [hlen]; exact Nat.le_of_ble_eq_true rfl)
    exact ⟨d1, h1, h3, by rw [h4, hlen], by rw [h2], next DEFAULT_TEXT d1 (by decide)
      (Nat.le_of_ble_eq_true rfl) h2⟩
  · exact over _ (by simp) (by simp [List.mem_replicate, NUL]) (by simp)

/-- Witness for C25: the example device, whose text buffer has 128 characters. -/
theorem C25_text_round_trip_and_unbounded_copy_witness :
    (∀ s : List Char, s ≠ [] → s.length ≤ 127 → NUL ∉ s →
      ∃ d1 : Device ℚ Nat, Example.device.setText s = some d1 ∧ d1.text = some s ∧
        d1.cb_state.tx_str.length = 128 ∧ d1.cb_state.ptx_str = 0 ∧
        (local_get_next_tx_char d1.cb_state).map (fun r => r.1) = s.head?) ∧
    (∃ d1 : Device ℚ Nat, Example.device.setText [] = some d1 ∧
        d1.text = some DEFAULT_TEXT ∧
        d1.cb_state.tx_str.length = 128 ∧ d1.cb_state.ptx_str = 0 ∧
        (local_get_next_tx_char d1.cb_state).map (fun r => r.1) = DEFAULT_TEXT.head?) ∧
    (∀ s : List Char, s ≠ [] → NUL ∉ s → 128 ≤ s.length → Example.device.setText s = none) ∧
    Example.device.setText (List.replicate 128 'A') = none :=
  C25_text_round_trip_and_unbounded_copy Example.device rfl

/-- C26: what `SplitCommand` computes for every line: `cmd` is the upper-cased text before the
first `=`, and `arg` is the text after the first `=` with every further `=` removed.  So `cmd`
is the whole upper-cased line and `arg` is empty when the line has no `=`, and `arg` is the
text after the `=` as typed when the line has exactly one; but for `TEXT=a=b` the argument is
`ab`, not `a=b`. -/
theorem C26_split_command_drops_later_equals_signs (input : List Char) :
    (SplitCommand input).2.1 = my.toUpper (input.takeWhile (fun c => c != '=')) ∧
    (SplitCommand input).2.2
      = (input.dropWhile (fun c => c != '=')).filter (fun c => c != '=') ∧
    ('=' ∉ input → (SplitCommand input).2.1 = my.toUpper input ∧ (SplitCommand input).2.2 = []) ∧
    (∀ a b : List Char, input = a ++ '=' :: b → '=' ∉ a → '=' ∉ b →
      (SplitCommand input).2.1 = my.toUpper a ∧ (SplitCommand input).2.2 = b) ∧
    (SplitCommand "TEXT=a=b".toList).2.2 = "ab".toList ∧
    (SplitCommand "TEXT=a=b".toList).2.2 ≠ "a=b".toList := by
  obtain ⟨h1, h2⟩ := SplitCommand_eq input
  refine ⟨h1, h2, fun h => ?_, fun a b hab ha hb => ?_, by decide, by decide⟩
  · have ht : input.takeWhile (fun c => c != '=') = input := by
      rw [List.takeWhile_eq_self_iff]
      intro c hc
      simpa using fun e : c = '=' => h (e ▸ hc)
    have hd : input.dropWhile (fun c => c != '=') = [] := by
      rw [List.dropWhile_eq_nil_iff]
      intro c hc
      simpa using fun e : c = '=' => h (e ▸ hc)
    rw [h1, h2, ht, hd]
    exact ⟨rfl, rfl⟩
  · have hpa : ∀ c ∈ a, (fun c => c != '=') c = true := by
      intro c hc
      simpa using fun e : c = '=' => ha (e ▸ hc)
    have ht : input.takeWhile (fun c => c != '=') = a := by
      rw [hab, List.takeWhile_append_of_pos hpa, List.takeWhile_cons_of_neg (by simp)]
      simp
    have hd : input.dropWhile (fun c => c != '=') = '=' :: b := by
      rw [hab, List.dropWhile_append_of_pos hpa, List.dropWhile_cons_of_neg (by simp)]
    rw [h1, h2, ht, hd, List.filter_cons_of_neg (by simp)]
    refine ⟨rfl, ?_⟩
    rw [List.filter_eq_self]
    intro c hc
    simpa using fun e : c = '=' => hb (e ▸ hc)

/-- C29: the two filters that the constructor of `SoundCardDV` builds (`LowPass`,
`FILTER_LEN = 15`, `FILTER_COF = 2800`, `CARD_FS = 48000`, Hamming window), over the reals.

With `int abs(int)` in `CalculateGain`: each of the 15 pre-normalization taps lies strictly
between 0 and 1 and is converted to the `int` 0, so `OverallGain` is 0, `GainCorrection` stays 1
and the stored taps are the pre-normalization taps.  They are positive, but their sum is at
most `1337 / 1500`, not 1: the response to a constant input 1 is that sum from the 15th output
on, below every one of the last 15 inputs.

With the floating-point `abs` the claim holds: 15 stored taps, all strictly positive, with sum
exactly 1; the response to a constant input 1 is exactly 1 from the 15th output on, and for
every input sequence each output lies between any lower and upper bound on the last 15 inputs
(the inputs before the first count as 0, the initial content of the ring). -/
theorem C29_deployed_filters_are_convex (ci co : Nat) (freedv : μ) (n1 n2 n3 : Nat) :
    (∃ (F : FirFilter ℝ) (s : SoundCardDV ℝ μ),
      FirFilter.new1 abs_int Real.sin Real.pi FirFilter.Types.LowPass FILTER_LEN
        ((FILTER_COF : Nat) : ℝ) CARD_FS (HammingWindow Real.cos Real.pi) = .ok F ∧
      SoundCardDV.new abs_int Real.sin Real.cos Real.pi ci co (some freedv) n1 n2 n3 = .ok s ∧
      s.m_DecFilter = F ∧ s.m_IntFilter = F ∧
      F.m_Coefs.length = 15 ∧ F.Length = 15 ∧
      F.OverallGain = 0 ∧ F.GainCorrection = 1 ∧
      F.m_Coefs = deployedTaps Real.sin Real.cos Real.pi ∧
      (∀ c ∈ F.m_Coefs, 0 < c ∧ c < 1) ∧ F.m_Coefs.sum ≤ 1337 / 1500 ∧ F.m_Coefs.sum ≠ 1 ∧
      (∀ n : Nat, ∃ (outs : List ℝ) (F1 : FirFilter ℝ),
        F.run (List.replicate n 1) = some (outs, F1) ∧ outs.length = n ∧
        ∀ m : Nat, 15 ≤ m → m ≤ n →
          outs[m - 1]? = some F.m_Coefs.sum ∧ F.m_Coefs.sum < 1)) ∧
    (∃ (F : FirFilter ℝ) (s : SoundCardDV ℝ μ),
      FirFilter.new1 abs_float Real.sin Real.pi FirFilter.Types.LowPass FILTER_LEN
        ((FILTER_COF : Nat) : ℝ) CARD_FS (HammingWindow Real.cos Real.pi) = .ok F ∧
      SoundCardDV.new abs_float Real.sin Real.cos Real.pi ci co (some freedv) n1 n2 n3 = .ok s ∧
      s.m_DecFilter = F ∧ s.m_IntFilter = F ∧
      F.m_Coefs.length = 15 ∧ F.Length = 15 ∧ (∀ c ∈ F.m_Coefs, 0 < c) ∧ F.m_Coefs.sum = 1 ∧
      (∀ n : Nat, ∃ (outs : List ℝ) (F1 : FirFilter ℝ),
        F.run (List.replicate n 1) = some (outs, F1) ∧ outs.length = n ∧
        ∀ m : Nat, 15 ≤ m → m ≤ n → outs[m - 1]? = some 1) ∧
      (∀ xs : List ℝ, ∃ (outs : List ℝ) (F1 : FirFilter ℝ),
        F.run xs = some (outs, F1) ∧ outs.length = xs.length ∧
        ∀ (i : Nat) (lo hi : ℝ), i < xs.length →
          (∀ k : Nat, k < 15 →
            lo ≤ sampleAt xs ((i : Int) + 1 - (k : Int)) ∧
              sampleAt xs ((i : Int) + 1 - (k : Int)) ≤ hi) →
          lo ≤ outs.getD i 0 ∧ outs.getD i 0 ≤ hi)) := by
  have hlen := deployedTaps_length Real.sin Real.cos Real.pi
  have h1len : 1 ≤ (deployedTaps Real.sin Real.cos Real.pi).length := by
    rw [hlen]
    decide
  have hL : ∀ abs : ℝ → ℝ,
      (constructed abs (deployedTaps Real.sin Real.cos Real.pi)).Length = 15 := by
    intro abs
    show ((deployedTaps Real.sin Real.cos Real.pi).length : Int) = 15
    rw [hlen]
    rfl
  have hcl : ∀ abs : ℝ → ℝ,
      (constructed abs (deployedTaps Real.sin Real.cos Real.pi)).m_Coefs.length = 15 := by
    intro abs
    show (List.map _ _).length = 15
    rw [List.length_map, hlen]
  constructor
  · have hz : ((deployedTaps Real.sin Real.cos Real.pi).map abs_int).sum = 0 := by
      apply sum_map_abs_int
      intro t ht
      obtain ⟨h0, h1⟩ := deployedTaps_bounds t ht
      rw [abs_of_pos h0]
      exact h1
    obtain ⟨g0, g1, gc⟩ := constructed_of_gain_zero _ hz
    have hs := deployedTaps_sum_le
    have hlt : (deployedTaps Real.sin Real.cos Real.pi).sum < 1 :=
      lt_of_le_of_lt hs (by norm_num)
    refine ⟨_, _, new1_deployed Real.sin Real.cos Real.pi,
      new_deployed Real.sin Real.cos Real.pi ci co freedv n1 n2 n3, rfl, rfl, hcl _, hL _, g0,
      g1, gc, ?_, ?_, ?_, fun n => ?_⟩
    · rw [gc]
      exact deployedTaps_bounds
    · rw [gc]
      exact hs
    · rw [gc]
      exact ne_of_lt hlt
    · obtain ⟨outs, F1, r1, r2, r3⟩ := @dc_gain_of_constructed ℝ abs_int _ _ h1len n
      refine ⟨outs, F1, r1, r2, fun m hm1 hm2 => ?_⟩
      rw [r3 m (by rw [hL]; exact hm1) hm2, g1, mul_one, gc]
      exact ⟨rfl, hlt⟩
  · obtain ⟨hc, hs, hdc⟩ := constructed_of_pos (deployedTaps Real.sin Real.cos Real.pi) h1len
      (fun t ht => (deployedTaps_bounds t ht).1)
    refine ⟨_, _, new1_deployed Real.sin Real.cos Real.pi,
      new_deployed Real.sin Real.cos Real.pi ci co freedv n1 n2 n3, rfl, rfl, hcl _, hL _, hc,
      hs, fun n => ?_, fun xs => ?_⟩
    · obtain ⟨outs, F1, r1, r2, r3⟩ := @dc_gain_of_constructed ℝ abs_float _ _ h1len n
      refine ⟨outs, F1, r1, r2, fun m hm1 hm2 => ?_⟩
      rw [r3 m (by rw [hL]; exact hm1) hm2, hdc]
    · obtain ⟨outs, F1, r1, r2, r3⟩ := constructed_run_convex _ h1len hc hs xs
      refine ⟨outs, F1, r1, r2, fun i lo hi hi1 hB => r3 i lo hi hi1 ?_⟩
      rw [hlen]
      exact hB

/-- C30: peak level of the filter outputs.

First the failing input: with `int abs(int)` in `CalculateGain`, the high-pass filter with 3
taps, the rectangle window and the cutoff 12000 Hz at 48000 Hz keeps its pre-normalization taps
`-1 / pi, 1 / 2, -1 / pi` (`OverallGain` is 0 although no tap is 0, `GainCorrection` is 1); their
absolute values sum to `1 / 2 + 2 / pi`, which is more than 1, and fed the samples `-1, 1, -1`,
all of magnitude 1, the filter returns `1 / 2 + 2 / pi` as its third output.

Then the claim with the floating-point `abs`, for every constructed filter (either constructor,
matching kind, any window function, any cutoffs, a sample rate `fs > 0`, requested length
`L ≥ 2`, for the rectangle window also `L ≥ 0`): the absolute values of the stored taps sum to 1
when `OverallGain` is not 0, and all stored taps are 0 otherwise; and for every input sequence
fed to the new filter, every call returns and the magnitude of each output is at most any bound
on the magnitudes of the last `Length` inputs (the inputs before the first count as 0, the
initial content of the ring). -/
theorem C30_filter_never_amplifies_peak :
    (∃ (F : FirFilter ℝ) (outs : List ℝ) (F1 : FirFilter ℝ),
      FirFilter.new1 abs_int Real.sin Real.pi FirFilter.Types.HighPass 3 12000 48000
        RectangleWindow = .ok F ∧
      F.m_Coefs = [-(1 / Real.pi), 1 / 2, -(1 / Real.pi)] ∧
      F.OverallGain = 0 ∧ F.GainCorrection = 1 ∧ (∃ c ∈ F.m_Coefs, c ≠ 0) ∧
      (F.m_Coefs.map (fun t => |t|)).sum = 1 / 2 + 2 / Real.pi ∧
      1 < (F.m_Coefs.map (fun t => |t|)).sum ∧
      F.run [-1, 1, -1] = some (outs, F1) ∧
      (∀ x ∈ ([-1, 1, -1] : List ℝ), |x| ≤ 1) ∧
      outs[2]? = some (1 / 2 + 2 / Real.pi) ∧ 1 < |(1 / 2 + 2 / Real.pi : ℝ)|) ∧
    (∀ (β : Type) [LinearOrderedField β] (sin : β → β) (pi : β) (L : Int) (fc f1 f2 : β)
      (fs : Nat) (f : WindowFunction β),
      0 ≤ L → 0 < fs → (2 ≤ L ∨ f = RectangleWindow) →
      (∀ type : FirFilter.Types,
        type = FirFilter.Types.LowPass ∨ type = FirFilter.Types.HighPass →
        ∃ F : FirFilter β,
          FirFilter.new1 abs_float sin pi type L fc fs f = .ok F ∧
          (F.OverallGain ≠ 0 → (F.m_Coefs.map (fun t => |t|)).sum = 1) ∧
          (F.OverallGain = 0 → ∀ c ∈ F.m_Coefs, c = 0) ∧
          ∀ xs : List β, ∃ (outs : List β) (F1 : FirFilter β),
            F.run xs = some (outs, F1) ∧ outs.length = xs.length ∧
            ∀ (i : Nat) (B : β), i < xs.length →
              (∀ k : Nat, k < F.Length.toNat →
                |sampleAt xs ((i : Int) + 1 - (k : Int))| ≤ B) →
              |outs.getD i 0| ≤ B) ∧
      (∀ type : FirFilter.Types,
        type = FirFilter.Types.BandPass ∨ type = FirFilter.Types.BandStop →
        ∃ F : FirFilter β,
          FirFilter.new2 abs_float sin pi type L f1 f2 fs f = .ok F ∧
          (F.OverallGain ≠ 0 → (F.m_Coefs.map (fun t => |t|)).sum = 1) ∧
          (F.OverallGain = 0 → ∀ c ∈ F.m_Coefs, c = 0) ∧
          ∀ xs : List β, ∃ (outs : List β) (F1 : FirFilter β),
            F.run xs = some (outs, F1) ∧ outs.length = xs.length ∧
            ∀ (i : Nat) (B : β), i < xs.length →
              (∀ k : Nat, k < F.Length.toNat →
                |sampleAt xs ((i : Int) + 1 - (k : Int))| ≤ B) →
              |outs.getD i 0| ≤ B)) := by
  constructor
  · have hpi := Real.pi_pos
    have hpi3 := Real.pi_gt_three
    have hpi4 := Real.pi_lt_d2
    obtain ⟨g, hgk, hg⟩ := generate1_ok Real.sin Real.pi FirFilter.Types.HighPass 3 (by decide)
      (Or.inr rfl) (2 * Real.pi * 12000 / ((48000 : Nat) : ℝ)) RectangleWindow
    have hgl : g = IdealHighPass Real.sin Real.pi := by
      rcases hgk with ⟨h, _⟩ | ⟨_, h⟩
      · exact absurd h (by decide)
      · exact h
    subst hgl
    rw [highPass3_taps] at hg
    have hnew := @new1_of_generate1 ℝ abs_int _ Real.sin Real.pi FirFilter.Types.HighPass 3 12000
      48000 RectangleWindow _ hg (by decide)
    have hinv : 1 / Real.pi < 1 := by
      rw [div_lt_one hpi]
      linarith
    have hinv0 : 0 < 1 / Real.pi := by positivity
    have hz : (([-(1 / Real.pi), 1 / 2, -(1 / Real.pi)] : List ℝ).map abs_int).sum = 0 := by
      apply sum_map_abs_int
      intro t ht
      simp only [List.mem_cons, List.mem_singleton, List.not_mem_nil, or_false] at ht
      rcases ht with rfl | rfl | rfl
      · rw [abs_neg, abs_of_pos hinv0]; exact hinv
      · rw [abs_of_pos (by norm_num)]; norm_num
      · rw [abs_neg, abs_of_pos hinv0]; exact hinv
    obtain ⟨g0, g1, gc⟩ := constructed_of_gain_zero _ hz
    have hsum : (([-(1 / Real.pi), 1 / 2, -(1 / Real.pi)] : List ℝ).map (fun c => |c|)).sum
        = 1 / 2 + 2 / Real.pi := by
      simp only [List.map_cons, List.map_nil, List.sum_cons, List.sum_nil]
      rw [abs_neg, abs_of_pos hinv0, abs_of_pos (by norm_num : (0 : ℝ) < 1 / 2)]
      ring
    have hbig : (1 : ℝ) < 1 / 2 + 2 / Real.pi := by
      have : (1 : ℝ) / 2 < 2 / Real.pi := by
        rw [div_lt_div_iff₀ (by norm_num) hpi]
        linarith
      linarith
    obtain ⟨F1, hrun⟩ := run_fresh (constructed abs_int
        ([-(1 / Real.pi), 1 / 2, -(1 / Real.pi)] : List ℝ))
      (constructed_wellFormed _ (by decide)) rfl (fun j => getD_replicate_zero _ j)
      [-1, 1, -1]
    refine ⟨_, _, F1, hnew, gc, g0, g1, ⟨1 / 2, ?_, by norm_num⟩, ?_, ?_, hrun, ?_, ?_, ?_⟩
    · rw [gc]
      simp
    · rw [gc]
      exact hsum
    · rw [gc, hsum]
      exact hbig
    · intro x hx
      simp only [List.mem_cons, List.mem_singleton, List.not_mem_nil, or_false] at hx
      rcases hx with rfl | rfl | rfl <;> norm_num
    · rw [gc]
      simp only [List.length_cons, List.length_nil, List.getElem?_map]
      rw [List.getElem?_range (by decide)]
      simp only [Option.map_some', Option.some.injEq]
      simp only [firOutput, List.length_cons, List.length_nil, Finset.sum_range_succ,
        Finset.sum_range_zero, sampleAt]
      have e2 : Int.toNat 2 = 2 := rfl
      norm_num [e2]
      ring
    · rw [abs_of_pos (by positivity)]
      exact hbig
  · intro β _ sin pi L fc f1 f2 fs f hL _ _
    constructor
    · intro type ht
      obtain ⟨g, _, hg⟩ := generate1_ok sin pi type L hL ht (2 * pi * fc / (fs : β)) f
      exact ⟨_, new1_of_generate1 sin pi type L fc fs f _ hg (windowedTaps_length_int _ _ L hL),
        (constructed_abs_sum _).1, (constructed_abs_sum _).2,
        constructed_run_bound _ (windowedTaps_pos _ _ _)⟩
    · intro type ht
      obtain ⟨g, _, hg⟩ := generate2_ok sin pi type L hL ht (2 * pi * f1 / (fs : β))
        (2 * pi * f2 / (fs : β)) f
      exact ⟨_, new2_of_generate2 sin pi type L f1 f2 fs f _ hg
        (windowedTaps_length_int _ _ L hL),
        (constructed_abs_sum _).1, (constructed_abs_sum _).2,
        constructed_run_bound _ (windowedTaps_pos _ _ _)⟩

/-- Witness for the second part of C30: a high-pass filter over the rationals with requested
length 4. -/
theorem C30_filter_never_amplifies_peak_witness :
    ∃ F : FirFilter ℚ,
      FirFilter.new1 abs_float (fun x : ℚ => x) 3 FirFilter.Types.HighPass 4 1 4 RectangleWindow
        = .ok F ∧
      (F.OverallGain ≠ 0 → (F.m_Coefs.map (fun t => |t|)).sum = 1) ∧
      (F.OverallGain = 0 → ∀ c ∈ F.m_Coefs, c = 0) ∧
      ∀ xs : List ℚ, ∃ (outs : List ℚ) (F1 : FirFilter ℚ),
        F.run xs = some (outs, F1) ∧ outs.length = xs.length ∧
        ∀ (i : Nat) (B : ℚ), i < xs.length →
          (∀ k : Nat, k < F.Length.toNat → |sampleAt xs ((i : Int) + 1 - (k : Int))| ≤ B) →
          |outs.getD i 0| ≤ B :=
  (C30_filter_never_amplifies_peak.2 ℚ (fun x : ℚ => x) 3 4 1 1 2 4 RectangleWindow (by decide)
    (by decide) (Or.inl (by decide))).1 FirFilter.Types.HighPass (Or.inr rfl)

/-- C31: in an `RX`/`TX` callback on a device whose decimation filter is well-formed, holds the
samples delivered so far (`Tracks past`) and has taps whose absolute values sum to at most 1: if
the samples delivered so far and the samples read by this callback all lie in `[-1, 1]`, then
the input loop returns, every output of the decimation filter lies in `[-1, 1]`, and every value
`SHRT_MAX * output` that is converted and appended to `in_buffer` lies in `[-32767, 32767]`.
The filter keeps these properties for the next callback (the rest of the callback does not touch
it).  The filter of a newly constructed device has them with an empty past, for either candidate
for `abs` in `CalculateGain`: with `int abs(int)` the taps are the 15 pre-normalization taps,
which are positive with a sum of at most `1337 / 1500` (over the reals); with the floating-point
`abs` the absolute values of the normalized taps sum to at most 1. -/
theorem C31_queued_samples_fit_16_bits [LinearOrderedField α] (abs : α → α) (M : Modem μ)
    (toInt16 : α → Int) (s : SoundCardDV α μ) (inp : List α) (count nin : Nat)
    (past : List α)
    (hm : s.mMode = ModesDV.RX ∨ s.mMode = ModesDV.TX)
    (hnin : nin = if s.mMode = ModesDV.RX then M.freedv_nin s.m_freedv else s.n_speech_samples)
    (hin : ∀ k : Nat, k < count → k * s.channelsIn < inp.length)
    (hF : s.m_DecFilter.WellFormed) (hT : s.m_DecFilter.Tracks past)
    (hc : (s.m_DecFilter.m_Coefs.map (fun t => |t|)).sum ≤ 1)
    (hpast : ∀ x ∈ past, |x| ≤ 1)
    (hnow : ∀ k : Nat, k < count → |inp.getD (k * s.channelsIn) 0| ≤ 1) :
    (∃ (s1 : SoundCardDV α μ) (log app : List (α × α)),
      inputTrace abs toInt16 inp s.channelsIn nin count 0
        { s with m_Frames := (s.m_Frames + 1) % 2 ^ 64 } = some (s1, log) ∧
      SoundCardDV.inputLoop abs toInt16 inp s.channelsIn nin count 0
        { s with m_Frames := (s.m_Frames + 1) % 2 ^ 64 } = some s1 ∧
      app.Sublist log ∧
      s1.in_buffer
        = s.in_buffer ++ app.map (fun p => toInt16 (((SHRT_MAX : Int) : α) * p.2)) ∧
      (∀ p ∈ log, |p.1| ≤ 1 ∧ |p.2| ≤ 1 ∧
        -32767 ≤ ((SHRT_MAX : Int) : α) * p.2 ∧ ((SHRT_MAX : Int) : α) * p.2 ≤ 32767) ∧
      s1.m_DecFilter.WellFormed ∧ s1.m_DecFilter.Tracks (past ++ log.map Prod.fst) ∧
      (s1.m_DecFilter.m_Coefs.map (fun t => |t|)).sum ≤ 1 ∧
      (∀ x ∈ past ++ log.map Prod.fst, |x| ≤ 1) ∧
      (∀ r : SoundCardDV α μ × List α, SoundCardDV.event abs M toInt16 s inp count = some r →
        r.1.m_DecFilter = s1.m_DecFilter)) ∧
    (∀ (ci co : Nat) (freedv : μ) (n1 n2 n3 : Nat),
      ∃ s0 : SoundCardDV ℝ μ,
        SoundCardDV.new abs_int Real.sin Real.cos Real.pi ci co (some freedv) n1 n2 n3
          = .ok s0 ∧
        s0.m_DecFilter.WellFormed ∧ s0.m_DecFilter.Tracks [] ∧
        (s0.m_DecFilter.m_Coefs.map (fun t => |t|)).sum ≤ 1337 / 1500 ∧
        (s0.m_DecFilter.m_Coefs.map (fun t => |t|)).sum ≤ 1) ∧
    (∀ (sin cos : α → α) (pi : α) (ci co : Nat) (freedv : μ) (n1 n2 n3 : Nat),
      ∃ s0 : SoundCardDV α μ,
        SoundCardDV.new abs_float sin cos pi ci co (some freedv) n1 n2 n3 = .ok s0 ∧
        s0.m_DecFilter.WellFormed ∧ s0.m_DecFilter.Tracks [] ∧
        (s0.m_DecFilter.m_Coefs.map (fun t => |t|)).sum ≤ 1) := by
  refine ⟨?_, fun ci co freedv n1 n2 n3 => ?_, fun sin cos pi ci co freedv n1 n2 n3 => ?_⟩
  rotate_left
  · have hz : ((deployedTaps Real.sin Real.cos Real.pi).map abs_int).sum = 0 := by
      apply sum_map_abs_int
      intro t ht
      obtain ⟨h0, h1⟩ := deployedTaps_bounds t ht
      rw [abs_of_pos h0]
      exact h1
    obtain ⟨_, _, gc⟩ := constructed_of_gain_zero _ hz
    obtain ⟨w1, w2, w3, _⟩ := @new_decFilter ℝ μ abs_int _ Real.sin Real.cos Real.pi ci co
      freedv n1 n2 n3 _ (new_deployed Real.sin Real.cos Real.pi ci co freedv n1 n2 n3)
    have hsum : ((constructed abs_int (deployedTaps Real.sin Real.cos Real.pi)).m_Coefs.map
        (fun t => |t|)).sum ≤ 1337 / 1500 := by
      rw [gc]
      have e : (deployedTaps Real.sin Real.cos Real.pi).map (fun t => |t|)
          = deployedTaps Real.sin Real.cos Real.pi := by
        conv_rhs => rw [← List.map_id (deployedTaps Real.sin Real.cos Real.pi)]
        apply List.map_congr_left
        intro t ht
        exact abs_of_pos (deployedTaps_bounds t ht).1
      rw [e]
      exact deployedTaps_sum_le
    exact ⟨_, new_deployed Real.sin Real.cos Real.pi ci co freedv n1 n2 n3, w1, w2, hsum,
      le_trans hsum (by norm_num)⟩
  · obtain ⟨w1, w2, w3, _⟩ := @new_decFilter α μ abs_float _ sin cos pi ci co
      freedv n1 n2 n3 _ (new_deployed sin cos pi ci co freedv n1 n2 n3)
    exact ⟨_, new_deployed sin cos pi ci co freedv n1 n2 n3, w1, w2, constructed_abs_sum_le _⟩
  have hin0 : ∀ k : Nat, k < count → (0 + k) * s.channelsIn < inp.length := by
    intro k hk
    rw [Nat.zero_add]
    exact hin k hk
  obtain ⟨s1, log, h1, h2, h3, _, h5, h6, _⟩ := @inputTrace_spec α μ abs _ toInt16 inp
    s.channelsIn nin count 0 ({ s with m_Frames := (s.m_Frames + 1) % 2 ^ 64 } : SoundCardDV α μ) hin0 hF
  obtain ⟨s1', log', app, g1, g2, g3⟩ := @inputTrace_queue α μ abs _ toInt16 inp
    s.channelsIn nin count 0 ({ s with m_Frames := (s.m_Frames + 1) % 2 ^ 64 } : SoundCardDV α μ) hin0 hF
  rw [h1] at g1
  have e1 : s1 = s1' := (Prod.mk.inj (Option.some.inj g1)).1
  have e2 : log = log' := (Prod.mk.inj (Option.some.inj g1)).2
  subst e1 e2
  have h6' : s.m_DecFilter.run (log.map Prod.fst)
      = some (log.map Prod.snd, s1.m_DecFilter) := h6
  obtain ⟨F1, hrun, hF1, hT1, hC1, _⟩ := FirFilter.run_spec (log.map Prod.fst) s.m_DecFilter
    past hF hT
  rw [hrun] at h6'
  have eo := (Prod.mk.inj (Option.some.inj h6')).1
  have eF : F1 = s1.m_DecFilter := (Prod.mk.inj (Option.some.inj h6')).2
  subst eF
  have hfst : ∀ x ∈ log.map Prod.fst, |x| ≤ 1 := by
    intro x hx
    obtain ⟨k, hk, rfl⟩ := List.getElem_of_mem hx
    have hk1 : k < log.length := by simpa using hk
    have hk2 : k < count := lt_of_lt_of_le hk1 h3
    have e := h5 k hk1
    rw [Nat.zero_add, getElem?_eq_some_getD inp 0 _ (hin k hk2), List.getElem?_eq_getElem hk] at e
    rw [← Option.some.inj e]
    exact hnow k hk2
  have hall : ∀ x ∈ past ++ log.map Prod.fst, |x| ≤ 1 := by
    intro x hx
    rcases List.mem_append.mp hx with h | h
    · exact hpast x h
    · exact hfst x h
  have hsnd : ∀ y ∈ log.map Prod.snd, |y| ≤ 1 := by
    intro y hy
    rw [← eo] at hy
    obtain ⟨i, _, rfl⟩ := List.mem_map.mp hy
    refine le_trans (firOutput_abs_le _ _ _ 1 (fun k _ => sampleAt_abs_le _ 1 zero_le_one hall _))
      ?_
    rw [mul_one]
    exact hc
  have hS : (((SHRT_MAX : Int) : α)) = 32767 := by
    simp [SHRT_MAX]
  refine ⟨s1, log, app, h1, h2, g2, g3, ?_, hF1, hT1, by rw [hC1]; exact hc, hall, ?_⟩
  · intro p hp
    have hp1 := hfst p.1 (List.mem_map.mpr ⟨p, hp, rfl⟩)
    have hp2 := hsnd p.2 (List.mem_map.mpr ⟨p, hp, rfl⟩)
    have := abs_le.mp hp2
    rw [hS]
    refine ⟨hp1, hp2, ?_, ?_⟩ <;> linarith
  · intro r hr
    obtain ⟨t1, t2, e1, e2, e3⟩ := event_rxtx M toInt16 s inp count hm r hr
    rw [← hnin] at e1 e2
    rw [h2] at e1
    have e11 : s1 = t1 := Option.some.inj e1
    subst e11
    exact after_input_decFilter M toInt16 nin count s1 t2 r e2 e3

/-- Witness for C31: two stereo frames with the samples 1 and -1 on the example device. -/
theorem C31_queued_samples_fit_16_bits_witness :
    (∃ (s1 : SoundCardDV ℚ Nat) (log app : List (ℚ × ℚ)),
      inputTrace abs_int truncToInt16 [1, 0, -1, 0] Example.card.channelsIn 1 2 0
        { Example.card with m_Frames := (Example.card.m_Frames + 1) % 2 ^ 64 }
          = some (s1, log) ∧
      SoundCardDV.inputLoop abs_int truncToInt16 [1, 0, -1, 0] Example.card.channelsIn 1 2 0
        { Example.card with m_Frames := (Example.card.m_Frames + 1) % 2 ^ 64 } = some s1 ∧
      app.Sublist log ∧
      s1.in_buffer = Example.card.in_buffer
        ++ app.map (fun p => truncToInt16 (((SHRT_MAX : Int) : ℚ) * p.2)) ∧
      (∀ p ∈ log, |p.1| ≤ 1 ∧ |p.2| ≤ 1 ∧
        -32767 ≤ ((SHRT_MAX : Int) : ℚ) * p.2 ∧ ((SHRT_MAX : Int) : ℚ) * p.2 ≤ 32767) ∧
      s1.m_DecFilter.WellFormed ∧ s1.m_DecFilter.Tracks (([] : List ℚ) ++ log.map Prod.fst) ∧
      (s1.m_DecFilter.m_Coefs.map (fun t => |t|)).sum ≤ 1 ∧
      (∀ x ∈ ([] : List ℚ) ++ log.map Prod.fst, |x| ≤ 1) ∧
      (∀ r : SoundCardDV ℚ Nat × List ℚ,
        SoundCardDV.event abs_int Example.modem truncToInt16 Example.card [1, 0, -1, 0] 2 = some r →
        r.1.m_DecFilter = s1.m_DecFilter)) ∧
    (∀ (ci co : Nat) (freedv : Nat) (n1 n2 n3 : Nat),
      ∃ s0 : SoundCardDV ℝ Nat,
        SoundCardDV.new abs_int Real.sin Real.cos Real.pi ci co (some freedv) n1 n2 n3
          = .ok s0 ∧
        s0.m_DecFilter.WellFormed ∧ s0.m_DecFilter.Tracks [] ∧
        (s0.m_DecFilter.m_Coefs.map (fun t => |t|)).sum ≤ 1337 / 1500 ∧
        (s0.m_DecFilter.m_Coefs.map (fun t => |t|)).sum ≤ 1) ∧
    (∀ (sin cos : ℚ → ℚ) (pi : ℚ) (ci co : Nat) (freedv : Nat) (n1 n2 n3 : Nat),
      ∃ s0 : SoundCardDV ℚ Nat,
        SoundCardDV.new abs_float sin cos pi ci co (some freedv) n1 n2 n3 = .ok s0 ∧
        s0.m_DecFilter.WellFormed ∧ s0.m_DecFilter.Tracks [] ∧
        (s0.m_DecFilter.m_Coefs.map (fun t => |t|)).sum ≤ 1) :=
  C31_queued_samples_fit_16_bits abs_int Example.modem truncToInt16 Example.card [1, 0, -1, 0] 2 1 []
    (Or.inr rfl) rfl
    (by
      intro k hk
      simp only [Example.card, List.length_cons, List.length_nil]
      omega)
    (by decide)
    (tracks_fresh _ rfl (fun j => by
      cases j with
      | zero => rfl
      | succ j => rfl))
    (by norm_num [Example.card, Example.unitFilter])
    (by simp)
    (by
      intro k hk
      interval_cases k <;> norm_num [Example.card])

/-- C33: for all `omega`, `omega1`, `omega2` and all integers `n`, `N`:
`IdealHighPass = delta - IdealLowPass`, `IdealBandStop = delta - IdealBandPass` and
`IdealBandPass(omega1, omega2) = IdealLowPass(omega2) - IdealLowPass(omega1)`, where `delta` is 1
at `n = 0` and 0 elsewhere (exact arithmetic, any function in place of `sin`). -/
theorem C33_ideal_responses_are_complementary [Field α] (sin : α → α) (pi : α)
    (omega omega1 omega2 : α) (n N : Int) :
    IdealHighPass sin pi omega n N
      = (if n = 0 then 1 else 0) - IdealLowPass sin pi omega n N ∧
    IdealBandStop sin pi omega1 omega2 n N
      = (if n = 0 then 1 else 0) - IdealBandPass sin pi omega1 omega2 n N ∧
    IdealBandPass sin pi omega1 omega2 n N
      = IdealLowPass sin pi omega2 n N - IdealLowPass sin pi omega1 n N := by
  unfold IdealHighPass IdealBandStop IdealBandPass IdealLowPass
  by_cases h : n = 0
  · exact ⟨by simp only [if_pos h], by simp only [if_pos h], by simp only [if_pos h]; ring⟩
  · refine ⟨?_, ?_, ?_⟩ <;> simp only [if_neg h] <;> ring

/-- C34: for a callback state whose array holds a text of length `L ≥ 1` without terminator,
followed by the terminator, with the read cursor at its start: the first `k` calls of the
next-character callback return, call `j` returning character `j mod L` of the text, and the
call after them (call number `k`, counting from 0) returns character `k mod L`, which is not
the terminator, and leaves the cursor inside the text, at index `(k + 1) mod L`; array and call
counter are unchanged.  Every `text(s)` that returns leaves the state in this form, for the
stored text (`s`, or `DEFAULT_TEXT`, up to its first terminator). -/
theorem C34_tx_text_is_read_cyclically (st : local_callback_state) (text rest : List Char)
    (htx : st.tx_str = text ++ NUL :: rest) (hn : NUL ∉ text) (hL : 1 ≤ text.length)
    (h0 : st.ptx_str = 0) (k : Nat) :
    (∃ (cs : List Char) (st1 : local_callback_state) (c : Char) (st2 : local_callback_state),
      nextChars k st = some (cs, st1) ∧ cs.length = k ∧
      (∀ j : Nat, j < k → cs[j]? = text[j % text.length]?) ∧
      local_get_next_tx_char st1 = some (c, st2) ∧
      text[k % text.length]? = some c ∧ c ≠ NUL ∧
      st2.ptx_str = (k + 1) % text.length ∧ st2.ptx_str < text.length ∧
      st2.tx_str = st.tx_str ∧ st2.calls = st.calls) ∧
    (∀ (d d1 : Device α μ) (s : List Char), d.setText s = some d1 →
      ∃ rest1 : List Char,
        d1.cb_state.tx_str
          = (if s.isEmpty then DEFAULT_TEXT else s).takeWhile (fun c => c != NUL)
            ++ NUL :: rest1 ∧
        NUL ∉ (if s.isEmpty then DEFAULT_TEXT else s).takeWhile (fun c => c != NUL) ∧
        d1.cb_state.ptx_str = 0) := by
  refine ⟨?_, fun d d1 s h => setText_stored d d1 s h⟩
  have hpos : 0 < text.length := by omega
  obtain ⟨cs, st1, h1, h2, h3, h4⟩ := nextChars_spec text rest hn k 0 st htx h0 hpos
  have hk : k % text.length < text.length := Nat.mod_lt _ hpos
  have hstep := local_get_next_tx_char_eq st1 text rest (by rw [h4]; exact htx) hn
    (k % text.length) (by rw [h4, Nat.zero_add]) hk
  refine ⟨cs, st1, _, _, h1, h2, ?_, hstep, getElem?_eq_some_getD text NUL _ hk, ?_, ?_, ?_, ?_,
    ?_⟩
  · intro j hj
    have := h3 j hj
    rwa [Nat.zero_add] at this
  · intro e
    apply hn
    rw [← e, List.getD_eq_getElem _ _ hk]
    exact List.getElem_mem _
  · show (k % text.length + 1) % text.length = _
    rw [Nat.mod_add_mod]
  · exact Nat.mod_lt _ hpos
  · show st1.tx_str = _
    rw [h4]
  · show st1.calls = _
    rw [h4]

/-- Witness for C34: the text `AB` in a buffer of five characters, six calls. -/
theorem C34_tx_text_is_read_cyclically_witness :
    (∃ (cs : List Char) (st1 : local_callback_state) (c : Char) (st2 : local_callback_state),
      nextChars 5 { tx_str := "AB".toList ++ NUL :: [NUL, 'x'], ptx_str := 0, calls := 0 }
        = some (cs, st1) ∧ cs.length = 5 ∧
      (∀ j : Nat, j < 5 → cs[j]? = "AB".toList[j % "AB".toList.length]?) ∧
      local_get_next_tx_char st1 = some (c, st2) ∧
      "AB".toList[5 % "AB".toList.length]? = some c ∧ c ≠ NUL ∧
      st2.ptx_str = (5 + 1) % "AB".toList.length ∧ st2.ptx_str < "AB".toList.length ∧
      st2.tx_str = "AB".toList ++ NUL :: [NUL, 'x'] ∧ st2.calls = 0) ∧
    (∀ (d d1 : Device ℚ Nat) (s : List Char), d.setText s = some d1 →
      ∃ rest1 : List Char,
        d1.cb_state.tx_str
          = (if s.isEmpty then DEFAULT_TEXT else s).takeWhile (fun c => c != NUL)
            ++ NUL :: rest1 ∧
        NUL ∉ (if s.isEmpty then DEFAULT_TEXT else s).takeWhile (fun c => c != NUL) ∧
        d1.cb_state.ptx_str = 0) :=
  C34_tx_text_is_read_cyclically
    { tx_str := "AB".toList ++ NUL :: [NUL, 'x'], ptx_str := 0, calls := 0 }
    "AB".toList [NUL, 'x'] rfl (by decide) (by decide) rfl 5

/-- C35: after `SplitCommand`, `input` is `cmd` when `arg` is empty and `cmd` followed by `=` and
`arg` otherwise, neither `cmd` nor `arg` contains `=`, and a second call on the rewritten
`input` yields the same `input`, `cmd` and `arg`. -/
theorem C35_split_command_is_canonical_and_idempotent (input : List Char) :
    ((SplitCommand input).2.2 = [] → (SplitCommand input).1 = (SplitCommand input).2.1) ∧
    ((SplitCommand input).2.2 ≠ [] →
      (SplitCommand input).1 = (SplitCommand input).2.1 ++ "=".toList ++ (SplitCommand input).2.2) ∧
    '=' ∉ (SplitCommand input).2.1 ∧ '=' ∉ (SplitCommand input).2.2 ∧
    SplitCommand (SplitCommand input).1 = SplitCommand input := by
  obtain ⟨h1, h2⟩ := SplitCommand_eq input
  have hin := SplitCommand_input input
  have hcmd : '=' ∉ (SplitCommand input).2.1 := by
    rw [h1, toUpper_eq_sign]
    intro hm
    have := List.mem_takeWhile_imp hm
    simp at this
  have harg : '=' ∉ (SplitCommand input).2.2 := by
    rw [h2]
    intro hm
    have := (List.mem_filter.mp hm).2
    simp at this
  have hup : my.toUpper (SplitCommand input).2.1 = (SplitCommand input).2.1 := by
    rw [h1]
    exact toUpper_idem _
  have key : (SplitCommand (SplitCommand input).1).2.1 = (SplitCommand input).2.1 ∧
      (SplitCommand (SplitCommand input).1).2.2 = (SplitCommand input).2.2 := by
    by_cases he : (SplitCommand input).2.2 = []
    · rw [hin, if_pos he]
      obtain ⟨e1, e2⟩ := SplitCommand_no_sign _ hcmd
      rw [e1, e2, hup, he]
      exact ⟨rfl, rfl⟩
    · rw [hin, if_neg he]
      obtain ⟨e1, e2⟩ := SplitCommand_one_sign _ _ hcmd harg
      rw [e1, e2, hup]
      exact ⟨rfl, rfl⟩
  refine ⟨fun he => ?_, fun he => ?_, hcmd, harg, ?_⟩
  · rw [hin, if_pos he]
  · rw [hin, if_neg he]
    simp
  · have hin2 := SplitCommand_input (SplitCommand input).1
    rw [key.1, key.2, ← hin] at hin2
    exact Prod.ext hin2 (Prod.ext key.1 key.2)

/-- C36: for every `n` and every `N ≥ 3`, with `a = 2 * pi * (n + N / 2) / (N - 1)` (`N / 2` the
`int` division of the source): `FlatTopWindow(n, N)` is
`1 - 1.93 cos(a) + 1.29 cos(2a) - 0.388 cos(3a) + 0.028 cos(3a)`, which equals
`1 - 1.93 cos(a) + 1.29 cos(2a) - 0.360 cos(3a)`: there is no term in `cos(4a)`. -/
theorem C36_flat_top_reuses_third_argument [LinearOrderedField α] (cos : α → α) (pi : α) (n N : Int)
    (_hN : 3 ≤ N) (a : α)
    (ha : a = 2 * pi * ((n + Int.tdiv N 2 : Int) : α) / ((N - 1 : Int) : α)) :
    FlatTopWindow cos pi n N
      = 1 - 1.93 * cos a + 1.29 * cos (2 * a) - 0.388 * cos (3 * a) + 0.028 * cos (3 * a) ∧
    FlatTopWindow cos pi n N
      = 1 - 1.93 * cos a + 1.29 * cos (2 * a) - 0.360 * cos (3 * a) := by
  have h2 : windowAngle pi 2 n N = a := by
    rw [ha]
    rfl
  have h4 : windowAngle pi 4 n N = 2 * a := by
    rw [ha]
    unfold windowAngle
    ring
  have h6 : windowAngle pi 6 n N = 3 * a := by
    rw [ha]
    unfold windowAngle
    ring
  have h1 : FlatTopWindow cos pi n N
      = 1 - 1.93 * cos a + 1.29 * cos (2 * a) - 0.388 * cos (3 * a) + 0.028 * cos (3 * a) := by
    unfold FlatTopWindow
    rw [h2, h4, h6]
  refine ⟨h1, ?_⟩
  rw [h1]
  have e : (0.388 : α) - 0.028 = 0.360 := by norm_num
  linear_combination (-(cos (3 * a))) * e

/-- Witness for C36: `n = 1`, `N = 5` over the rationals, with the identity in place of `cos`. -/
theorem C36_flat_top_reuses_third_argument_witness :
    FlatTopWindow (fun x : ℚ => x) 3 1 5
      = 1 - 1.93 * (fun x : ℚ => x) (2 * 3 * (((1 + Int.tdiv 5 2 : Int) : ℚ)) / ((5 - 1 : Int) : ℚ))
        + 1.29 * (fun x : ℚ => x) (2 * (2 * 3 * (((1 + Int.tdiv 5 2 : Int) : ℚ)) / ((5 - 1 : Int) : ℚ)))
        - 0.388 * (fun x : ℚ => x) (3 * (2 * 3 * (((1 + Int.tdiv 5 2 : Int) : ℚ)) / ((5 - 1 : Int) : ℚ)))
        + 0.028 * (fun x : ℚ => x) (3 * (2 * 3 * (((1 + Int.tdiv 5 2 : Int) : ℚ)) / ((5 - 1 : Int) : ℚ))) ∧
    FlatTopWindow (fun x : ℚ => x) 3 1 5
      = 1 - 1.93 * (fun x : ℚ => x) (2 * 3 * (((1 + Int.tdiv 5 2 : Int) : ℚ)) / ((5 - 1 : Int) : ℚ))
        + 1.29 * (fun x : ℚ => x) (2 * (2 * 3 * (((1 + Int.tdiv 5 2 : Int) : ℚ)) / ((5 - 1 : Int) : ℚ)))
        - 0.360 * (fun x : ℚ => x) (3 * (2 * 3 * (((1 + Int.tdiv 5 2 : Int) : ℚ)) / ((5 - 1 : Int) : ℚ))) :=
  C36_flat_top_reuses_third_argument (fun x : ℚ => x) 3 1 5 (by decide) _ rfl

end BridgeClaims
